import Mathlib

/-!
Verification of the transaction stream decoder of the Fantom Ledger app
(`src/tx_stream.c`).  The module is a resumable RLP-style streaming parser:
a byte stream arrives in arbitrarily sized chunks, each consumed byte is fed
into a running SHA3 accumulator, and a fixed schema of transaction fields is
decoded into a caller-owned record.

The embedding below mirrors `tx_stream.c` function by function.  C pointers
into the per-call work buffer become a list plus a cursor; `THROW`/`VALIDATE`
become an `Except` carrying the context at the throw point (the top-level
`txStreamProcess` catches every throw and converts it to a fault status, as
the `BEGIN_TRY`/`CATCH_OTHER` block does in C).  The SHA3 accumulator is
modelled by the list of bytes fed to it (`hashData`); the accumulator state
after a run is a function of exactly that byte sequence.  `hashLog`
additionally records one entry per `cx_hash` call, tagged by call site, so
statements about which code path fed a byte can be made.

The collaborators that are not part of `src/` (the RLP length primitives of
`rlp_utils.c` and the constants and schema enumeration of `tx_stream.h`) are
modelled from the specification and marked as such.
-/

set_option maxHeartbeats 1000000

namespace TxStream

/-- Status codes returned by the stream driver, mirroring `tx_stream_status_e`. -/
inductive tx_stream_status_e where
  | processing
  | finished
  | fault
deriving DecidableEq, Repr

/-- One `cx_hash` feeding event, tagged by call site: `readB` is the single
byte fed from `txStreamReadByte`, `copyB` is the span fed from
`txStreamCopyData`.  The accumulator state itself depends only on the
concatenation of the fed bytes (kept in `hashData`). -/
inductive HashEv where
  | readB (b : Nat)
  | copyB (bs : List Nat)
deriving DecidableEq, Repr

/-- Modelled from the spec: the fixed, ordered field schema with sentinel
"not started" and "done" values (`tx_stream.h` is not part of `src/`; the
order `envelope, type, nonce, gasPrice, startGas, value, recipient, data,
v, r, s` is the schema given in the specification, section 8). -/
def TX_RLP_NONE : Nat := 0

/-- Schema position of the transaction envelope list. -/
def TX_RLP_ENVELOPE : Nat := 1

/-- Schema position of the optional transaction type field. -/
def TX_RLP_TYPE : Nat := 2

/-- Schema position of the sender nonce field. -/
def TX_RLP_NONCE : Nat := 3

/-- Schema position of the gas price field. -/
def TX_RLP_GAS_PRICE : Nat := 4

/-- Schema position of the start gas (gas limit) field. -/
def TX_RLP_START_GAS : Nat := 5

/-- Schema position of the value field. -/
def TX_RLP_VALUE : Nat := 6

/-- Schema position of the recipient address field. -/
def TX_RLP_RECIPIENT : Nat := 7

/-- Schema position of the arbitrary data payload field. -/
def TX_RLP_DATA : Nat := 8

/-- Schema position of the signature recovery (chain id) field. -/
def TX_RLP_V : Nat := 9

/-- Schema position of the signature R component. -/
def TX_RLP_R : Nat := 10

/-- Schema position of the signature S component. -/
def TX_RLP_S : Nat := 11

/-- Terminal schema position. -/
def TX_RLP_DONE : Nat := 12

/-- Modelled from the spec: bound of the length scratch buffer
(`RLP_LENGTH_BUFFER_SIZE` in `tx_stream.h`).  Five bytes is the smallest
bound that lets every 32-bit length header become decodable (one tag byte
plus up to four length bytes), matching the spec's "small bounded scratch
buffer" that suffices for all valid headers. -/
def RLP_LENGTH_BUFFER_SIZE : Nat := 5

/-- Modelled from the spec: capacity of the numeric int256 destination slots
(`TX_MAX_INT256_LENGTH`), the "small fixed numeric maximum" of spec 4.3; an
int256 value occupies at most 32 bytes. -/
def TX_MAX_INT256_LENGTH : Nat := 32

/-- Modelled from the spec: capacity of the recipient address slot
(`TX_MAX_ADDRESS_LENGTH`); the spec's fixed address capacity is 20 bytes. -/
def TX_MAX_ADDRESS_LENGTH : Nat := 20

/-- Modelled from the spec: the "larger generic maximum" used for the
payload and signature component fields (`MAX_BUFFER_SIZE`). -/
def MAX_BUFFER_SIZE : Nat := 256

/-- Modelled from the spec: processing flag bit saying the transfer carries
an explicit type field (`TX_FLAG_TYPE`). -/
def TX_FLAG_TYPE : Nat := 1

/-- Destination slot for a numeric transaction field (`tx_int256_t`): a
fixed-capacity byte array plus the recorded real length.  The array is a
list of byte values. -/
structure tx_int256_t where
  value : List Nat
  length : Nat
deriving DecidableEq, Repr

/-- Destination slot for the recipient address (`tx_address_t`); same shape
as `tx_int256_t` (byte array plus recorded length). -/
abbrev tx_address_t := tx_int256_t

/-- Destination slot for the signature recovery field (`tx_v_t`); same shape
as `tx_int256_t`. -/
abbrev tx_v_t := tx_int256_t

/-- The caller-owned destination record (`transaction_t`), holding the five
retained slots. -/
structure transaction_t where
  gasPrice : tx_int256_t
  startGas : tx_int256_t
  value : tx_int256_t
  recipient : tx_address_t
  v : tx_v_t
deriving DecidableEq, Repr

/-- The parser state (`tx_stream_context_t`).  `workBuffer`/`workPos`/
`workBufferLength` model the per-call input cursor (C keeps a pointer that
advances and a remaining-length counter; here the full call buffer stays
fixed and `workPos` is the pointer offset).  `hashData` is the byte stream
fed to the SHA3 accumulator so far, `hashLog` the per-call-site feeding
trace. -/
structure tx_stream_context_t where
  currentField : Nat
  processingFlags : Nat
  dataLength : Nat
  currentFieldLength : Nat
  currentFieldPos : Nat
  isCurrentFieldList : Bool
  isFieldSingleByte : Bool
  isProcessingField : Bool
  rlpBuffer : List Nat
  rlpBufferPos : Nat
  workBuffer : List Nat
  workPos : Nat
  workBufferLength : Nat
  tx : transaction_t
  hashData : List Nat
  hashLog : List HashEv
deriving DecidableEq, Repr

/-- Modelled from the spec: the pure length-prefix readiness primitive
`rlpCanDecode(buffer, length, &valid)` of `rlp_utils.c` (not part of
`src/`; spec 6 gives its contract `canDecode(headerBytes) -> (ready,
wellFormed)` and the glossary fixes the RLP tag ranges).  `none` means more
header bytes are needed; `some valid` means the header is complete and
`valid` says whether it is well formed (headers announcing a length wider
than 32 bits are rejected). -/
def rlpCanDecode (buffer : List Nat) : Option Bool :=
  match buffer with
  | [] => none
  | b :: _ =>
    if b ≤ 0x7f then some true
    else if b ≤ 0xb7 then some true
    else if b ≤ 0xbf then
      if buffer.length < 1 + (b - 0xb7) then none
      else if b > 0xbb then some false
      else some true
    else if b ≤ 0xf7 then some true
    else
      if buffer.length < 1 + (b - 0xf7) then none
      else if b > 0xfb then some false
      else some true

/-- Modelled from the spec: the pure length-prefix decode primitive
`rlpDecodeLength(buffer, length, &fieldLength, &offset, &list)` of
`rlp_utils.c` (not part of `src/`; spec 6 gives `decodeLength(headerBytes)
-> (length, headerSize, isList)`).  Returns `some (fieldLength, offset,
isList)`; offset `0` is the self-encoding single byte `0x00..0x7f`. -/
def rlpDecodeLength (buffer : List Nat) : Option (Nat × Nat × Bool) :=
  match buffer with
  | [] => none
  | b :: rest =>
    if b ≤ 0x7f then some (1, 0, false)
    else if b ≤ 0xb7 then some (b - 0x80, 1, false)
    else if b ≤ 0xbf then
      if b - 0xb7 ≤ rest.length ∧ b ≤ 0xbb then
        some ((rest.take (b - 0xb7)).foldl (fun acc d => acc * 256 + d) 0, 1 + (b - 0xb7), false)
      else none
    else if b ≤ 0xf7 then some (b - 0xc0, 1, true)
    else
      if b - 0xf7 ≤ rest.length ∧ b ≤ 0xfb then
        some ((rest.take (b - 0xf7)).foldl (fun acc d => acc * 256 + d) 0, 1 + (b - 0xf7), true)
      else none

/-- Helper for modelling `os_memmove(out + pos, src, n)`: overwrite `dst`
starting at index `pos` with the bytes of `src` (writes past the end of
`dst` are dropped, as the capacity checks of the callers keep all real
writes in bounds). -/
def listWriteAt (dst : List Nat) (pos : Nat) (src : List Nat) : List Nat :=
  match src with
  | [] => dst
  | b :: rest => listWriteAt (dst.set pos b) (pos + 1) rest

/-- Embedding of `txStreamReadByte`: read one byte from the work buffer,
advance the cursor (and the in-field position when a field is being
processed), and feed the byte to the hash unless it belongs to a field
classified as a self-encoded single byte.  A read past the buffer throws
(`THROW(ERR_INVALID_DATA)` becomes `.error` with the context at the throw
point). -/
def txStreamReadByte (ctx : tx_stream_context_t) :
    Except tx_stream_context_t (Nat × tx_stream_context_t) :=
  if ctx.workBufferLength < 1 then .error ctx
  else
    let data := ctx.workBuffer.getD ctx.workPos 0
    let c1 := { ctx with workPos := ctx.workPos + 1,
                         workBufferLength := ctx.workBufferLength - 1 }
    let c2 := if c1.isProcessingField then
        { c1 with currentFieldPos := c1.currentFieldPos + 1 }
      else c1
    if !(c2.isProcessingField && c2.isFieldSingleByte) then
      .ok (data, { c2 with hashData := c2.hashData ++ [data],
                           hashLog := c2.hashLog ++ [HashEv.readB data] })
    else .ok (data, c2)

/-- Embedding of `txStreamCopyData`: move `length` bytes from the work
buffer into the destination (`out = some (buf, pos)` stands for the C
pointer `buf + pos`; `none` is the NULL destination that throws the data
away), feed the span to the hash unless the current field is a self-encoded
single byte, then advance the cursor and the in-field position.  Returns
the updated destination array alongside the context. -/
def txStreamCopyData (ctx : tx_stream_context_t) (out : Option (List Nat × Nat))
    (length : Nat) :
    Except tx_stream_context_t (Option (List Nat) × tx_stream_context_t) :=
  if ctx.workBufferLength < length then .error ctx
  else
    let chunk := (ctx.workBuffer.drop ctx.workPos).take length
    let out2 := out.map (fun p => listWriteAt p.1 p.2 chunk)
    let c1 := if !(ctx.isProcessingField && ctx.isFieldSingleByte) then
        { ctx with hashData := ctx.hashData ++ chunk,
                   hashLog := ctx.hashLog ++ [HashEv.copyB chunk] }
      else ctx
    let c2 := { c1 with workPos := c1.workPos + length,
                        workBufferLength := c1.workBufferLength - length }
    let c3 := if c2.isProcessingField then
        { c2 with currentFieldPos := c2.currentFieldPos + length }
      else c2
    .ok (out2, c3)

/-- Embedding of `txStreamProcessContent`: the envelope must be a list;
record its declared length for sanity, advance the schema position, clear
the in-field flag. -/
def txStreamProcessContent (ctx : tx_stream_context_t) :
    Except tx_stream_context_t tx_stream_context_t :=
  if !ctx.isCurrentFieldList then .error ctx
  else
    .ok { ctx with dataLength := ctx.currentFieldLength,
                   currentField := ctx.currentField + 1,
                   isProcessingField := false }

/-- Embedding of `txStreamProcessInt256Field`: a scalar field accumulator.
Faults (throws) if the field is marked as a list or its declared length
exceeds `fieldSize`.  Copies `min(bytes left in buffer, bytes left in the
field)` to the destination (or discards when `field` is `none`, the C NULL
pointer), and on reaching the declared length records the real length and
advances the schema position. -/
def txStreamProcessInt256Field (ctx : tx_stream_context_t)
    (field : Option tx_int256_t) (fieldSize : Nat) :
    Except tx_stream_context_t (Option tx_int256_t × tx_stream_context_t) :=
  if ctx.isCurrentFieldList then .error ctx
  else if ¬ (ctx.currentFieldLength ≤ fieldSize) then .error ctx
  else
    let step : Except tx_stream_context_t (Option tx_int256_t × tx_stream_context_t) :=
      if ctx.currentFieldPos < ctx.currentFieldLength then
        let toCopy := if ctx.workBufferLength < ctx.currentFieldLength - ctx.currentFieldPos
          then ctx.workBufferLength else ctx.currentFieldLength - ctx.currentFieldPos
        match field with
        | some f =>
          match txStreamCopyData ctx (some (f.value, ctx.currentFieldPos)) toCopy with
          | .error c => .error c
          | .ok (out2, c) => .ok (some { f with value := out2.getD f.value }, c)
        | none =>
          match txStreamCopyData ctx none toCopy with
          | .error c => .error c
          | .ok (_, c) => .ok (none, c)
      else .ok (field, ctx)
    match step with
    | .error c => .error c
    | .ok (field2, c2) =>
      if c2.currentFieldPos = c2.currentFieldLength then
        .ok (field2.map (fun f => { f with length := c2.currentFieldLength }),
             { c2 with currentField := c2.currentField + 1, isProcessingField := false })
      else .ok (field2, c2)

/-- Embedding of `txStreamProcessAddressField`; the body is identical to the
int256 accumulator, only the destination type differs in C. -/
def txStreamProcessAddressField (ctx : tx_stream_context_t)
    (address : Option tx_address_t) (fieldSize : Nat) :
    Except tx_stream_context_t (Option tx_address_t × tx_stream_context_t) :=
  if ctx.isCurrentFieldList then .error ctx
  else if ¬ (ctx.currentFieldLength ≤ fieldSize) then .error ctx
  else
    let step : Except tx_stream_context_t (Option tx_address_t × tx_stream_context_t) :=
      if ctx.currentFieldPos < ctx.currentFieldLength then
        let toCopy := if ctx.workBufferLength < ctx.currentFieldLength - ctx.currentFieldPos
          then ctx.workBufferLength else ctx.currentFieldLength - ctx.currentFieldPos
        match address with
        | some f =>
          match txStreamCopyData ctx (some (f.value, ctx.currentFieldPos)) toCopy with
          | .error c => .error c
          | .ok (out2, c) => .ok (some { f with value := out2.getD f.value }, c)
        | none =>
          match txStreamCopyData ctx none toCopy with
          | .error c => .error c
          | .ok (_, c) => .ok (none, c)
      else .ok (address, ctx)
    match step with
    | .error c => .error c
    | .ok (field2, c2) =>
      if c2.currentFieldPos = c2.currentFieldLength then
        .ok (field2.map (fun f => { f with length := c2.currentFieldLength }),
             { c2 with currentField := c2.currentField + 1, isProcessingField := false })
      else .ok (field2, c2)

/-- Embedding of `txStreamProcessVField`; the body is identical to the
int256 accumulator, only the destination type differs in C. -/
def txStreamProcessVField (ctx : tx_stream_context_t)
    (v : Option tx_v_t) (fieldSize : Nat) :
    Except tx_stream_context_t (Option tx_v_t × tx_stream_context_t) :=
  if ctx.isCurrentFieldList then .error ctx
  else if ¬ (ctx.currentFieldLength ≤ fieldSize) then .error ctx
  else
    let step : Except tx_stream_context_t (Option tx_v_t × tx_stream_context_t) :=
      if ctx.currentFieldPos < ctx.currentFieldLength then
        let toCopy := if ctx.workBufferLength < ctx.currentFieldLength - ctx.currentFieldPos
          then ctx.workBufferLength else ctx.currentFieldLength - ctx.currentFieldPos
        match v with
        | some f =>
          match txStreamCopyData ctx (some (f.value, ctx.currentFieldPos)) toCopy with
          | .error c => .error c
          | .ok (out2, c) => .ok (some { f with value := out2.getD f.value }, c)
        | none =>
          match txStreamCopyData ctx none toCopy with
          | .error c => .error c
          | .ok (_, c) => .ok (none, c)
      else .ok (v, ctx)
    match step with
    | .error c => .error c
    | .ok (field2, c2) =>
      if c2.currentFieldPos = c2.currentFieldLength then
        .ok (field2.map (fun f => { f with length := c2.currentFieldLength }),
             { c2 with currentField := c2.currentField + 1, isProcessingField := false })
      else .ok (field2, c2)

/-- Embedding of `txStreamParseFieldProxy`: dispatch the current schema
position to the matching accumulator.  The envelope records its length and,
when the flags carry no explicit type field, skips the optional type
position.  Retained fields write back into the destination record; the
type, nonce, data, R and S fields are parsed with a NULL destination.  An
unknown position returns `TX_STREAM_FAULT` through ordinary control flow
(not a throw). -/
def txStreamParseFieldProxy (ctx : tx_stream_context_t) :
    Except tx_stream_context_t (tx_stream_status_e × tx_stream_context_t) :=
  if ctx.currentField = TX_RLP_ENVELOPE then
    match txStreamProcessContent ctx with
    | .error c => .error c
    | .ok c =>
      if ctx.processingFlags &&& TX_FLAG_TYPE = 0 then
        .ok (.processing, { c with currentField := c.currentField + 1 })
      else .ok (.processing, c)
  else if ctx.currentField = TX_RLP_TYPE then
    match txStreamProcessInt256Field ctx none TX_MAX_INT256_LENGTH with
    | .error c => .error c
    | .ok (_, c) => .ok (.processing, c)
  else if ctx.currentField = TX_RLP_NONCE then
    match txStreamProcessInt256Field ctx none TX_MAX_INT256_LENGTH with
    | .error c => .error c
    | .ok (_, c) => .ok (.processing, c)
  else if ctx.currentField = TX_RLP_GAS_PRICE then
    match txStreamProcessInt256Field ctx (some ctx.tx.gasPrice) TX_MAX_INT256_LENGTH with
    | .error c => .error c
    | .ok (f, c) => .ok (.processing, { c with tx.gasPrice := f.getD c.tx.gasPrice })
  else if ctx.currentField = TX_RLP_START_GAS then
    match txStreamProcessInt256Field ctx (some ctx.tx.startGas) TX_MAX_INT256_LENGTH with
    | .error c => .error c
    | .ok (f, c) => .ok (.processing, { c with tx.startGas := f.getD c.tx.startGas })
  else if ctx.currentField = TX_RLP_VALUE then
    match txStreamProcessInt256Field ctx (some ctx.tx.value) TX_MAX_INT256_LENGTH with
    | .error c => .error c
    | .ok (f, c) => .ok (.processing, { c with tx.value := f.getD c.tx.value })
  else if ctx.currentField = TX_RLP_RECIPIENT then
    match txStreamProcessAddressField ctx (some ctx.tx.recipient) TX_MAX_ADDRESS_LENGTH with
    | .error c => .error c
    | .ok (f, c) => .ok (.processing, { c with tx.recipient := f.getD c.tx.recipient })
  else if ctx.currentField = TX_RLP_DATA ∨ ctx.currentField = TX_RLP_R ∨
      ctx.currentField = TX_RLP_S then
    match txStreamProcessInt256Field ctx none MAX_BUFFER_SIZE with
    | .error c => .error c
    | .ok (_, c) => .ok (.processing, c)
  else if ctx.currentField = TX_RLP_V then
    match txStreamProcessVField ctx (some ctx.tx.v) TX_MAX_INT256_LENGTH with
    | .error c => .error c
    | .ok (f, c) => .ok (.processing, { c with tx.v := f.getD c.tx.v })
  else
    .ok (.fault, ctx)

/-- Loop body of `txStreamDetectField`, unfolded on explicit fuel.  Each
iteration first checks the loop condition (`workBufferLength != 0`), then
the scratch bound, then feeds one byte into the scratch buffer and asks the
length primitive whether a header is decodable.  The fuel equals the number
of available bytes when entering the loop, which bounds the iteration count
exactly (every iteration consumes one byte), so the fuel-exhausted branch
coincides with the empty-buffer exit. -/
def txStreamDetectFieldGo (ctx : tx_stream_context_t) (fuel : Nat) :
    Except tx_stream_context_t (tx_stream_status_e × Bool × tx_stream_context_t) :=
  match fuel with
  | 0 => .ok (.processing, false, ctx)
  | fuel + 1 =>
    if ctx.workBufferLength = 0 then .ok (.processing, false, ctx)
    else if ctx.rlpBufferPos = RLP_LENGTH_BUFFER_SIZE then .ok (.fault, false, ctx)
    else
      match txStreamReadByte ctx with
      | .error c => .error c
      | .ok (b, c0) =>
        let c := { c0 with rlpBuffer := c0.rlpBuffer.set c0.rlpBufferPos b,
                           rlpBufferPos := c0.rlpBufferPos + 1 }
        match rlpCanDecode (c.rlpBuffer.take c.rlpBufferPos) with
        | none => txStreamDetectFieldGo c fuel
        | some false => .ok (.fault, false, c)
        | some true => .ok (.processing, true, c)

/-- Embedding of `txStreamDetectField`: feed bytes into the scratch buffer
until a field length block becomes decodable, the buffer runs dry, the
scratch bound is hit, or the primitive reports the bytes ill-formed. -/
def txStreamDetectField (ctx : tx_stream_context_t) :
    Except tx_stream_context_t (tx_stream_status_e × Bool × tx_stream_context_t) :=
  txStreamDetectFieldGo ctx ctx.workBufferLength

/-- The context preparation after a successful header decode in
`txStreamParse` (lines 359–380 of `tx_stream.c`): store the decoded length
and list flag, reset the scratch buffer, classify a self-encoded single
byte (offset 0) and in that case rewind the work-buffer cursor by one byte,
then enter field processing at position 0. -/
def fieldStart (c : tx_stream_context_t) (fieldLength offset : Nat) (isList : Bool) :
    tx_stream_context_t :=
  let c := { c with currentFieldLength := fieldLength,
                    isCurrentFieldList := isList,
                    rlpBufferPos := 0,
                    isFieldSingleByte := offset = 0 }
  let c := if offset = 0 then
      { c with workPos := c.workPos - 1,
               workBufferLength := c.workBufferLength + 1 }
    else c
  { c with currentFieldPos := 0, isProcessingField := true }

/-- One iteration of the `for (;;)` loop of `txStreamParse`.  The result
`.ok (some s, c)` is a `return s` from the loop, `.ok (none, c)` continues
with the next iteration, `.error c` is a throw.  The iteration checks the
terminal position, the legacy-transaction exit (position `v` with an
exhausted buffer), and buffer exhaustion; then, at a field edge, runs the
detector, decodes the header, classifies and rewinds a self-encoded single
byte (`fieldStart`), and finally dispatches the field proxy. -/
def txStreamParseStep (ctx : tx_stream_context_t) :
    Except tx_stream_context_t (Option tx_stream_status_e × tx_stream_context_t) :=
  if ctx.currentField = TX_RLP_DONE then .ok (some .finished, ctx)
  else if ctx.currentField = TX_RLP_V ∧ ctx.workBufferLength = 0 then
    .ok (some .finished, { ctx with tx.v.length := 0 })
  else if ctx.workBufferLength = 0 then .ok (some .processing, ctx)
  else
    let afterDetect : Except tx_stream_context_t (Option tx_stream_status_e × tx_stream_context_t) :=
      if !ctx.isProcessingField then
        match txStreamDetectField ctx with
        | .error c => .error c
        | .ok (st, canDecode, c) =>
          if st = .fault then .ok (some .fault, c)
          else if !canDecode then .ok (some .processing, c)
          else
            match rlpDecodeLength (c.rlpBuffer.take c.rlpBufferPos) with
            | none => .ok (some .fault, c)
            | some (fieldLength, offset, isList) =>
              .ok (none, fieldStart c fieldLength offset isList)
      else .ok (none, ctx)
    match afterDetect with
    | .error c => .error c
    | .ok (some s, c) => .ok (some s, c)
    | .ok (none, c) =>
      match txStreamParseFieldProxy c with
      | .error c => .error c
      | .ok (st, c) =>
        if st = .fault then .ok (some .fault, c) else .ok (none, c)

/-- The `for (;;)` loop of `txStreamParse`, unfolded on explicit fuel.
Every iteration that loops again consumes at least one byte of the work
buffer, so `workBufferLength + 2` fuel always suffices; the fuel-exhausted
branch is unreachable from states the driver can produce. -/
def txStreamParseGo (ctx : tx_stream_context_t) (fuel : Nat) :
    Except tx_stream_context_t (tx_stream_status_e × tx_stream_context_t) :=
  match fuel with
  | 0 => .ok (.processing, ctx)
  | fuel + 1 =>
    match txStreamParseStep ctx with
    | .error c => .error c
    | .ok (some s, c) => .ok (s, c)
    | .ok (none, c) => txStreamParseGo c fuel

/-- Embedding of `txStreamParse`: run the parse loop over the current work
buffer. -/
def txStreamParse (ctx : tx_stream_context_t) :
    Except tx_stream_context_t (tx_stream_status_e × tx_stream_context_t) :=
  txStreamParseGo ctx (ctx.workBufferLength + 2)

/-- Embedding of `txStreamProcess`: validate that there is data and that the
stream is awaiting a field (strictly between the `TX_RLP_NONE` and
`TX_RLP_DONE` sentinels), install the call buffer and the processing flags,
and run the parser.  Any throw is caught and surfaced as
`TX_STREAM_FAULT` (the context at the throw point is kept, mirroring the C
state after `CATCH_OTHER`).  A `(ptr, length)` pair in C is one byte list
here. -/
def txStreamProcess (ctx : tx_stream_context_t) (buffer : List Nat) (flags : Nat) :
    tx_stream_status_e × tx_stream_context_t :=
  let body : Except tx_stream_context_t (tx_stream_status_e × tx_stream_context_t) :=
    if ¬ (buffer.length > 0) then .error ctx
    else if ¬ (TX_RLP_NONE < ctx.currentField ∧ ctx.currentField < TX_RLP_DONE) then .error ctx
    else
      txStreamParse { ctx with workBuffer := buffer,
                               workBufferLength := buffer.length,
                               workPos := 0,
                               processingFlags := flags }
  match body with
  | .ok r => r
  | .error c => (.fault, c)

/-- Embedding of `txStreamInit`: clear the context (the SHA3 accumulator
starts empty), keep the caller's transaction record, and await the
envelope.  The caller-owned record itself is not cleared by the C code, so
it is a parameter here. -/
def txStreamInit (tx : transaction_t) : tx_stream_context_t where
  currentField := TX_RLP_ENVELOPE
  processingFlags := 0
  dataLength := 0
  currentFieldLength := 0
  currentFieldPos := 0
  isCurrentFieldList := false
  isFieldSingleByte := false
  isProcessingField := false
  rlpBuffer := List.replicate RLP_LENGTH_BUFFER_SIZE 0
  rlpBufferPos := 0
  workBuffer := []
  workPos := 0
  workBufferLength := 0
  tx := tx
  hashData := []
  hashLog := []

/-- Feeding a stream as a sequence of chunks: fold `txStreamProcess` over
the fragments, keeping the last returned status (the caller re-invokes the
driver with each next chunk and the same preserved state). -/
def txStreamProcessFrags (ctx : tx_stream_context_t) (frags : List (List Nat))
    (flags : Nat) : tx_stream_status_e × tx_stream_context_t :=
  frags.foldl (fun r frag => txStreamProcess r.2 frag flags) (.processing, ctx)

/-- A concrete all-zero destination record, used to instantiate witnesses. -/
def txZero : transaction_t where
  gasPrice := ⟨List.replicate 32 0, 0⟩
  startGas := ⟨List.replicate 32 0, 0⟩
  value := ⟨List.replicate 32 0, 0⟩
  recipient := ⟨List.replicate 20 0, 0⟩
  v := ⟨List.replicate 32 0, 0⟩

/-- The context reached by a computation, whether it returned or threw. -/
def detCtx (r : Except tx_stream_context_t
    (tx_stream_status_e × Bool × tx_stream_context_t)) : tx_stream_context_t :=
  match r with
  | .error c => c
  | .ok (_, _, c) => c

/-- The parser-progress fields that byte reading and field detection never
touch. -/
def detPersist (c : tx_stream_context_t) :
    Nat × Nat × Nat × Nat × Bool × Bool × Bool × List Nat × transaction_t :=
  (c.currentField, c.processingFlags, c.dataLength, c.currentFieldLength,
   c.isCurrentFieldList, c.isFieldSingleByte, c.isProcessingField, c.workBuffer, c.tx)

/-- Reading one byte preserves every parser-progress field (and the scratch
buffer). -/
theorem txStreamReadByte_persist (ctx : tx_stream_context_t) :
    (∀ b c, txStreamReadByte ctx = .ok (b, c) →
      detPersist c = detPersist ctx ∧ c.rlpBuffer = ctx.rlpBuffer ∧
      c.rlpBufferPos = ctx.rlpBufferPos) ∧
    (∀ c, txStreamReadByte ctx = .error c → c = ctx) := by
  unfold txStreamReadByte
  by_cases h : ctx.workBufferLength < 1
  · simp [h]
  · by_cases hp : ctx.isProcessingField <;>
      by_cases hs : ctx.isFieldSingleByte <;>
        simp [h, hp, hs, detPersist]

/-- The field detector loop preserves every parser-progress field. -/
theorem txStreamDetectFieldGo_persist (fuel : Nat) (ctx : tx_stream_context_t) :
    detPersist (detCtx (txStreamDetectFieldGo ctx fuel)) = detPersist ctx := by
  induction fuel generalizing ctx with
  | zero => simp [txStreamDetectFieldGo, detCtx]
  | succ n ih =>
    unfold txStreamDetectFieldGo
    by_cases h0 : ctx.workBufferLength = 0
    · simp [h0, detCtx]
    · by_cases h1 : ctx.rlpBufferPos = RLP_LENGTH_BUFFER_SIZE
      · simp [h0, h1, detCtx]
      · rcases hr : txStreamReadByte ctx with c | ⟨b, c⟩
        · have hc := (txStreamReadByte_persist ctx).2 c hr
          simp [h0, h1, hr, detCtx, hc]
        · obtain ⟨hpc, -, -⟩ := (txStreamReadByte_persist ctx).1 b c hr
          have hpc2 : detPersist { c with rlpBuffer := c.rlpBuffer.set c.rlpBufferPos b, rlpBufferPos := c.rlpBufferPos + 1 } = detPersist ctx := by
            rw [← hpc]; simp [detPersist]
          rcases hcd : rlpCanDecode ((c.rlpBuffer.set c.rlpBufferPos b).take
              (c.rlpBufferPos + 1)) with _ | v
          · simp only [h0, h1, if_false, hr]
            simp only [hcd]
            rw [ih, hpc2]
          · rcases v with _ | _ <;>
              · simp only [h0, h1, if_false, hr]
                simp only [hcd]
                simpa [detCtx] using hpc2

/-- The field detector preserves every parser-progress field, stated for
the successful-return shape. -/
theorem txStreamDetectField_persist (ctx c : tx_stream_context_t)
    (st : tx_stream_status_e) (cd : Bool)
    (h : txStreamDetectField ctx = .ok (st, cd, c)) :
    c.currentField = ctx.currentField ∧ c.isProcessingField = ctx.isProcessingField ∧
    c.isCurrentFieldList = ctx.isCurrentFieldList ∧ c.tx = ctx.tx := by
  have := txStreamDetectFieldGo_persist ctx.workBufferLength ctx
  rw [txStreamDetectField] at h
  rw [h] at this
  simp [detCtx, detPersist] at this
  tauto

/-- Claim C9: `txStreamProcess` faults without consuming input or mutating
parse progress whenever called with an empty buffer, or with a state whose
current field is the not-started sentinel or is at (or beyond) the done
sentinel — i.e. not in a valid awaiting-data condition.  The returned
context is exactly the input context: the precondition checks run before
the work buffer is installed and before any parsing. -/
theorem claim_C9 (ctx : tx_stream_context_t) (buffer : List Nat) (flags : Nat)
    (h : buffer.length = 0 ∨ ctx.currentField = TX_RLP_NONE ∨
      TX_RLP_DONE ≤ ctx.currentField) :
    txStreamProcess ctx buffer flags = (.fault, ctx) := by
  unfold txStreamProcess
  by_cases hb : buffer.length > 0
  · have hcf : ¬ (TX_RLP_NONE < ctx.currentField ∧ ctx.currentField < TX_RLP_DONE) := by
      rcases h with h | h | h
      · omega
      · rw [h]; simp [TX_RLP_NONE]
      · rw [TX_RLP_DONE] at h; simp [TX_RLP_NONE, TX_RLP_DONE]; omega
    simp [hb, hcf]
  · simp [hb]

/-- Witness for claim C9 at a concrete input: the freshly initialized
stream faults on an empty buffer and returns the context unchanged. -/
theorem claim_C9_witness :
    txStreamProcess (txStreamInit txZero) [] 0 = (.fault, txStreamInit txZero) :=
  claim_C9 (txStreamInit txZero) [] 0 (Or.inl rfl)

/-- Claim C5: when a scalar field's declared length exceeds the destination
capacity bound, both the int256 accumulator and the address accumulator
throw (surfacing as a fault) with the context at the throw point equal to
the unchanged input context: the capacity check precedes any copy or
discard, so no payload byte of the oversized field is consumed and nothing
is hashed. -/
theorem claim_C5 (ctx : tx_stream_context_t) (field : Option tx_int256_t)
    (address : Option tx_address_t) (fieldSize : Nat)
    (h : fieldSize < ctx.currentFieldLength) :
    txStreamProcessInt256Field ctx field fieldSize = .error ctx ∧
    txStreamProcessAddressField ctx address fieldSize = .error ctx := by
  have h2 : ¬ (ctx.currentFieldLength ≤ fieldSize) := by omega
  constructor
  · unfold txStreamProcessInt256Field
    by_cases hl : ctx.isCurrentFieldList <;> simp [hl, h2]
  · unfold txStreamProcessAddressField
    by_cases hl : ctx.isCurrentFieldList <;> simp [hl, h2]

/-- Witness for claim C5 at a concrete input: a declared length of 33
against the 32-byte int256 capacity (and the 20-byte address capacity)
faults with the context unchanged. -/
theorem claim_C5_witness :
    (32 < ({ txStreamInit txZero with currentFieldLength := 33 }).currentFieldLength) ∧
    txStreamProcessInt256Field { txStreamInit txZero with currentFieldLength := 33 }
      none TX_MAX_INT256_LENGTH =
      .error { txStreamInit txZero with currentFieldLength := 33 } ∧
    txStreamProcessAddressField { txStreamInit txZero with currentFieldLength := 33 }
      none TX_MAX_INT256_LENGTH =
      .error { txStreamInit txZero with currentFieldLength := 33 } :=
  ⟨by decide,
   (claim_C5 { txStreamInit txZero with currentFieldLength := 33 } none none
      TX_MAX_INT256_LENGTH (by decide)).1,
   (claim_C5 { txStreamInit txZero with currentFieldLength := 33 } none none
      TX_MAX_INT256_LENGTH (by decide)).2⟩

/-- Claim C4: whenever the buffer is exhausted exactly at the boundary
where the signature-recovery field would begin (parse loop reached
`TX_RLP_V` with no bytes left), the parse loop exits with `finished` and
records the V field's length as 0 (legacy transaction shape); this is the
status `txStreamProcess` returns for the call. -/
theorem claim_C4 (ctx : tx_stream_context_t)
    (h1 : ctx.currentField = TX_RLP_V) (h2 : ctx.workBufferLength = 0) :
    txStreamParse ctx = .ok (.finished, { ctx with tx.v.length := 0 }) := by
  unfold txStreamParse
  rw [h2]
  unfold txStreamParseGo txStreamParseStep
  rw [h1]
  simp [TX_RLP_V, TX_RLP_DONE, h2]

/-- Witness for claim C4 at a concrete input: a state awaiting the V field
with an exhausted buffer finishes with `v.length = 0`. -/
theorem claim_C4_witness :
    txStreamParse { txStreamInit txZero with currentField := TX_RLP_V } =
      .ok (.finished, { txStreamInit txZero with currentField := TX_RLP_V }) := by
  have h := claim_C4 { txStreamInit txZero with currentField := TX_RLP_V } rfl rfl
  rw [h]
  rfl

/-- Unfolding equation for `txStreamParse`: the loop always has fuel for its
first iteration. -/
theorem txStreamParse_eq (c : tx_stream_context_t) :
    txStreamParse c = (match txStreamParseStep c with
      | .error c2 => .error c2
      | .ok (some s, c2) => .ok (s, c2)
      | .ok (none, c2) => txStreamParseGo c2 (c.workBufferLength + 1)) := rfl

/-- Reading from a non-empty buffer succeeds and returns the byte under the
cursor; the scratch buffer and cursor base are untouched. -/
theorem txStreamReadByte_ok (ctx : tx_stream_context_t)
    (h : ctx.workBufferLength ≠ 0) :
    ∃ c, txStreamReadByte ctx = .ok (ctx.workBuffer.getD ctx.workPos 0, c) ∧
      c.rlpBuffer = ctx.rlpBuffer ∧ c.rlpBufferPos = ctx.rlpBufferPos ∧
      detPersist c = detPersist ctx ∧ c.workPos = ctx.workPos + 1 ∧
      c.workBufferLength = ctx.workBufferLength - 1 := by
  have h2 : ¬ ctx.workBufferLength < 1 := by omega
  by_cases hp : ctx.isProcessingField <;> by_cases hs : ctx.isFieldSingleByte <;>
    · simp only [txStreamReadByte, h2, if_false, hp, hs, Bool.and_true, Bool.and_false,
        Bool.and_self, Bool.not_true, Bool.not_false, if_true, ite_false, ite_true]
      exact ⟨_, rfl, rfl, rfl, by simp [detPersist, hp, hs], rfl, rfl⟩

/-- Dispatching the envelope position with the list flag decoded false
throws with the context unchanged (the `VALIDATE` in
`txStreamProcessContent`). -/
theorem txStreamParseFieldProxy_envelope_scalar (c : tx_stream_context_t)
    (h1 : c.isCurrentFieldList = false) (h2 : c.currentField = TX_RLP_ENVELOPE) :
    txStreamParseFieldProxy c = .error c := by
  unfold txStreamParseFieldProxy txStreamProcessContent
  rw [if_pos h2, h1]
  rfl

/-- Projections of `fieldStart`. -/
theorem fieldStart_proj (c : tx_stream_context_t) (n off : Nat) (L : Bool) :
    (fieldStart c n off L).currentField = c.currentField ∧
    (fieldStart c n off L).processingFlags = c.processingFlags ∧
    (fieldStart c n off L).currentFieldLength = n ∧
    (fieldStart c n off L).currentFieldPos = 0 ∧
    (fieldStart c n off L).isCurrentFieldList = L ∧
    (fieldStart c n off L).isFieldSingleByte = decide (off = 0) ∧
    (fieldStart c n off L).isProcessingField = true ∧
    (fieldStart c n off L).rlpBuffer = c.rlpBuffer ∧
    (fieldStart c n off L).rlpBufferPos = 0 ∧
    (fieldStart c n off L).workBuffer = c.workBuffer ∧
    (fieldStart c n off L).workPos = (if off = 0 then c.workPos - 1 else c.workPos) ∧
    (fieldStart c n off L).workBufferLength =
      (if off = 0 then c.workBufferLength + 1 else c.workBufferLength) ∧
    (fieldStart c n off L).tx = c.tx ∧
    (fieldStart c n off L).hashData = c.hashData ∧
    (fieldStart c n off L).hashLog = c.hashLog := by
  unfold fieldStart
  by_cases h : off = 0 <;> simp [h]

/-- Parse-loop iteration at the terminal schema position: exit `finished`. -/
theorem txStreamParseStep_done (c : tx_stream_context_t)
    (h : c.currentField = TX_RLP_DONE) :
    txStreamParseStep c = .ok (some .finished, c) := by
  unfold txStreamParseStep
  rw [if_pos h]

/-- Parse-loop iteration at the V position with an exhausted buffer: the
legacy exit records a zero V length and finishes. -/
theorem txStreamParseStep_legacy (c : tx_stream_context_t)
    (h1 : c.currentField = TX_RLP_V) (h2 : c.workBufferLength = 0) :
    txStreamParseStep c = .ok (some .finished, { c with tx.v.length := 0 }) := by
  unfold txStreamParseStep
  rw [if_neg (by rw [h1]; decide), if_pos ⟨h1, h2⟩]

/-- Parse-loop iteration with an exhausted buffer elsewhere: exit
`processing`. -/
theorem txStreamParseStep_empty (c : tx_stream_context_t)
    (h1 : c.currentField ≠ TX_RLP_DONE) (h2 : ¬ c.currentField = TX_RLP_V)
    (h3 : c.workBufferLength = 0) :
    txStreamParseStep c = .ok (some .processing, c) := by
  unfold txStreamParseStep
  rw [if_neg h1, if_neg (by tauto), if_pos h3]

/-- Parse-loop iteration at a field edge whose header becomes decodable:
the step dispatches the proxy on the `fieldStart` context. -/
theorem txStreamParseStep_detect (c c1 : tx_stream_context_t) (n off : Nat) (L : Bool)
    (h1 : c.currentField ≠ TX_RLP_DONE)
    (h2 : ¬ (c.currentField = TX_RLP_V ∧ c.workBufferLength = 0))
    (h3 : c.workBufferLength ≠ 0)
    (h4 : c.isProcessingField = false)
    (hdet : txStreamDetectField c = .ok (.processing, true, c1))
    (hdec : rlpDecodeLength (c1.rlpBuffer.take c1.rlpBufferPos) = some (n, off, L)) :
    txStreamParseStep c =
      (match txStreamParseFieldProxy (fieldStart c1 n off L) with
        | .error c2 => .error c2
        | .ok (st, c2) =>
          if st = .fault then .ok (some .fault, c2) else .ok (none, c2)) := by
  unfold txStreamParseStep
  rw [if_neg h1, if_neg h2, if_neg h3, h4]
  simp only [Bool.not_false, if_true, hdet, hdec]
  rfl

/-- Parse-loop iteration at a field edge whose header stays pending: the
call returns `processing` with the scratch buffer holding the partial
header. -/
theorem txStreamParseStep_pending (c c1 : tx_stream_context_t)
    (h1 : c.currentField ≠ TX_RLP_DONE)
    (h2 : ¬ (c.currentField = TX_RLP_V ∧ c.workBufferLength = 0))
    (h3 : c.workBufferLength ≠ 0)
    (h4 : c.isProcessingField = false)
    (hdet : txStreamDetectField c = .ok (.processing, false, c1)) :
    txStreamParseStep c = .ok (some .processing, c1) := by
  unfold txStreamParseStep
  rw [if_neg h1, if_neg h2, if_neg h3, h4]
  simp only [Bool.not_false, if_true, hdet]
  rfl

/-- Parse-loop iteration whose detector faults: the step exits `fault`. -/
theorem txStreamParseStep_detectFault (c c1 : tx_stream_context_t) (cd : Bool)
    (h1 : c.currentField ≠ TX_RLP_DONE)
    (h2 : ¬ (c.currentField = TX_RLP_V ∧ c.workBufferLength = 0))
    (h3 : c.workBufferLength ≠ 0)
    (h4 : c.isProcessingField = false)
    (hdet : txStreamDetectField c = .ok (.fault, cd, c1)) :
    txStreamParseStep c = .ok (some .fault, c1) := by
  unfold txStreamParseStep
  rw [if_neg h1, if_neg h2, if_neg h3, h4]
  simp only [Bool.not_false, if_true, hdet]

/-- Parse-loop iteration resuming inside a field: the step dispatches the
proxy on the unchanged context. -/
theorem txStreamParseStep_resume (c : tx_stream_context_t)
    (h1 : c.currentField ≠ TX_RLP_DONE)
    (h2 : ¬ (c.currentField = TX_RLP_V ∧ c.workBufferLength = 0))
    (h3 : c.workBufferLength ≠ 0)
    (h4 : c.isProcessingField = true) :
    txStreamParseStep c =
      (match txStreamParseFieldProxy c with
        | .error c2 => .error c2
        | .ok (st, c2) =>
          if st = .fault then .ok (some .fault, c2) else .ok (none, c2)) := by
  unfold txStreamParseStep
  rw [if_neg h1, if_neg h2, if_neg h3, h4]
  rfl

/-- Claim C6: if the envelope header decodes with its list flag false (the
transaction envelope encoded as a scalar rather than a list), the first
call of `txStreamProcess` on a freshly initialized stream faults, and the
returned context still sits at the envelope position — the parser did not
advance past it.  The hypotheses state, through the embedded detector and
length primitive, that the call's buffer makes the envelope header
decodable and that it decodes as a non-list. -/
theorem claim_C6 (tx0 : transaction_t) (buffer : List Nat) (flags : Nat)
    (c1 : tx_stream_context_t) (n off : Nat)
    (hb : 0 < buffer.length)
    (hdet : txStreamDetectField { txStreamInit tx0 with workBuffer := buffer, workBufferLength := buffer.length, workPos := 0, processingFlags := flags } = .ok (.processing, true, c1))
    (hdec : rlpDecodeLength (c1.rlpBuffer.take c1.rlpBufferPos) = some (n, off, false)) :
    (txStreamProcess (txStreamInit tx0) buffer flags).1 = .fault ∧
    (txStreamProcess (txStreamInit tx0) buffer flags).2.currentField = TX_RLP_ENVELOPE := by
  set c0 : tx_stream_context_t := { txStreamInit tx0 with workBuffer := buffer, workBufferLength := buffer.length, workPos := 0, processingFlags := flags } with hc0
  obtain ⟨hcf1, -, -, -⟩ := txStreamDetectField_persist c0 c1 .processing true hdet
  have hcf1' : c1.currentField = TX_RLP_ENVELOPE := by rw [hcf1]; rfl
  have hstep := txStreamParseStep_detect c0 c1 n off false
    (by show (1 : Nat) ≠ TX_RLP_DONE; decide)
    (by rintro ⟨hx, -⟩; exact absurd hx (by show (1 : Nat) ≠ TX_RLP_V; decide))
    (by show buffer.length ≠ 0; omega) rfl hdet hdec
  rw [txStreamParseFieldProxy_envelope_scalar (fieldStart c1 n off false)
    (fieldStart_proj c1 n off false).2.2.2.2.1
    (by rw [(fieldStart_proj c1 n off false).1]; exact hcf1')] at hstep
  have hparse : txStreamParse c0 = .error (fieldStart c1 n off false) := by
    rw [txStreamParse_eq, hstep]
  have hproc : txStreamProcess (txStreamInit tx0) buffer flags =
      (.fault, fieldStart c1 n off false) := by
    unfold txStreamProcess
    rw [if_neg (by omega : ¬ ¬ (buffer.length > 0))]
    have hpre : TX_RLP_NONE < (txStreamInit tx0).currentField ∧
        (txStreamInit tx0).currentField < TX_RLP_DONE := by
      simp [txStreamInit, TX_RLP_NONE, TX_RLP_DONE, TX_RLP_ENVELOPE]
    rw [if_neg (not_not_intro hpre)]
    rw [← hc0, hparse]
  rw [hproc]
  exact ⟨rfl, by rw [(fieldStart_proj c1 n off false).1]; exact hcf1'⟩

/-- Context reached after the detector consumes the header byte `0x83` of
the concrete envelope-as-scalar counter-stream; used by the C6 witness. -/
def c6ctx : tx_stream_context_t := { txStreamInit txZero with workBuffer := [0x83, 1, 2, 3], workBufferLength := 3, workPos := 1, processingFlags := 0, rlpBuffer := [0x83, 0, 0, 0, 0], rlpBufferPos := 1, hashData := [0x83], hashLog := [HashEv.readB 0x83] }

/-- Witness for claim C6 at a concrete input: the buffer `83 01 02 03`
announces a 3-byte scalar at the envelope position; the first call faults
and stays at the envelope. -/
theorem claim_C6_witness :
    (txStreamProcess (txStreamInit txZero) [0x83, 1, 2, 3] 0).1 = .fault ∧
    (txStreamProcess (txStreamInit txZero) [0x83, 1, 2, 3] 0).2.currentField =
      TX_RLP_ENVELOPE :=
  claim_C6 txZero [0x83, 1, 2, 3] 0 c6ctx 3 1 (by decide) (by rfl) (by rfl)

/-- Claim C7: the detector returns `fault` — which the parse loop forwards
and `txStreamProcess` returns — when either the length scratch buffer has
already filled to its fixed bound (`RLP_LENGTH_BUFFER_SIZE`) with more
input pending before a header became decodable, or the length primitive
reports the freshly accumulated header bytes ill-formed. -/
theorem claim_C7 (ctx : tx_stream_context_t)
    (h : (ctx.rlpBufferPos = RLP_LENGTH_BUFFER_SIZE ∧ ctx.workBufferLength ≠ 0)
       ∨ (ctx.workBufferLength ≠ 0 ∧ ctx.rlpBufferPos ≠ RLP_LENGTH_BUFFER_SIZE ∧
          rlpCanDecode ((ctx.rlpBuffer.set ctx.rlpBufferPos
            (ctx.workBuffer.getD ctx.workPos 0)).take (ctx.rlpBufferPos + 1)) =
            some false)) :
    ∃ c, txStreamDetectField ctx = .ok (.fault, false, c) ∧
      (ctx.currentField ≠ TX_RLP_DONE →
       ¬ (ctx.currentField = TX_RLP_V ∧ ctx.workBufferLength = 0) →
       ctx.isProcessingField = false →
       txStreamParse ctx = .ok (.fault, c)) := by
  rcases h with ⟨hp, hl⟩ | ⟨hl, hp, hcd⟩
  · have hdet : txStreamDetectField ctx = .ok (.fault, false, ctx) := by
      unfold txStreamDetectField
      obtain ⟨m, hm⟩ : ∃ m, ctx.workBufferLength = m + 1 :=
        ⟨ctx.workBufferLength - 1, by omega⟩
      rw [hm]
      unfold txStreamDetectFieldGo
      rw [if_neg (by omega), if_pos hp]
    refine ⟨ctx, hdet, fun h1 h2 h3 => ?_⟩
    rw [txStreamParse_eq, txStreamParseStep_detectFault ctx ctx false h1 h2 hl h3 hdet]
  · obtain ⟨c0, hr, hrb, hrp, -, -, -⟩ := txStreamReadByte_ok ctx hl
    have hdet : txStreamDetectField ctx = .ok (.fault, false, { c0 with rlpBuffer := ctx.rlpBuffer.set ctx.rlpBufferPos (ctx.workBuffer.getD ctx.workPos 0), rlpBufferPos := ctx.rlpBufferPos + 1 }) := by
      unfold txStreamDetectField
      obtain ⟨m, hm⟩ : ∃ m, ctx.workBufferLength = m + 1 :=
        ⟨ctx.workBufferLength - 1, by omega⟩
      rw [hm]
      unfold txStreamDetectFieldGo
      rw [if_neg (by omega), if_neg hp, hr]
      simp only [hrb, hrp, hcd]
    refine ⟨_, hdet, fun h1 h2 h3 => ?_⟩
    rw [txStreamParse_eq, txStreamParseStep_detectFault _ _ false h1 h2 hl h3 hdet]

/-- Concrete context whose scratch buffer sits at the 5-byte bound with
input pending; used by the C7 witness. -/
def c7ctx : tx_stream_context_t := { txStreamInit txZero with currentField := TX_RLP_NONCE, rlpBuffer := [0xb9, 1, 1, 1, 1], rlpBufferPos := 5, workBuffer := [7], workBufferLength := 1 }

/-- Witness for claim C7 at a concrete input: a scratch buffer already at
its 5-byte bound with input pending makes the detector, the parse loop and
so the driver fault. -/
theorem claim_C7_witness :
    ∃ c, txStreamDetectField c7ctx = .ok (.fault, false, c) ∧
      (c7ctx.currentField ≠ TX_RLP_DONE →
       ¬ (c7ctx.currentField = TX_RLP_V ∧ c7ctx.workBufferLength = 0) →
       c7ctx.isProcessingField = false →
       txStreamParse c7ctx = .ok (.fault, c)) :=
  claim_C7 c7ctx (Or.inl ⟨rfl, by decide⟩)

/-- Reading a byte outside field processing: the byte is consumed and fed
to the hash through the byte-level read path. -/
theorem txStreamReadByte_boundary (ctx : tx_stream_context_t)
    (h : ctx.workBufferLength ≠ 0) (hpf : ctx.isProcessingField = false) :
    txStreamReadByte ctx = .ok (ctx.workBuffer.getD ctx.workPos 0, { ctx with workPos := ctx.workPos + 1, workBufferLength := ctx.workBufferLength - 1, hashData := ctx.hashData ++ [ctx.workBuffer.getD ctx.workPos 0], hashLog := ctx.hashLog ++ [HashEv.readB (ctx.workBuffer.getD ctx.workPos 0)] }) := by
  unfold txStreamReadByte
  rw [if_neg (by omega)]
  simp [hpf]

/-- The readiness primitive accepts a self-encoding byte immediately. -/
theorem rlpCanDecode_single (b : Nat) (l : List Nat) (hb : b ≤ 0x7f) :
    rlpCanDecode (b :: l) = some true := by
  simp [rlpCanDecode, hb]

/-- The decode primitive classifies a self-encoding byte as length 1,
offset 0, non-list. -/
theorem rlpDecodeLength_single (b : Nat) (l : List Nat) (hb : b ≤ 0x7f) :
    rlpDecodeLength (b :: l) = some (1, 0, false) := by
  simp [rlpDecodeLength, hb]

/-- Detecting a field whose next byte is a self-encoding scalar: the
detector consumes exactly that byte (hashing it through the byte-level
read) and reports the header decodable. -/
theorem txStreamDetectField_single (c : tx_stream_context_t)
    (hb : c.workBuffer.getD c.workPos 0 ≤ 0x7f)
    (hpos : c.rlpBufferPos = 0) (hrb : c.rlpBuffer ≠ [])
    (hlen : c.workBufferLength ≠ 0) (hpf : c.isProcessingField = false) :
    txStreamDetectField c = .ok (.processing, true, { c with workPos := c.workPos + 1, workBufferLength := c.workBufferLength - 1, hashData := c.hashData ++ [c.workBuffer.getD c.workPos 0], hashLog := c.hashLog ++ [HashEv.readB (c.workBuffer.getD c.workPos 0)], rlpBuffer := c.rlpBuffer.set 0 (c.workBuffer.getD c.workPos 0), rlpBufferPos := 1 }) := by
  unfold txStreamDetectField
  obtain ⟨m, hm⟩ : ∃ m, c.workBufferLength = m + 1 :=
    ⟨c.workBufferLength - 1, by omega⟩
  rw [hm]
  unfold txStreamDetectFieldGo
  rw [if_neg (by omega), if_neg (by rw [hpos]; decide),
    txStreamReadByte_boundary c (by omega) hpf]
  rcases hl : c.rlpBuffer with - | ⟨x, xs⟩
  · exact absurd hl hrb
  · simp only [hpos, hl, List.set, List.take, rlpCanDecode_single _ _ hb, hm]

/-- The address accumulator has the same body as the int256 accumulator. -/
theorem txStreamProcessAddressField_eq :
    txStreamProcessAddressField = txStreamProcessInt256Field := rfl

/-- The V accumulator has the same body as the int256 accumulator. -/
theorem txStreamProcessVField_eq :
    txStreamProcessVField = txStreamProcessInt256Field := rfl

/-- Copying inside a field classified as a self-encoded single byte: the
span hash step is suppressed; the cursor and field position advance. -/
theorem txStreamCopyData_suppressed (ctx : tx_stream_context_t)
    (out : Option (List Nat × Nat)) (n : Nat)
    (h : n ≤ ctx.workBufferLength)
    (hpf : ctx.isProcessingField = true) (hsb : ctx.isFieldSingleByte = true) :
    txStreamCopyData ctx out n =
      .ok (out.map (fun p => listWriteAt p.1 p.2 ((ctx.workBuffer.drop ctx.workPos).take n)), { ctx with workPos := ctx.workPos + n, workBufferLength := ctx.workBufferLength - n, currentFieldPos := ctx.currentFieldPos + n }) := by
  unfold txStreamCopyData
  rw [if_neg (by omega)]
  simp [hpf, hsb]

/-- Copying inside an ordinary field: the whole span is fed to the hash in
one call; the cursor and field position advance. -/
theorem txStreamCopyData_hashed (ctx : tx_stream_context_t)
    (out : Option (List Nat × Nat)) (n : Nat)
    (h : n ≤ ctx.workBufferLength)
    (hpf : ctx.isProcessingField = true) (hsb : ctx.isFieldSingleByte = false) :
    txStreamCopyData ctx out n =
      .ok (out.map (fun p => listWriteAt p.1 p.2 ((ctx.workBuffer.drop ctx.workPos).take n)), { ctx with hashData := ctx.hashData ++ (ctx.workBuffer.drop ctx.workPos).take n, hashLog := ctx.hashLog ++ [HashEv.copyB ((ctx.workBuffer.drop ctx.workPos).take n)], workPos := ctx.workPos + n, workBufferLength := ctx.workBufferLength - n, currentFieldPos := ctx.currentFieldPos + n }) := by
  unfold txStreamCopyData
  rw [if_neg (by omega)]
  simp [hpf, hsb]

/-- Accumulating a self-encoded single-byte field with a destination slot:
the rewound byte is consumed through the copy path with its hash step
suppressed, the slot receives the byte and real length 1, and the schema
position advances. -/
theorem txStreamProcessInt256Field_singleByte (ctx : tx_stream_context_t)
    (f : tx_int256_t) (fs : Nat)
    (hlist : ctx.isCurrentFieldList = false)
    (hcap : 1 ≤ fs)
    (hlen : ctx.currentFieldLength = 1)
    (hpos0 : ctx.currentFieldPos = 0)
    (hpf : ctx.isProcessingField = true)
    (hsb : ctx.isFieldSingleByte = true)
    (hbuf : ctx.workBufferLength ≠ 0) :
    txStreamProcessInt256Field ctx (some f) fs =
      .ok (some ⟨listWriteAt f.value 0 ((ctx.workBuffer.drop ctx.workPos).take 1), 1⟩, { ctx with workPos := ctx.workPos + 1, workBufferLength := ctx.workBufferLength - 1, currentFieldPos := 1, currentField := ctx.currentField + 1, isProcessingField := false }) := by
  unfold txStreamProcessInt256Field
  rw [if_neg (by rw [hlist]; simp)]
  rw [if_neg (not_not_intro (by omega : ctx.currentFieldLength ≤ fs))]
  rw [if_pos (by omega : ctx.currentFieldPos < ctx.currentFieldLength)]
  rw [if_neg (by omega : ¬ ctx.workBufferLength < ctx.currentFieldLength - ctx.currentFieldPos)]
  dsimp only
  rw [show ctx.currentFieldLength - ctx.currentFieldPos = 1 from by omega]
  rw [txStreamCopyData_suppressed ctx (some (f.value, ctx.currentFieldPos)) 1 (by omega) hpf hsb]
  dsimp only
  rw [if_pos (by omega : ctx.currentFieldPos + 1 = ctx.currentFieldLength)]
  simp [hpos0, hlen]

/-- Accumulating a self-encoded single-byte field with a NULL destination:
the rewound byte is consumed through the copy path with its hash step
suppressed and the schema position advances. -/
theorem txStreamProcessInt256Field_singleByte_none (ctx : tx_stream_context_t)
    (fs : Nat)
    (hlist : ctx.isCurrentFieldList = false)
    (hcap : 1 ≤ fs)
    (hlen : ctx.currentFieldLength = 1)
    (hpos0 : ctx.currentFieldPos = 0)
    (hpf : ctx.isProcessingField = true)
    (hsb : ctx.isFieldSingleByte = true)
    (hbuf : ctx.workBufferLength ≠ 0) :
    txStreamProcessInt256Field ctx none fs =
      .ok (none, { ctx with workPos := ctx.workPos + 1, workBufferLength := ctx.workBufferLength - 1, currentFieldPos := 1, currentField := ctx.currentField + 1, isProcessingField := false }) := by
  unfold txStreamProcessInt256Field
  rw [if_neg (by rw [hlist]; simp)]
  rw [if_neg (not_not_intro (by omega : ctx.currentFieldLength ≤ fs))]
  rw [if_pos (by omega : ctx.currentFieldPos < ctx.currentFieldLength)]
  rw [if_neg (by omega : ¬ ctx.workBufferLength < ctx.currentFieldLength - ctx.currentFieldPos)]
  dsimp only
  rw [show ctx.currentFieldLength - ctx.currentFieldPos = 1 from by omega]
  rw [txStreamCopyData_suppressed ctx none 1 (by omega) hpf hsb]
  dsimp only
  rw [if_pos (by omega : ctx.currentFieldPos + 1 = ctx.currentFieldLength)]
  simp [hpos0, hlen]

/-- The `fieldStart` context for a self-encoded single byte (offset 0):
the cursor is rewound by one byte. -/
theorem fieldStart_zero (c : tx_stream_context_t) (n : Nat) (L : Bool) :
    fieldStart c n 0 L = { c with currentFieldLength := n, isCurrentFieldList := L, rlpBufferPos := 0, isFieldSingleByte := true, workPos := c.workPos - 1, workBufferLength := c.workBufferLength + 1, currentFieldPos := 0, isProcessingField := true } := by
  unfold fieldStart
  simp

/-- The `fieldStart` context for an ordinary header (offset nonzero): no
rewind. -/
theorem fieldStart_pos (c : tx_stream_context_t) (n off : Nat) (L : Bool)
    (hoff : off ≠ 0) :
    fieldStart c n off L = { c with currentFieldLength := n, isCurrentFieldList := L, rlpBufferPos := 0, isFieldSingleByte := false, currentFieldPos := 0, isProcessingField := true } := by
  unfold fieldStart
  simp [hoff]

/-- The effect of a completed self-encoded single-byte field on the
destination record: the field's slot — when the schema retains it —
receives the byte at offset 0 and real length 1; every other slot is
untouched. -/
def singleByteTxUpdate (t : transaction_t) (cf : Nat) (chunk : List Nat) :
    transaction_t :=
  if cf = TX_RLP_GAS_PRICE then { t with gasPrice := ⟨listWriteAt t.gasPrice.value 0 chunk, 1⟩ }
  else if cf = TX_RLP_START_GAS then { t with startGas := ⟨listWriteAt t.startGas.value 0 chunk, 1⟩ }
  else if cf = TX_RLP_VALUE then { t with value := ⟨listWriteAt t.value.value 0 chunk, 1⟩ }
  else if cf = TX_RLP_RECIPIENT then { t with recipient := ⟨listWriteAt t.recipient.value 0 chunk, 1⟩ }
  else if cf = TX_RLP_V then { t with v := ⟨listWriteAt t.v.value 0 chunk, 1⟩ }
  else t

/-- Dispatching any non-envelope schema position on a self-encoded
single-byte field: the byte is consumed through the copy path (hash
suppressed there), the retained slot — if any — receives the byte with
real length 1, and the schema position advances. -/
theorem txStreamParseFieldProxy_singleByte (c : tx_stream_context_t)
    (hcf : TX_RLP_TYPE ≤ c.currentField ∧ c.currentField ≤ TX_RLP_S)
    (hlist : c.isCurrentFieldList = false)
    (hlen : c.currentFieldLength = 1)
    (hpos0 : c.currentFieldPos = 0)
    (hpf : c.isProcessingField = true)
    (hsb : c.isFieldSingleByte = true)
    (hbuf : c.workBufferLength ≠ 0) :
    txStreamParseFieldProxy c = .ok (.processing, { c with workPos := c.workPos + 1, workBufferLength := c.workBufferLength - 1, currentFieldPos := 1, currentField := c.currentField + 1, isProcessingField := false, tx := singleByteTxUpdate c.tx c.currentField ((c.workBuffer.drop c.workPos).take 1) }) := by
  have h10 : c.currentField = 2 ∨ c.currentField = 3 ∨ c.currentField = 4 ∨
      c.currentField = 5 ∨ c.currentField = 6 ∨ c.currentField = 7 ∨
      c.currentField = 8 ∨ c.currentField = 9 ∨ c.currentField = 10 ∨
      c.currentField = 11 := by
    simp only [TX_RLP_TYPE, TX_RLP_S] at hcf
    omega
  rcases h10 with hc | hc | hc | hc | hc | hc | hc | hc | hc | hc <;>
    · simp only [txStreamParseFieldProxy, hc, TX_RLP_ENVELOPE, TX_RLP_TYPE,
        TX_RLP_NONCE, TX_RLP_GAS_PRICE, TX_RLP_START_GAS, TX_RLP_VALUE,
        TX_RLP_RECIPIENT, TX_RLP_DATA, TX_RLP_V, TX_RLP_R, TX_RLP_S,
        txStreamProcessAddressField_eq, txStreamProcessVField_eq]
      norm_num
      first
      | (rw [txStreamProcessInt256Field_singleByte_none c _ hlist (by norm_num [TX_MAX_INT256_LENGTH, MAX_BUFFER_SIZE]) hlen hpos0 hpf hsb hbuf]
         simp [singleByteTxUpdate, hc, TX_RLP_GAS_PRICE, TX_RLP_START_GAS, TX_RLP_VALUE, TX_RLP_RECIPIENT, TX_RLP_V])
      | (rw [txStreamProcessInt256Field_singleByte c _ _ hlist (by norm_num [TX_MAX_INT256_LENGTH, TX_MAX_ADDRESS_LENGTH]) hlen hpos0 hpf hsb hbuf]
         simp [singleByteTxUpdate, hc, TX_RLP_GAS_PRICE, TX_RLP_START_GAS, TX_RLP_VALUE, TX_RLP_RECIPIENT, TX_RLP_V])

/-- One-element slice of a list at an in-range cursor. -/
theorem take_one_drop (l : List Nat) (p : Nat) (h : p < l.length) :
    (l.drop p).take 1 = [l.getD p 0] := by
  induction l generalizing p with
  | nil => simp at h
  | cons x xs ih =>
    cases p with
    | zero => simp
    | succ q =>
      simp only [List.drop_succ_cons, List.getD_cons_succ]
      exact ih q (by simpa using h)

/-- Taking the first element of a scratch buffer just written at position
0. -/
theorem take_one_set_zero (l : List Nat) (b : Nat) (h : l ≠ []) :
    (l.set 0 b).take 1 = [b] := by
  cases l with
  | nil => exact absurd rfl h
  | cons x xs => simp

/-- Claim C2: a self-encoded single-byte scalar field (first byte in
`0x00..0x7f`, decoded header offset 0).  From any field boundary of any
non-envelope schema position with such a byte next — which is where any
fragmentation of the input leaves the parser before the field, since the
whole field is handled within the one call that reads its byte — one parse
iteration: classifies the byte via offset 0 (`rlpDecodeLength` returns
`(1, 0, false)`), has the detector consume the byte (cursor advanced to
`workPos + 1`, the byte fed to the hash once, through the byte-level
read), rewinds the cursor by one byte (net final cursor `workPos + 1`
after the field-accumulation path re-consumes the byte), decodes the field
to declared length 1 with the stored slot value equal to that byte and
real length 1, and feeds the byte to the hash accumulator exactly once
(`hashData` grows by exactly `[b]`). -/
theorem claim_C2 (c : tx_stream_context_t) (b : Nat)
    (hb : b ≤ 0x7f)
    (hbyte : c.workBuffer.getD c.workPos 0 = b)
    (hcf : TX_RLP_TYPE ≤ c.currentField ∧ c.currentField ≤ TX_RLP_S)
    (hpf : c.isProcessingField = false)
    (hpos : c.rlpBufferPos = 0)
    (hrbuf : c.rlpBuffer ≠ [])
    (hlen : c.workBufferLength ≠ 0)
    (hinv : c.workPos < c.workBuffer.length) :
    rlpDecodeLength [b] = some (1, 0, false) ∧
    txStreamDetectField c = .ok (.processing, true, { c with workPos := c.workPos + 1, workBufferLength := c.workBufferLength - 1, hashData := c.hashData ++ [b], hashLog := c.hashLog ++ [HashEv.readB b], rlpBuffer := c.rlpBuffer.set 0 b, rlpBufferPos := 1 }) ∧
    txStreamParseStep c = .ok (none, { c with workPos := c.workPos + 1, workBufferLength := c.workBufferLength - 1, hashData := c.hashData ++ [b], hashLog := c.hashLog ++ [HashEv.readB b], rlpBuffer := c.rlpBuffer.set 0 b, rlpBufferPos := 0, currentFieldLength := 1, currentFieldPos := 1, isCurrentFieldList := false, isFieldSingleByte := true, isProcessingField := false, currentField := c.currentField + 1, tx := singleByteTxUpdate c.tx c.currentField [b] }) := by
  have hcf2 : 2 ≤ c.currentField ∧ c.currentField ≤ 11 := by
    simpa [TX_RLP_TYPE, TX_RLP_S] using hcf
  have hdet := txStreamDetectField_single c (by rw [hbyte]; exact hb) hpos hrbuf hlen hpf
  rw [hbyte] at hdet
  refine ⟨rlpDecodeLength_single b [] hb, hdet, ?_⟩
  have hdec : rlpDecodeLength (((c.rlpBuffer.set 0 b).take 1)) = some (1, 0, false) := by
    rw [take_one_set_zero c.rlpBuffer b hrbuf]
    exact rlpDecodeLength_single b [] hb
  rw [txStreamParseStep_detect c _ 1 0 false
    (by simp only [TX_RLP_DONE]; omega)
    (by rintro ⟨-, h0⟩; exact hlen h0)
    hlen hpf hdet (by simpa using hdec)]
  rw [fieldStart_zero]
  rw [txStreamParseFieldProxy_singleByte _
    (by simpa [TX_RLP_TYPE, TX_RLP_S] using hcf2) rfl rfl rfl rfl rfl (by simp)]
  have hchunk : ((({ c with workPos := c.workPos + 1, workBufferLength := c.workBufferLength - 1, hashData := c.hashData ++ [b], hashLog := c.hashLog ++ [HashEv.readB b], rlpBuffer := c.rlpBuffer.set 0 b, rlpBufferPos := 1 } : tx_stream_context_t)).workBuffer.drop (c.workPos + 1 - 1)).take 1 = [b] := by
    simp only []
    rw [Nat.add_sub_cancel]
    rw [take_one_drop c.workBuffer c.workPos hinv, hbyte]
  simp only [] at hchunk ⊢
  rw [hchunk]
  simp [singleByteTxUpdate]

/-- Concrete boundary state awaiting the gas price field with the single
byte `0x05` next; used by the C2 witness. -/
def c2ctx : tx_stream_context_t := { txStreamInit txZero with currentField := TX_RLP_GAS_PRICE, workBuffer := [5], workBufferLength := 1 }

/-- Witness for claim C2 at a concrete input: the byte `0x05` at the gas
price boundary decodes to a length-1 field holding `0x05` and is hashed
exactly once. -/
theorem claim_C2_witness :
    rlpDecodeLength [5] = some (1, 0, false) ∧
    txStreamDetectField c2ctx = .ok (.processing, true, { c2ctx with workPos := c2ctx.workPos + 1, workBufferLength := c2ctx.workBufferLength - 1, hashData := c2ctx.hashData ++ [5], hashLog := c2ctx.hashLog ++ [HashEv.readB 5], rlpBuffer := c2ctx.rlpBuffer.set 0 5, rlpBufferPos := 1 }) ∧
    txStreamParseStep c2ctx = .ok (none, { c2ctx with workPos := c2ctx.workPos + 1, workBufferLength := c2ctx.workBufferLength - 1, hashData := c2ctx.hashData ++ [5], hashLog := c2ctx.hashLog ++ [HashEv.readB 5], rlpBuffer := c2ctx.rlpBuffer.set 0 5, rlpBufferPos := 0, currentFieldLength := 1, currentFieldPos := 1, isCurrentFieldList := false, isFieldSingleByte := true, isProcessingField := false, currentField := c2ctx.currentField + 1, tx := singleByteTxUpdate c2ctx.tx c2ctx.currentField [5] }) :=
  claim_C2 c2ctx 5 (by decide) (by decide) ⟨by decide, by decide⟩ rfl rfl
    (by decide) (by decide) (by decide)

/-- The context carried by a computation result, whether it returned a
value or threw. -/
def exCtx {α : Type} (r : Except tx_stream_context_t (α × tx_stream_context_t)) :
    tx_stream_context_t :=
  match r with
  | .error c => c
  | .ok (_, c) => c

/-- The frame relation of one driver call: the schema position never
regresses, and a retained destination slot changes only if its own schema
position lies between the entry and exit positions of the call. -/
def txFrame (c c' : tx_stream_context_t) : Prop :=
  c.currentField ≤ c'.currentField ∧
  (c'.tx.gasPrice ≠ c.tx.gasPrice →
    c.currentField ≤ TX_RLP_GAS_PRICE ∧ TX_RLP_GAS_PRICE ≤ c'.currentField) ∧
  (c'.tx.startGas ≠ c.tx.startGas →
    c.currentField ≤ TX_RLP_START_GAS ∧ TX_RLP_START_GAS ≤ c'.currentField) ∧
  (c'.tx.value ≠ c.tx.value →
    c.currentField ≤ TX_RLP_VALUE ∧ TX_RLP_VALUE ≤ c'.currentField) ∧
  (c'.tx.recipient ≠ c.tx.recipient →
    c.currentField ≤ TX_RLP_RECIPIENT ∧ TX_RLP_RECIPIENT ≤ c'.currentField) ∧
  (c'.tx.v ≠ c.tx.v →
    c.currentField ≤ TX_RLP_V ∧ TX_RLP_V ≤ c'.currentField)

/-- The frame relation is reflexive. -/
theorem txFrame_refl (c : tx_stream_context_t) : txFrame c c := by
  unfold txFrame
  refine ⟨le_refl _, ?_, ?_, ?_, ?_, ?_⟩ <;> · intro h; exact absurd rfl h

/-- A step that keeps the destination record and does not regress the
schema position satisfies the frame relation. -/
theorem txFrame_of_txEq {c c' : tx_stream_context_t} (htx : c'.tx = c.tx)
    (hcf : c.currentField ≤ c'.currentField) : txFrame c c' := by
  unfold txFrame
  rw [htx]
  refine ⟨hcf, ?_, ?_, ?_, ?_, ?_⟩ <;> · intro h; exact absurd rfl h

/-- The frame relation composes. -/
theorem txFrame_trans {a b c : tx_stream_context_t}
    (h1 : txFrame a b) (h2 : txFrame b c) : txFrame a c := by
  unfold txFrame at *
  obtain ⟨m1, g1, s1, v1, r1, w1⟩ := h1
  obtain ⟨m2, g2, s2, v2, r2, w2⟩ := h2
  refine ⟨le_trans m1 m2, ?_, ?_, ?_, ?_, ?_⟩ <;> intro h
  · by_cases hb : b.tx.gasPrice = a.tx.gasPrice
    · obtain ⟨x, y⟩ := g2 (by rw [hb]; exact h); exact ⟨le_trans m1 x, y⟩
    · obtain ⟨x, y⟩ := g1 hb; exact ⟨x, le_trans y m2⟩
  · by_cases hb : b.tx.startGas = a.tx.startGas
    · obtain ⟨x, y⟩ := s2 (by rw [hb]; exact h); exact ⟨le_trans m1 x, y⟩
    · obtain ⟨x, y⟩ := s1 hb; exact ⟨x, le_trans y m2⟩
  · by_cases hb : b.tx.value = a.tx.value
    · obtain ⟨x, y⟩ := v2 (by rw [hb]; exact h); exact ⟨le_trans m1 x, y⟩
    · obtain ⟨x, y⟩ := v1 hb; exact ⟨x, le_trans y m2⟩
  · by_cases hb : b.tx.recipient = a.tx.recipient
    · obtain ⟨x, y⟩ := r2 (by rw [hb]; exact h); exact ⟨le_trans m1 x, y⟩
    · obtain ⟨x, y⟩ := r1 hb; exact ⟨x, le_trans y m2⟩
  · by_cases hb : b.tx.v = a.tx.v
    · obtain ⟨x, y⟩ := w2 (by rw [hb]; exact h); exact ⟨le_trans m1 x, y⟩
    · obtain ⟨x, y⟩ := w1 hb; exact ⟨x, le_trans y m2⟩

/-- Copying preserves every parser-progress field (both on success and on
a throw). -/
theorem txStreamCopyData_persist (ctx : tx_stream_context_t)
    (out : Option (List Nat × Nat)) (n : Nat) :
    detPersist (exCtx (txStreamCopyData ctx out n)) = detPersist ctx := by
  unfold txStreamCopyData
  by_cases h : ctx.workBufferLength < n
  · simp [h, exCtx]
  · by_cases hp : ctx.isProcessingField <;> by_cases hs : ctx.isFieldSingleByte <;>
      simp [h, hp, hs, exCtx, detPersist]

/-- The scalar accumulator keeps the destination record in the context
untouched (it returns the updated slot separately) and never regresses the
schema position. -/
theorem txStreamProcessInt256Field_frame (ctx : tx_stream_context_t)
    (f : Option tx_int256_t) (fs : Nat) :
    (exCtx (txStreamProcessInt256Field ctx f fs)).tx = ctx.tx ∧
    ctx.currentField ≤ (exCtx (txStreamProcessInt256Field ctx f fs)).currentField ∧
    (exCtx (txStreamProcessInt256Field ctx f fs)).currentField ≤ ctx.currentField + 1 := by
  unfold txStreamProcessInt256Field
  by_cases h1 : ctx.isCurrentFieldList
  · simp [h1, exCtx]
  · by_cases h2 : ctx.currentFieldLength ≤ fs
    · simp only [h1, Bool.false_eq_true, if_false, if_neg (not_not_intro h2)]
      by_cases h3 : ctx.currentFieldPos < ctx.currentFieldLength
      · simp only [h3, if_true]
        rcases f with - | f
        · rcases hc : txStreamCopyData ctx none (if ctx.workBufferLength < ctx.currentFieldLength - ctx.currentFieldPos then ctx.workBufferLength else ctx.currentFieldLength - ctx.currentFieldPos) with c' | ⟨o, c'⟩
          · have := txStreamCopyData_persist ctx none (if ctx.workBufferLength < ctx.currentFieldLength - ctx.currentFieldPos then ctx.workBufferLength else ctx.currentFieldLength - ctx.currentFieldPos)
            rw [hc] at this
            simp only [exCtx, detPersist, Prod.mk.injEq] at this
            obtain ⟨e1, -, -, -, -, -, -, -, e9⟩ := this
            simp [hc, exCtx, e9, e1]
          · have := txStreamCopyData_persist ctx none (if ctx.workBufferLength < ctx.currentFieldLength - ctx.currentFieldPos then ctx.workBufferLength else ctx.currentFieldLength - ctx.currentFieldPos)
            rw [hc] at this
            simp only [exCtx, detPersist, Prod.mk.injEq] at this
            obtain ⟨e1, -, -, -, -, -, -, -, e9⟩ := this
            by_cases h4 : c'.currentFieldPos = c'.currentFieldLength <;>
              simp [hc, h4, exCtx, e9, e1]
        · rcases hc : txStreamCopyData ctx (some (f.value, ctx.currentFieldPos)) (if ctx.workBufferLength < ctx.currentFieldLength - ctx.currentFieldPos then ctx.workBufferLength else ctx.currentFieldLength - ctx.currentFieldPos) with c' | ⟨o, c'⟩
          · have := txStreamCopyData_persist ctx (some (f.value, ctx.currentFieldPos)) (if ctx.workBufferLength < ctx.currentFieldLength - ctx.currentFieldPos then ctx.workBufferLength else ctx.currentFieldLength - ctx.currentFieldPos)
            rw [hc] at this
            simp only [exCtx, detPersist, Prod.mk.injEq] at this
            obtain ⟨e1, -, -, -, -, -, -, -, e9⟩ := this
            simp [hc, exCtx, e9, e1]
          · have := txStreamCopyData_persist ctx (some (f.value, ctx.currentFieldPos)) (if ctx.workBufferLength < ctx.currentFieldLength - ctx.currentFieldPos then ctx.workBufferLength else ctx.currentFieldLength - ctx.currentFieldPos)
            rw [hc] at this
            simp only [exCtx, detPersist, Prod.mk.injEq] at this
            obtain ⟨e1, -, -, -, -, -, -, -, e9⟩ := this
            by_cases h4 : c'.currentFieldPos = c'.currentFieldLength <;>
              simp [hc, h4, exCtx, e9, e1]
      · simp only [h3, if_false]
        by_cases h4 : ctx.currentFieldPos = ctx.currentFieldLength <;>
          simp [h4, exCtx]
    · simp [h1, h2, exCtx]

/-- Dispatching the current field respects the frame relation: the schema
position never regresses and only the slot of the dispatched position can
change. -/
theorem txStreamParseFieldProxy_frame (c : tx_stream_context_t) :
    txFrame c (exCtx (txStreamParseFieldProxy c)) := by
  unfold txStreamParseFieldProxy
  by_cases h1 : c.currentField = TX_RLP_ENVELOPE
  · rw [if_pos h1]
    unfold txStreamProcessContent
    by_cases hL : c.isCurrentFieldList
    · by_cases hf : c.processingFlags &&& TX_FLAG_TYPE = 0 <;>
        · simp only [hL, Bool.not_true, Bool.false_eq_true, if_false, hf, exCtx]
          exact txFrame_of_txEq rfl (by simp <;> omega)
    · simp only [hL, Bool.not_false, if_true, exCtx]
      exact txFrame_refl c
  · rw [if_neg h1]
    by_cases h2 : c.currentField = TX_RLP_TYPE
    · rw [if_pos h2]
      have hfr := txStreamProcessInt256Field_frame c none TX_MAX_INT256_LENGTH
      rcases hp : txStreamProcessInt256Field c none TX_MAX_INT256_LENGTH with c' | ⟨f, c'⟩ <;>
        · rw [hp] at hfr
          simp only [exCtx] at hfr
          simpa [exCtx] using txFrame_of_txEq hfr.1 hfr.2.1
    · rw [if_neg h2]
      by_cases h3 : c.currentField = TX_RLP_NONCE
      · rw [if_pos h3]
        have hfr := txStreamProcessInt256Field_frame c none TX_MAX_INT256_LENGTH
        rcases hp : txStreamProcessInt256Field c none TX_MAX_INT256_LENGTH with c' | ⟨f, c'⟩ <;>
          · rw [hp] at hfr
            simp only [exCtx] at hfr
            simpa [exCtx] using txFrame_of_txEq hfr.1 hfr.2.1
      · rw [if_neg h3]
        by_cases h4 : c.currentField = TX_RLP_GAS_PRICE
        · rw [if_pos h4]
          have hfr := txStreamProcessInt256Field_frame c (some c.tx.gasPrice) TX_MAX_INT256_LENGTH
          rcases hp : txStreamProcessInt256Field c (some c.tx.gasPrice) TX_MAX_INT256_LENGTH with c' | ⟨f, c'⟩
          · rw [hp] at hfr
            simp only [exCtx] at hfr
            simpa [exCtx] using txFrame_of_txEq hfr.1 hfr.2.1
          · rw [hp] at hfr
            simp only [exCtx] at hfr
            simp only [exCtx]
            refine ⟨by simpa using hfr.2.1, ?_, ?_, ?_, ?_, ?_⟩ <;> intro hch <;>
              simp only [hfr.1] at hch ⊢
            · exact ⟨le_of_eq h4, by rw [← h4]; exact hfr.2.1⟩
            all_goals exact absurd rfl hch
        · rw [if_neg h4]
          by_cases h5 : c.currentField = TX_RLP_START_GAS
          · rw [if_pos h5]
            have hfr := txStreamProcessInt256Field_frame c (some c.tx.startGas) TX_MAX_INT256_LENGTH
            rcases hp : txStreamProcessInt256Field c (some c.tx.startGas) TX_MAX_INT256_LENGTH with c' | ⟨f, c'⟩
            · rw [hp] at hfr
              simp only [exCtx] at hfr
              simpa [exCtx] using txFrame_of_txEq hfr.1 hfr.2.1
            · rw [hp] at hfr
              simp only [exCtx] at hfr
              simp only [exCtx]
              refine ⟨by simpa using hfr.2.1, ?_, ?_, ?_, ?_, ?_⟩ <;> intro hch <;>
                simp only [hfr.1] at hch ⊢
              · exact absurd rfl hch
              · exact ⟨le_of_eq h5, by rw [← h5]; exact hfr.2.1⟩
              all_goals exact absurd rfl hch
          · rw [if_neg h5]
            by_cases h6 : c.currentField = TX_RLP_VALUE
            · rw [if_pos h6]
              have hfr := txStreamProcessInt256Field_frame c (some c.tx.value) TX_MAX_INT256_LENGTH
              rcases hp : txStreamProcessInt256Field c (some c.tx.value) TX_MAX_INT256_LENGTH with c' | ⟨f, c'⟩
              · rw [hp] at hfr
                simp only [exCtx] at hfr
                simpa [exCtx] using txFrame_of_txEq hfr.1 hfr.2.1
              · rw [hp] at hfr
                simp only [exCtx] at hfr
                simp only [exCtx]
                refine ⟨by simpa using hfr.2.1, ?_, ?_, ?_, ?_, ?_⟩ <;> intro hch <;>
                  simp only [hfr.1] at hch ⊢
                · exact absurd rfl hch
                · exact absurd rfl hch
                · exact ⟨le_of_eq h6, by rw [← h6]; exact hfr.2.1⟩
                all_goals exact absurd rfl hch
            · rw [if_neg h6]
              by_cases h7 : c.currentField = TX_RLP_RECIPIENT
              · rw [if_pos h7]
                rw [txStreamProcessAddressField_eq]
                have hfr := txStreamProcessInt256Field_frame c (some c.tx.recipient) TX_MAX_ADDRESS_LENGTH
                rcases hp : txStreamProcessInt256Field c (some c.tx.recipient) TX_MAX_ADDRESS_LENGTH with c' | ⟨f, c'⟩
                · rw [hp] at hfr
                  simp only [exCtx] at hfr
                  simpa [exCtx] using txFrame_of_txEq hfr.1 hfr.2.1
                · rw [hp] at hfr
                  simp only [exCtx] at hfr
                  simp only [exCtx]
                  refine ⟨by simpa using hfr.2.1, ?_, ?_, ?_, ?_, ?_⟩ <;> intro hch <;>
                    simp only [hfr.1] at hch ⊢
                  · exact absurd rfl hch
                  · exact absurd rfl hch
                  · exact absurd rfl hch
                  · exact ⟨le_of_eq h7, by rw [← h7]; exact hfr.2.1⟩
                  · exact absurd rfl hch
              · rw [if_neg h7]
                by_cases h8 : c.currentField = TX_RLP_DATA ∨ c.currentField = TX_RLP_R ∨
                    c.currentField = TX_RLP_S
                · rw [if_pos h8]
                  have hfr := txStreamProcessInt256Field_frame c none MAX_BUFFER_SIZE
                  rcases hp : txStreamProcessInt256Field c none MAX_BUFFER_SIZE with c' | ⟨f, c'⟩ <;>
                    · rw [hp] at hfr
                      simp only [exCtx] at hfr
                      simpa [exCtx] using txFrame_of_txEq hfr.1 hfr.2.1
                · rw [if_neg h8]
                  by_cases h9 : c.currentField = TX_RLP_V
                  · rw [if_pos h9]
                    rw [txStreamProcessVField_eq]
                    have hfr := txStreamProcessInt256Field_frame c (some c.tx.v) TX_MAX_INT256_LENGTH
                    rcases hp : txStreamProcessInt256Field c (some c.tx.v) TX_MAX_INT256_LENGTH with c' | ⟨f, c'⟩
                    · rw [hp] at hfr
                      simp only [exCtx] at hfr
                      simpa [exCtx] using txFrame_of_txEq hfr.1 hfr.2.1
                    · rw [hp] at hfr
                      simp only [exCtx] at hfr
                      simp only [exCtx]
                      refine ⟨by simpa using hfr.2.1, ?_, ?_, ?_, ?_, ?_⟩ <;> intro hch <;>
                        simp only [hfr.1] at hch ⊢
                      · exact absurd rfl hch
                      · exact absurd rfl hch
                      · exact absurd rfl hch
                      · exact absurd rfl hch
                      · exact ⟨le_of_eq h9, by rw [← h9]; exact hfr.2.1⟩
                  · rw [if_neg h9]
                    simp only [exCtx]
                    exact txFrame_refl c

/-- One parse-loop iteration respects the frame relation. -/
theorem txStreamParseStep_frame (c : tx_stream_context_t) :
    txFrame c (exCtx (txStreamParseStep c)) := by
  unfold txStreamParseStep
  by_cases hd : c.currentField = TX_RLP_DONE
  · simp only [hd, if_pos rfl, exCtx]
    exact txFrame_refl _
  · rw [if_neg hd]
    by_cases hv : c.currentField = TX_RLP_V ∧ c.workBufferLength = 0
    · rw [if_pos hv]
      simp only [exCtx]
      refine ⟨le_refl _, ?_, ?_, ?_, ?_, ?_⟩ <;> intro hch
      · exact absurd rfl hch
      · exact absurd rfl hch
      · exact absurd rfl hch
      · exact absurd rfl hch
      · exact ⟨le_of_eq hv.1, le_of_eq hv.1.symm⟩
    · rw [if_neg hv]
      by_cases h0 : c.workBufferLength = 0
      · simp only [h0, if_pos rfl, exCtx]
        exact txFrame_refl _
      · rw [if_neg h0]
        by_cases hip : c.isProcessingField
        · simp only [hip, Bool.not_true, Bool.false_eq_true, if_false]
          have hfr := txStreamParseFieldProxy_frame c
          rcases hpx : txStreamParseFieldProxy c with c2 | ⟨st, c2⟩
          · rw [hpx] at hfr
            simpa [exCtx] using hfr
          · rw [hpx] at hfr
            simp only [exCtx] at hfr
            by_cases hst : st = .fault <;> simp [hst, exCtx, hfr]
        · simp only [hip, Bool.not_false, if_true]
          have hper : detPersist (detCtx (txStreamDetectField c)) = detPersist c :=
            txStreamDetectFieldGo_persist c.workBufferLength c
          rcases hdet : txStreamDetectField c with c1 | ⟨st, cd, c1⟩
          · rw [hdet] at hper
            simp only [detCtx, detPersist, Prod.mk.injEq] at hper
            obtain ⟨e1, -, -, -, -, -, -, -, e9⟩ := hper
            simp only [hdet]
            simpa [exCtx] using txFrame_of_txEq e9 (le_of_eq e1.symm)
          · rw [hdet] at hper
            simp only [detCtx, detPersist, Prod.mk.injEq] at hper
            obtain ⟨e1, -, -, -, -, -, -, -, e9⟩ := hper
            simp only [hdet]
            have hneutral : txFrame c c1 := txFrame_of_txEq e9 (le_of_eq e1.symm)
            by_cases hst : st = .fault
            · simp [hst, exCtx, hneutral]
            · rw [if_neg hst]
              rcases cd with - | -
              · simpa [exCtx] using hneutral
              · simp only [Bool.not_true, Bool.false_eq_true, if_false]
                rcases hdec : rlpDecodeLength (c1.rlpBuffer.take c1.rlpBufferPos) with - | ⟨n, off, L⟩
                · simpa [exCtx] using hneutral
                · simp only []
                  have hfs : txFrame c (fieldStart c1 n off L) := by
                    refine txFrame_trans hneutral (txFrame_of_txEq ?_ ?_)
                    · exact (fieldStart_proj c1 n off L).2.2.2.2.2.2.2.2.2.2.2.2.1
                    · exact le_of_eq (fieldStart_proj c1 n off L).1.symm
                  have hfr := txStreamParseFieldProxy_frame (fieldStart c1 n off L)
                  rcases hpx : txStreamParseFieldProxy (fieldStart c1 n off L) with c2 | ⟨st2, c2⟩
                  · rw [hpx] at hfr
                    simp only [exCtx] at hfr
                    simpa [exCtx] using txFrame_trans hfs hfr
                  · rw [hpx] at hfr
                    simp only [exCtx] at hfr
                    by_cases hst2 : st2 = .fault <;>
                      simp [hst2, exCtx, txFrame_trans hfs hfr]

/-- The parse loop respects the frame relation. -/
theorem txStreamParseGo_frame (fuel : Nat) (c : tx_stream_context_t) :
    txFrame c (exCtx (txStreamParseGo c fuel)) := by
  induction fuel generalizing c with
  | zero =>
    simp only [txStreamParseGo, exCtx]
    exact txFrame_refl _
  | succ n ih =>
    unfold txStreamParseGo
    have hfr := txStreamParseStep_frame c
    rcases hs : txStreamParseStep c with c1 | ⟨os, c1⟩
    · rw [hs] at hfr
      simpa [exCtx] using hfr
    · rw [hs] at hfr
      simp only [exCtx] at hfr
      rcases os with - | s
      · simpa [exCtx] using txFrame_trans hfr (ih c1)
      · simpa [exCtx] using hfr

/-- Claim C10: a frame property of every `txStreamProcess` call.  The
schema position never regresses, and each retained destination slot
(gasPrice, startGas, value, recipient, v) is unchanged by the call unless
that slot's own schema position lies between the call's entry and exit
positions — in particular, processing any field the schema does not retain
(type, nonce, data payload, signature components R and S) never writes any
retained slot. -/
theorem claim_C10 (ctx : tx_stream_context_t) (buffer : List Nat) (flags : Nat) :
    txFrame ctx (txStreamProcess ctx buffer flags).2 := by
  unfold txStreamProcess
  by_cases hb : ¬ (buffer.length > 0)
  · simp only [hb, if_pos, if_true]
    exact txFrame_refl _
  · rw [if_neg hb]
    by_cases hcf : ¬ (TX_RLP_NONE < ctx.currentField ∧ ctx.currentField < TX_RLP_DONE)
    · simp only [hcf, if_pos, if_true]
      exact txFrame_refl _
    · rw [if_neg hcf]
      rw [txStreamParse]
      have hfr := txStreamParseGo_frame
        (({ ctx with workBuffer := buffer, workBufferLength := buffer.length, workPos := 0, processingFlags := flags } : tx_stream_context_t).workBufferLength + 2)
        { ctx with workBuffer := buffer, workBufferLength := buffer.length, workPos := 0, processingFlags := flags }
      have hneutral : txFrame ctx { ctx with workBuffer := buffer, workBufferLength := buffer.length, workPos := 0, processingFlags := flags } :=
        txFrame_of_txEq rfl (le_refl _)
      rcases hg : txStreamParseGo { ctx with workBuffer := buffer, workBufferLength := buffer.length, workPos := 0, processingFlags := flags } (({ ctx with workBuffer := buffer, workBufferLength := buffer.length, workPos := 0, processingFlags := flags } : tx_stream_context_t).workBufferLength + 2) with c1 | ⟨s, c1⟩ <;>
        · rw [hg] at hfr
          simp only [exCtx] at hfr
          simpa using txFrame_trans hneutral hfr

/-- Replace the stored processing flags of a context. -/
def setFlags (c : tx_stream_context_t) (x : Nat) : tx_stream_context_t :=
  { c with processingFlags := x }

/-- Reading a byte never reads the processing flags. -/
theorem txStreamReadByte_flags (c : tx_stream_context_t) (x : Nat) :
    txStreamReadByte (setFlags c x) =
      (match txStreamReadByte c with
       | .error c' => .error (setFlags c' x)
       | .ok (b, c') => .ok (b, setFlags c' x)) := by
  unfold txStreamReadByte setFlags
  by_cases h : c.workBufferLength < 1
  · simp [h]
  · by_cases hp : c.isProcessingField <;> by_cases hs : c.isFieldSingleByte <;>
      simp [h, hp, hs]

/-- Copying data never reads the processing flags. -/
theorem txStreamCopyData_flags (c : tx_stream_context_t) (x : Nat)
    (out : Option (List Nat × Nat)) (n : Nat) :
    txStreamCopyData (setFlags c x) out n =
      (match txStreamCopyData c out n with
       | .error c' => .error (setFlags c' x)
       | .ok (o, c') => .ok (o, setFlags c' x)) := by
  unfold txStreamCopyData setFlags
  by_cases h : c.workBufferLength < n
  · simp [h]
  · by_cases hp : c.isProcessingField <;> by_cases hs : c.isFieldSingleByte <;>
      simp [h, hp, hs]

/-- The detector loop never reads the processing flags. -/
theorem txStreamDetectFieldGo_flags (fuel : Nat) (c : tx_stream_context_t) (x : Nat) :
    txStreamDetectFieldGo (setFlags c x) fuel =
      (match txStreamDetectFieldGo c fuel with
       | .error c' => .error (setFlags c' x)
       | .ok (st, cd, c') => .ok (st, cd, setFlags c' x)) := by
  induction fuel generalizing c with
  | zero => simp [txStreamDetectFieldGo]
  | succ n ih =>
    unfold txStreamDetectFieldGo
    by_cases h0 : c.workBufferLength = 0
    · simp [h0, setFlags]
    · by_cases h1 : c.rlpBufferPos = RLP_LENGTH_BUFFER_SIZE
      · simp [h0, h1, setFlags]
      · have hb1 : (setFlags c x).workBufferLength = c.workBufferLength := rfl
        have hb2 : (setFlags c x).rlpBufferPos = c.rlpBufferPos := rfl
        rw [hb1, hb2, if_neg h0, if_neg h1, txStreamReadByte_flags]
        rcases hr : txStreamReadByte c with c' | ⟨b, c'⟩
        · simp [h0, h1]
        · simp only [h0, h1, if_false]
          simp only [setFlags]
          rcases hcd : rlpCanDecode ((c'.rlpBuffer.set c'.rlpBufferPos b).take (c'.rlpBufferPos + 1)) with - | v
          · simp only [hcd]
            have := ih { c' with rlpBuffer := c'.rlpBuffer.set c'.rlpBufferPos b, rlpBufferPos := c'.rlpBufferPos + 1 }
            simpa [setFlags] using this
          · rcases v with - | - <;> simp [hcd]

/-- The envelope handler never reads the processing flags. -/
theorem txStreamProcessContent_flags (c : tx_stream_context_t) (x : Nat) :
    txStreamProcessContent (setFlags c x) =
      (match txStreamProcessContent c with
       | .error c' => .error (setFlags c' x)
       | .ok c' => .ok (setFlags c' x)) := by
  unfold txStreamProcessContent setFlags
  by_cases h : c.isCurrentFieldList <;> simp [h]

/-- The scalar accumulator never reads the processing flags. -/
theorem txStreamProcessInt256Field_flags (c : tx_stream_context_t) (x : Nat)
    (f : Option tx_int256_t) (fs : Nat) :
    txStreamProcessInt256Field (setFlags c x) f fs =
      (match txStreamProcessInt256Field c f fs with
       | .error c' => .error (setFlags c' x)
       | .ok (o, c') => .ok (o, setFlags c' x)) := by
  unfold txStreamProcessInt256Field
  have p1 : (setFlags c x).isCurrentFieldList = c.isCurrentFieldList := rfl
  have p2 : (setFlags c x).currentFieldLength = c.currentFieldLength := rfl
  have p3 : (setFlags c x).currentFieldPos = c.currentFieldPos := rfl
  have p4 : (setFlags c x).workBufferLength = c.workBufferLength := rfl
  rw [p1, p2, p3, p4]
  by_cases h1 : c.isCurrentFieldList
  · simp [h1]
  · simp only [h1, Bool.false_eq_true, if_false]
    by_cases h2 : c.currentFieldLength ≤ fs
    · simp only [if_neg (not_not_intro h2)]
      by_cases h3 : c.currentFieldPos < c.currentFieldLength
      · simp only [h3, if_true]
        rcases f with - | f
        · dsimp only
          rw [txStreamCopyData_flags]
          rcases hc : txStreamCopyData c none (if c.workBufferLength < c.currentFieldLength - c.currentFieldPos then c.workBufferLength else c.currentFieldLength - c.currentFieldPos) with c' | ⟨o, c'⟩
          · simp [hc]
          · simp only [hc]
            by_cases h4 : c'.currentFieldPos = c'.currentFieldLength <;>
              simp [h4, setFlags]
        · dsimp only
          rw [txStreamCopyData_flags]
          rcases hc : txStreamCopyData c (some (f.value, c.currentFieldPos)) (if c.workBufferLength < c.currentFieldLength - c.currentFieldPos then c.workBufferLength else c.currentFieldLength - c.currentFieldPos) with c' | ⟨o, c'⟩
          · simp [hc]
          · simp only [hc]
            by_cases h4 : c'.currentFieldPos = c'.currentFieldLength <;>
              simp [h4, setFlags]
      · simp only [h3, if_false]
        by_cases h4 : c.currentFieldPos = c.currentFieldLength <;> simp [h4, setFlags]
    · simp [h2]

/-- Field dispatch away from the envelope position never reads the
processing flags: the flag test sits only in the envelope branch. -/
theorem txStreamParseFieldProxy_flags (c : tx_stream_context_t) (x : Nat)
    (h : c.currentField ≠ TX_RLP_ENVELOPE) :
    txStreamParseFieldProxy (setFlags c x) =
      (match txStreamParseFieldProxy c with
       | .error c' => .error (setFlags c' x)
       | .ok (st, c') => .ok (st, setFlags c' x)) := by
  unfold txStreamParseFieldProxy
  have pcf : (setFlags c x).currentField = c.currentField := rfl
  have parg : (setFlags c x).tx = c.tx := rfl
  rw [pcf, parg]
  simp only [if_neg h]
  by_cases h2 : c.currentField = TX_RLP_TYPE
  · simp only [if_pos h2]
    rw [txStreamProcessInt256Field_flags]
    rcases hp : txStreamProcessInt256Field c none TX_MAX_INT256_LENGTH with c' | ⟨o, c'⟩ <;>
      simp [hp]
  · simp only [if_neg h2]
    by_cases h3 : c.currentField = TX_RLP_NONCE
    · simp only [if_pos h3]
      rw [txStreamProcessInt256Field_flags]
      rcases hp : txStreamProcessInt256Field c none TX_MAX_INT256_LENGTH with c' | ⟨o, c'⟩ <;>
        simp [hp]
    · simp only [if_neg h3]
      by_cases h4 : c.currentField = TX_RLP_GAS_PRICE
      · simp only [if_pos h4]
        rw [txStreamProcessInt256Field_flags]
        rcases hp : txStreamProcessInt256Field c (some c.tx.gasPrice) TX_MAX_INT256_LENGTH with c' | ⟨o, c'⟩ <;>
          simp [hp, setFlags]
      · simp only [if_neg h4]
        by_cases h5 : c.currentField = TX_RLP_START_GAS
        · simp only [if_pos h5]
          rw [txStreamProcessInt256Field_flags]
          rcases hp : txStreamProcessInt256Field c (some c.tx.startGas) TX_MAX_INT256_LENGTH with c' | ⟨o, c'⟩ <;>
            simp [hp, setFlags]
        · simp only [if_neg h5]
          by_cases h6 : c.currentField = TX_RLP_VALUE
          · simp only [if_pos h6]
            rw [txStreamProcessInt256Field_flags]
            rcases hp : txStreamProcessInt256Field c (some c.tx.value) TX_MAX_INT256_LENGTH with c' | ⟨o, c'⟩ <;>
              simp [hp, setFlags]
          · simp only [if_neg h6]
            by_cases h7 : c.currentField = TX_RLP_RECIPIENT
            · simp only [if_pos h7]
              rw [txStreamProcessAddressField_eq, txStreamProcessInt256Field_flags]
              rcases hp : txStreamProcessInt256Field c (some c.tx.recipient) TX_MAX_ADDRESS_LENGTH with c' | ⟨o, c'⟩ <;>
                simp [hp, setFlags]
            · simp only [if_neg h7]
              by_cases h8 : c.currentField = TX_RLP_DATA ∨ c.currentField = TX_RLP_R ∨
                  c.currentField = TX_RLP_S
              · simp only [if_pos h8]
                rw [txStreamProcessInt256Field_flags]
                rcases hp : txStreamProcessInt256Field c none MAX_BUFFER_SIZE with c' | ⟨o, c'⟩ <;>
                  simp [hp]
              · simp only [if_neg h8]
                by_cases h9 : c.currentField = TX_RLP_V
                · simp only [if_pos h9]
                  rw [txStreamProcessVField_eq, txStreamProcessInt256Field_flags]
                  rcases hp : txStreamProcessInt256Field c (some c.tx.v) TX_MAX_INT256_LENGTH with c' | ⟨o, c'⟩ <;>
                    simp [hp, setFlags]
                · simp only [if_neg h9]

/-- Starting a field commutes with replacing the processing flags. -/
theorem fieldStart_flags (c : tx_stream_context_t) (x n off : Nat) (L : Bool) :
    fieldStart (setFlags c x) n off L = setFlags (fieldStart c n off L) x := by
  unfold fieldStart setFlags
  by_cases h : off = 0 <;> simp [h]

/-- A parse-loop iteration away from the envelope position never reads the
processing flags. -/
theorem txStreamParseStep_flags (c : tx_stream_context_t) (x : Nat)
    (h : c.currentField ≠ TX_RLP_ENVELOPE) :
    txStreamParseStep (setFlags c x) =
      (match txStreamParseStep c with
       | .error c' => .error (setFlags c' x)
       | .ok (os, c') => .ok (os, setFlags c' x)) := by
  unfold txStreamParseStep
  have pcf : (setFlags c x).currentField = c.currentField := rfl
  have plen : (setFlags c x).workBufferLength = c.workBufferLength := rfl
  have pip : (setFlags c x).isProcessingField = c.isProcessingField := rfl
  rw [pcf, plen, pip]
  by_cases hd : c.currentField = TX_RLP_DONE
  · simp [hd]
  · simp only [if_neg hd]
    by_cases hv : c.currentField = TX_RLP_V ∧ c.workBufferLength = 0
    · simp only [if_pos hv]
      simp [setFlags]
    · simp only [if_neg hv]
      by_cases h0 : c.workBufferLength = 0
      · simp [h0]
      · simp only [if_neg h0]
        by_cases hip : c.isProcessingField
        · simp only [hip, Bool.not_true, Bool.false_eq_true, if_false]
          rw [txStreamParseFieldProxy_flags c x h]
          rcases hpx : txStreamParseFieldProxy c with c2 | ⟨st, c2⟩
          · simp
          · by_cases hst : st = .fault <;> simp [hst]
        · simp only [hip, Bool.not_false, if_true]
          have hdfe : txStreamDetectField (setFlags c x) =
              txStreamDetectFieldGo (setFlags c x) c.workBufferLength := rfl
          rw [hdfe, txStreamDetectFieldGo_flags]
          have hper : detPersist (detCtx (txStreamDetectField c)) = detPersist c :=
            txStreamDetectFieldGo_persist c.workBufferLength c
          rw [show txStreamDetectFieldGo c c.workBufferLength = txStreamDetectField c from rfl]
          rcases hdet : txStreamDetectField c with c1 | ⟨st, cd, c1⟩
          · simp
          · rw [hdet] at hper
            simp only [detCtx, detPersist, Prod.mk.injEq] at hper
            obtain ⟨e1, -, -, -, -, -, -, -, -⟩ := hper
            simp only []
            by_cases hst : st = .fault
            · simp [hst]
            · simp only [if_neg hst]
              rcases cd with - | -
              · simp
              · simp only [Bool.not_true, Bool.false_eq_true, if_false]
                have pr1 : (setFlags c1 x).rlpBuffer = c1.rlpBuffer := rfl
                have pr2 : (setFlags c1 x).rlpBufferPos = c1.rlpBufferPos := rfl
                rw [pr1, pr2]
                rcases hdec : rlpDecodeLength (c1.rlpBuffer.take c1.rlpBufferPos) with - | ⟨n, off, L⟩
                · simp
                · simp only []
                  rw [fieldStart_flags]
                  have hne : (fieldStart c1 n off L).currentField ≠ TX_RLP_ENVELOPE := by
                    rw [(fieldStart_proj c1 n off L).1, e1]
                    exact h
                  rw [txStreamParseFieldProxy_flags _ x hne]
                  rcases hpx : txStreamParseFieldProxy (fieldStart c1 n off L) with c2 | ⟨st2, c2⟩
                  · simp
                  · by_cases hst2 : st2 = .fault <;> simp [hst2]

/-- The parse loop started past the envelope position never reads the
processing flags. -/
theorem txStreamParseGo_flags (fuel : Nat) (c : tx_stream_context_t) (x : Nat)
    (h : TX_RLP_ENVELOPE < c.currentField) :
    txStreamParseGo (setFlags c x) fuel =
      (match txStreamParseGo c fuel with
       | .error c' => .error (setFlags c' x)
       | .ok (s, c') => .ok (s, setFlags c' x)) := by
  induction fuel generalizing c with
  | zero => simp [txStreamParseGo]
  | succ n ih =>
    unfold txStreamParseGo
    rw [txStreamParseStep_flags c x (by omega)]
    have hfr := txStreamParseStep_frame c
    rcases hs : txStreamParseStep c with c1 | ⟨os, c1⟩
    · simp
    · rw [hs] at hfr
      simp only [exCtx] at hfr
      rcases os with - | s
      · simp only []
        exact ih c1 (lt_of_lt_of_le h hfr.1)
      · simp

/-- Claim C8: once a parse is past the envelope position — where the
has-explicit-type-field decision was made from the flags supplied with the
call that dispatched the envelope — the flag values passed on later calls
of the same parse do not change which fields are expected: two calls on
the same state and buffer with different flags return the same status and
the same context except for the stored (never again read) flags word. -/
theorem claim_C8 (ctx : tx_stream_context_t) (buffer : List Nat) (fA fB : Nat)
    (h : ctx.currentField ≠ TX_RLP_ENVELOPE) :
    (txStreamProcess ctx buffer fA).1 = (txStreamProcess ctx buffer fB).1 ∧
    setFlags (txStreamProcess ctx buffer fA).2 0 =
      setFlags (txStreamProcess ctx buffer fB).2 0 := by
  unfold txStreamProcess
  by_cases hb : ¬ (buffer.length > 0)
  · simp [hb]
  · rw [if_neg hb, if_neg hb]
    by_cases hcf : ¬ (TX_RLP_NONE < ctx.currentField ∧ ctx.currentField < TX_RLP_DONE)
    · simp [hcf]
    · rw [if_neg hcf, if_neg hcf]
      rw [txStreamParse, txStreamParse]
      have hgt : TX_RLP_ENVELOPE < ({ ctx with workBuffer := buffer, workBufferLength := buffer.length, workPos := 0, processingFlags := fB } : tx_stream_context_t).currentField := by
        simp only [TX_RLP_ENVELOPE]
        simp only [not_not] at hcf
        simp only [TX_RLP_NONE, TX_RLP_ENVELOPE, TX_RLP_DONE] at hcf h ⊢
        omega
      have hsetEq : ({ ctx with workBuffer := buffer, workBufferLength := buffer.length, workPos := 0, processingFlags := fA } : tx_stream_context_t) = setFlags { ctx with workBuffer := buffer, workBufferLength := buffer.length, workPos := 0, processingFlags := fB } fA := by
        simp [setFlags]
      rw [hsetEq]
      have hlenEq : (setFlags { ctx with workBuffer := buffer, workBufferLength := buffer.length, workPos := 0, processingFlags := fB } fA : tx_stream_context_t).workBufferLength = ({ ctx with workBuffer := buffer, workBufferLength := buffer.length, workPos := 0, processingFlags := fB } : tx_stream_context_t).workBufferLength := rfl
      rw [hlenEq]
      rw [txStreamParseGo_flags _ _ fA hgt]
      rcases hg : txStreamParseGo { ctx with workBuffer := buffer, workBufferLength := buffer.length, workPos := 0, processingFlags := fB } (({ ctx with workBuffer := buffer, workBufferLength := buffer.length, workPos := 0, processingFlags := fB } : tx_stream_context_t).workBufferLength + 2) with c1 | ⟨s, c1⟩ <;>
        simp [setFlags]

/-- Witness for claim C8 at a concrete input: at the nonce position, flag
words 0 and 1 give the same status and the same context apart from the
stored flags word. -/
theorem claim_C8_witness :
    (txStreamProcess { txStreamInit txZero with currentField := TX_RLP_NONCE } [5] 0).1 =
      (txStreamProcess { txStreamInit txZero with currentField := TX_RLP_NONCE } [5] 1).1 ∧
    setFlags (txStreamProcess { txStreamInit txZero with currentField := TX_RLP_NONCE } [5] 0).2 0 =
      setFlags (txStreamProcess { txStreamInit txZero with currentField := TX_RLP_NONCE } [5] 1).2 0 :=
  claim_C8 { txStreamInit txZero with currentField := TX_RLP_NONCE } [5] 0 1 (by decide)

/-- The scalar accumulator, in an ordinary (non single-byte) field, either
throws with the context unchanged or consumes `t` bytes and feeds exactly
those bytes to the hash. -/
theorem txStreamProcessInt256Field_inv (ctx : tx_stream_context_t)
    (f : Option tx_int256_t) (fs : Nat)
    (hpf : ctx.isProcessingField = true) (hsb : ctx.isFieldSingleByte = false) :
    (∃ c', txStreamProcessInt256Field ctx f fs = .error c' ∧ c' = ctx) ∨
    (∃ o c' t, txStreamProcessInt256Field ctx f fs = .ok (o, c') ∧
      t ≤ ctx.workBufferLength ∧
      c'.workBuffer = ctx.workBuffer ∧ c'.workPos = ctx.workPos + t ∧
      c'.workBufferLength = ctx.workBufferLength - t ∧
      c'.hashData = ctx.hashData ++ ((ctx.workBuffer.drop ctx.workPos).take t) ∧
      c'.isFieldSingleByte = false) := by
  unfold txStreamProcessInt256Field
  by_cases h1 : ctx.isCurrentFieldList
  · exact Or.inl ⟨ctx, by simp [h1], rfl⟩
  · by_cases h2 : ctx.currentFieldLength ≤ fs
    · by_cases h3 : ctx.currentFieldPos < ctx.currentFieldLength
      · simp only [h1, Bool.false_eq_true, if_false, if_neg (not_not_intro h2), h3, if_true]
        set T := (if ctx.workBufferLength < ctx.currentFieldLength - ctx.currentFieldPos then ctx.workBufferLength else ctx.currentFieldLength - ctx.currentFieldPos) with hT
        have htc : T ≤ ctx.workBufferLength := by
          rw [hT]
          by_cases hx : ctx.workBufferLength < ctx.currentFieldLength - ctx.currentFieldPos <;>
            simp [hx]
          omega
        rcases f with - | f
        · dsimp only
          rw [txStreamCopyData_hashed ctx none T htc hpf hsb]
          dsimp only
          by_cases h4 : ctx.currentFieldPos + T = ctx.currentFieldLength
          · rw [if_pos h4]
            exact Or.inr ⟨none, _, T, rfl, htc, rfl, rfl, rfl, rfl, hsb⟩
          · rw [if_neg h4]
            exact Or.inr ⟨none, _, T, rfl, htc, rfl, rfl, rfl, rfl, hsb⟩
        · dsimp only
          rw [txStreamCopyData_hashed ctx (some (f.value, ctx.currentFieldPos)) T htc hpf hsb]
          dsimp only
          by_cases h4 : ctx.currentFieldPos + T = ctx.currentFieldLength
          · rw [if_pos h4]
            exact Or.inr ⟨_, _, T, rfl, htc, rfl, rfl, rfl, rfl, hsb⟩
          · rw [if_neg h4]
            exact Or.inr ⟨_, _, T, rfl, htc, rfl, rfl, rfl, rfl, hsb⟩
      · simp only [h1, Bool.false_eq_true, if_false, if_neg (not_not_intro h2), h3, if_false]
        by_cases h4 : ctx.currentFieldPos = ctx.currentFieldLength
        · rw [if_pos h4]
          exact Or.inr ⟨_, _, 0, rfl, Nat.zero_le _, rfl, rfl, rfl, by simp, hsb⟩
        · rw [if_neg h4]
          exact Or.inr ⟨_, _, 0, rfl, Nat.zero_le _, rfl, rfl, rfl, by simp, hsb⟩
    · by_cases hL : ctx.isCurrentFieldList
      · exact absurd hL h1
      · exact Or.inl ⟨ctx, by simp [h1, h2], rfl⟩

/-- Slicing one more byte at an in-range cursor: the slice starts with the
byte under the cursor. -/
theorem take_succ_drop (l : List Nat) (p k : Nat) (h : p < l.length) :
    (l.drop p).take (k + 1) = l.getD p 0 :: (l.drop (p + 1)).take k := by
  induction l generalizing p with
  | nil => simp at h
  | cons x xs ih =>
    cases p with
    | zero => simp
    | succ q =>
      simp only [List.drop_succ_cons, List.getD_cons_succ]
      exact ih q (by simpa using h)

/-- Consuming a `k`-byte slice and then a `t`-byte slice consumes one
`k + t`-byte slice. -/
theorem take_add_drop (l : List Nat) (p k t : Nat) :
    (l.drop p).take k ++ (l.drop (p + k)).take t = (l.drop p).take (k + t) := by
  rw [List.take_add]
  congr 1
  congr 1
  rw [List.drop_drop, Nat.add_comm]

/-- A header decoding with offset 0 is exactly the self-encoding single
byte: declared length 1 and scalar. -/
theorem rlpDecodeLength_offset0 (l : List Nat) (n : Nat) (L : Bool)
    (h : rlpDecodeLength l = some (n, 0, L)) : n = 1 ∧ L = false := by
  cases l with
  | nil =>
    simp only [rlpDecodeLength] at h
    exact Option.noConfusion h
  | cons b rest =>
    simp only [rlpDecodeLength] at h
    by_cases h1 : b ≤ 0x7f
    · rw [if_pos h1] at h
      injection h with h2
      injection h2 with ha hbc
      injection hbc with hb hc
      exact ⟨ha.symm, hc.symm⟩
    · rw [if_neg h1] at h
      by_cases h2 : b ≤ 0xb7
      · rw [if_pos h2] at h
        simp only [Option.some.injEq, Prod.mk.injEq] at h
        exact absurd h.2.1 (by omega)
      · rw [if_neg h2] at h
        by_cases h3 : b ≤ 0xbf
        · rw [if_pos h3] at h
          by_cases h4 : b - 0xb7 ≤ rest.length ∧ b ≤ 0xbb
          · rw [if_pos h4] at h
            simp only [Option.some.injEq, Prod.mk.injEq] at h
            exact absurd h.2.1 (by omega)
          · rw [if_neg h4] at h
            exact Option.noConfusion h
        · rw [if_neg h3] at h
          by_cases h5 : b ≤ 0xf7
          · rw [if_pos h5] at h
            simp only [Option.some.injEq, Prod.mk.injEq] at h
            exact absurd h.2.1 (by omega)
          · rw [if_neg h5] at h
            by_cases h6 : b - 0xf7 ≤ rest.length ∧ b ≤ 0xfb
            · rw [if_pos h6] at h
              simp only [Option.some.injEq, Prod.mk.injEq] at h
              exact absurd h.2.1 (by omega)
            · rw [if_neg h6] at h
              exact Option.noConfusion h

/-- Dispatching a schema position outside the closed set returns
`TX_STREAM_FAULT` with the context unchanged. -/
theorem txStreamParseFieldProxy_unknown (c : tx_stream_context_t)
    (h : ¬ (TX_RLP_ENVELOPE ≤ c.currentField ∧ c.currentField ≤ TX_RLP_S)) :
    txStreamParseFieldProxy c = .ok (.fault, c) := by
  simp only [TX_RLP_ENVELOPE, TX_RLP_S] at h
  unfold txStreamParseFieldProxy
  rw [if_neg (by simp only [TX_RLP_ENVELOPE]; omega),
      if_neg (by simp only [TX_RLP_TYPE]; omega),
      if_neg (by simp only [TX_RLP_NONCE]; omega),
      if_neg (by simp only [TX_RLP_GAS_PRICE]; omega),
      if_neg (by simp only [TX_RLP_START_GAS]; omega),
      if_neg (by simp only [TX_RLP_VALUE]; omega),
      if_neg (by simp only [TX_RLP_RECIPIENT]; omega),
      if_neg (by simp only [TX_RLP_DATA, TX_RLP_R, TX_RLP_S]; omega),
      if_neg (by simp only [TX_RLP_V]; omega)]

/-- Outside field processing the detector consumes `k` bytes of the work
buffer and feeds exactly those bytes to the hash, in order, through the
byte-level read path; a decodable header means at least one byte was
consumed. -/
theorem txStreamDetectFieldGo_cursor (fuel : Nat) (ctx : tx_stream_context_t)
    (hpf : ctx.isProcessingField = false)
    (hwb : ctx.workPos + ctx.workBufferLength ≤ ctx.workBuffer.length) :
    ∀ st cd c', txStreamDetectFieldGo ctx fuel = .ok (st, cd, c') →
      ∃ k, k ≤ ctx.workBufferLength ∧ (cd = true → 1 ≤ k) ∧
        c'.workPos = ctx.workPos + k ∧
        c'.workBufferLength = ctx.workBufferLength - k ∧
        c'.hashData = ctx.hashData ++ (ctx.workBuffer.drop ctx.workPos).take k := by
  induction fuel generalizing ctx with
  | zero =>
    intro st cd c' h
    simp only [txStreamDetectFieldGo, Except.ok.injEq, Prod.mk.injEq] at h
    obtain ⟨-, hcd, hc⟩ := h
    subst hc
    exact ⟨0, Nat.zero_le _, fun hx => by rw [hx] at hcd; simp at hcd,
      by omega, by omega, by simp⟩
  | succ n ih =>
    intro st cd c' h
    rw [txStreamDetectFieldGo] at h
    by_cases h0 : ctx.workBufferLength = 0
    · rw [if_pos h0] at h
      simp only [Except.ok.injEq, Prod.mk.injEq] at h
      obtain ⟨-, hcd, hc⟩ := h
      subst hc
      exact ⟨0, Nat.zero_le _, fun hx => by rw [hx] at hcd; simp at hcd,
        by omega, by omega, by simp⟩
    · rw [if_neg h0] at h
      by_cases h1 : ctx.rlpBufferPos = RLP_LENGTH_BUFFER_SIZE
      · rw [if_pos h1] at h
        simp only [Except.ok.injEq, Prod.mk.injEq] at h
        obtain ⟨-, hcd, hc⟩ := h
        subst hc
        exact ⟨0, Nat.zero_le _, fun hx => by rw [hx] at hcd; simp at hcd,
          by omega, by omega, by simp⟩
      · rw [if_neg h1] at h
        simp only [txStreamReadByte_boundary ctx h0 hpf] at h
        have hp : ctx.workPos < ctx.workBuffer.length := by omega
        rcases hcd2 : rlpCanDecode ((ctx.rlpBuffer.set ctx.rlpBufferPos
            (ctx.workBuffer.getD ctx.workPos 0)).take (ctx.rlpBufferPos + 1)) with - | v
        · rw [hcd2] at h
          obtain ⟨k, hk1, hk2, hk3, hk4, hk5⟩ := ih
            { ctx with workPos := ctx.workPos + 1,
                       workBufferLength := ctx.workBufferLength - 1,
                       hashData := ctx.hashData ++ [ctx.workBuffer.getD ctx.workPos 0],
                       hashLog := ctx.hashLog ++ [HashEv.readB (ctx.workBuffer.getD ctx.workPos 0)],
                       rlpBuffer := ctx.rlpBuffer.set ctx.rlpBufferPos (ctx.workBuffer.getD ctx.workPos 0),
                       rlpBufferPos := ctx.rlpBufferPos + 1 }
            hpf (by omega : ctx.workPos + 1 + (ctx.workBufferLength - 1) ≤ ctx.workBuffer.length)
            st cd c' h
          have hk1' : k ≤ ctx.workBufferLength - 1 := hk1
          have hk3' : c'.workPos = ctx.workPos + 1 + k := hk3
          have hk4' : c'.workBufferLength = ctx.workBufferLength - 1 - k := hk4
          have hk5' : c'.hashData = (ctx.hashData ++ [ctx.workBuffer.getD ctx.workPos 0]) ++
              (ctx.workBuffer.drop (ctx.workPos + 1)).take k := hk5
          refine ⟨k + 1, by omega, fun _ => by omega, by omega, by omega, ?_⟩
          rw [hk5', take_succ_drop ctx.workBuffer ctx.workPos k hp]
          simp
        · rcases v with - | -
          · rw [hcd2] at h
            simp only [Except.ok.injEq, Prod.mk.injEq] at h
            obtain ⟨-, hcd, hc⟩ := h
            subst hc
            refine ⟨1, by omega, fun _ => le_refl 1, rfl, rfl, ?_⟩
            rw [take_one_drop ctx.workBuffer ctx.workPos hp]
          · rw [hcd2] at h
            simp only [Except.ok.injEq, Prod.mk.injEq] at h
            obtain ⟨-, hcd, hc⟩ := h
            subst hc
            refine ⟨1, by omega, fun _ => le_refl 1, rfl, rfl, ?_⟩
            rw [take_one_drop ctx.workBuffer ctx.workPos hp]

/-- Dispatching an ordinary (non single-byte) field in progress consumes
`t` bytes of the work buffer and feeds exactly those bytes to the hash, in
order; the single-byte classification stays cleared. -/
theorem txStreamParseFieldProxy_inv (c : tx_stream_context_t)
    (hpf : c.isProcessingField = true) (hsb : c.isFieldSingleByte = false) :
    ∀ st c', txStreamParseFieldProxy c = .ok (st, c') →
      ∃ t, t ≤ c.workBufferLength ∧ c'.workBuffer = c.workBuffer ∧
        c'.workPos = c.workPos + t ∧ c'.workBufferLength = c.workBufferLength - t ∧
        c'.hashData = c.hashData ++ ((c.workBuffer.drop c.workPos).take t) ∧
        c'.isFieldSingleByte = false := by
  intro st c' h
  unfold txStreamParseFieldProxy at h
  by_cases h1 : c.currentField = TX_RLP_ENVELOPE
  · rw [if_pos h1] at h
    unfold txStreamProcessContent at h
    by_cases hL : c.isCurrentFieldList
    · simp only [hL, Bool.not_true, Bool.false_eq_true, if_false] at h
      by_cases hfl : c.processingFlags &&& TX_FLAG_TYPE = 0
      · rw [if_pos hfl] at h
        simp only [Except.ok.injEq, Prod.mk.injEq] at h
        obtain ⟨-, hc'⟩ := h
        subst hc'
        exact ⟨0, Nat.zero_le _, rfl, rfl, rfl, by simp, hsb⟩
      · rw [if_neg hfl] at h
        simp only [Except.ok.injEq, Prod.mk.injEq] at h
        obtain ⟨-, hc'⟩ := h
        subst hc'
        exact ⟨0, Nat.zero_le _, rfl, rfl, rfl, by simp, hsb⟩
    · simp only [hL, Bool.not_false, if_true] at h
      exact Except.noConfusion h
  · rw [if_neg h1] at h
    by_cases h2 : c.currentField = TX_RLP_TYPE
    · rw [if_pos h2] at h
      rcases txStreamProcessInt256Field_inv c none TX_MAX_INT256_LENGTH hpf hsb with
        ⟨ce, he, -⟩ | ⟨o, c2, t, hok, ht, hwb, hwp, hwl, hhd, hsb2⟩
      · rw [he] at h
        exact Except.noConfusion h
      · rw [hok] at h
        simp only [Except.ok.injEq, Prod.mk.injEq] at h
        obtain ⟨-, hc'⟩ := h
        subst hc'
        exact ⟨t, ht, hwb, hwp, hwl, hhd, hsb2⟩
    · rw [if_neg h2] at h
      by_cases h3 : c.currentField = TX_RLP_NONCE
      · rw [if_pos h3] at h
        rcases txStreamProcessInt256Field_inv c none TX_MAX_INT256_LENGTH hpf hsb with
          ⟨ce, he, -⟩ | ⟨o, c2, t, hok, ht, hwb, hwp, hwl, hhd, hsb2⟩
        · rw [he] at h
          exact Except.noConfusion h
        · rw [hok] at h
          simp only [Except.ok.injEq, Prod.mk.injEq] at h
          obtain ⟨-, hc'⟩ := h
          subst hc'
          exact ⟨t, ht, hwb, hwp, hwl, hhd, hsb2⟩
      · rw [if_neg h3] at h
        by_cases h4 : c.currentField = TX_RLP_GAS_PRICE
        · rw [if_pos h4] at h
          rcases txStreamProcessInt256Field_inv c (some c.tx.gasPrice) TX_MAX_INT256_LENGTH hpf hsb with
            ⟨ce, he, -⟩ | ⟨o, c2, t, hok, ht, hwb, hwp, hwl, hhd, hsb2⟩
          · rw [he] at h
            exact Except.noConfusion h
          · rw [hok] at h
            simp only [Except.ok.injEq, Prod.mk.injEq] at h
            obtain ⟨-, hc'⟩ := h
            subst hc'
            exact ⟨t, ht, hwb, hwp, hwl, hhd, hsb2⟩
        · rw [if_neg h4] at h
          by_cases h5 : c.currentField = TX_RLP_START_GAS
          · rw [if_pos h5] at h
            rcases txStreamProcessInt256Field_inv c (some c.tx.startGas) TX_MAX_INT256_LENGTH hpf hsb with
              ⟨ce, he, -⟩ | ⟨o, c2, t, hok, ht, hwb, hwp, hwl, hhd, hsb2⟩
            · rw [he] at h
              exact Except.noConfusion h
            · rw [hok] at h
              simp only [Except.ok.injEq, Prod.mk.injEq] at h
              obtain ⟨-, hc'⟩ := h
              subst hc'
              exact ⟨t, ht, hwb, hwp, hwl, hhd, hsb2⟩
          · rw [if_neg h5] at h
            by_cases h6 : c.currentField = TX_RLP_VALUE
            · rw [if_pos h6] at h
              rcases txStreamProcessInt256Field_inv c (some c.tx.value) TX_MAX_INT256_LENGTH hpf hsb with
                ⟨ce, he, -⟩ | ⟨o, c2, t, hok, ht, hwb, hwp, hwl, hhd, hsb2⟩
              · rw [he] at h
                exact Except.noConfusion h
              · rw [hok] at h
                simp only [Except.ok.injEq, Prod.mk.injEq] at h
                obtain ⟨-, hc'⟩ := h
                subst hc'
                exact ⟨t, ht, hwb, hwp, hwl, hhd, hsb2⟩
            · rw [if_neg h6] at h
              by_cases h7 : c.currentField = TX_RLP_RECIPIENT
              · rw [if_pos h7, txStreamProcessAddressField_eq] at h
                rcases txStreamProcessInt256Field_inv c (some c.tx.recipient) TX_MAX_ADDRESS_LENGTH hpf hsb with
                  ⟨ce, he, -⟩ | ⟨o, c2, t, hok, ht, hwb, hwp, hwl, hhd, hsb2⟩
                · rw [he] at h
                  exact Except.noConfusion h
                · rw [hok] at h
                  simp only [Except.ok.injEq, Prod.mk.injEq] at h
                  obtain ⟨-, hc'⟩ := h
                  subst hc'
                  exact ⟨t, ht, hwb, hwp, hwl, hhd, hsb2⟩
              · rw [if_neg h7] at h
                by_cases h8 : c.currentField = TX_RLP_DATA ∨ c.currentField = TX_RLP_R ∨
                    c.currentField = TX_RLP_S
                · rw [if_pos h8] at h
                  rcases txStreamProcessInt256Field_inv c none MAX_BUFFER_SIZE hpf hsb with
                    ⟨ce, he, -⟩ | ⟨o, c2, t, hok, ht, hwb, hwp, hwl, hhd, hsb2⟩
                  · rw [he] at h
                    exact Except.noConfusion h
                  · rw [hok] at h
                    simp only [Except.ok.injEq, Prod.mk.injEq] at h
                    obtain ⟨-, hc'⟩ := h
                    subst hc'
                    exact ⟨t, ht, hwb, hwp, hwl, hhd, hsb2⟩
                · rw [if_neg h8] at h
                  by_cases h9 : c.currentField = TX_RLP_V
                  · rw [if_pos h9, txStreamProcessVField_eq] at h
                    rcases txStreamProcessInt256Field_inv c (some c.tx.v) TX_MAX_INT256_LENGTH hpf hsb with
                      ⟨ce, he, -⟩ | ⟨o, c2, t, hok, ht, hwb, hwp, hwl, hhd, hsb2⟩
                    · rw [he] at h
                      exact Except.noConfusion h
                    · rw [hok] at h
                      simp only [Except.ok.injEq, Prod.mk.injEq] at h
                      obtain ⟨-, hc'⟩ := h
                      subst hc'
                      exact ⟨t, ht, hwb, hwp, hwl, hhd, hsb2⟩
                  · rw [if_neg h9] at h
                    simp only [Except.ok.injEq, Prod.mk.injEq] at h
                    obtain ⟨-, hc'⟩ := h
                    subst hc'
                    exact ⟨0, Nat.zero_le _, rfl, rfl, rfl, by simp, hsb⟩

/-- One non-fault parse-loop iteration consumes `t` bytes of the work
buffer and feeds exactly those bytes to the hash, in order; at the next
iteration boundary a field in progress is never still classified as a
self-encoded single byte. -/
theorem txStreamParseStep_inv (c : tx_stream_context_t)
    (hwb : c.workPos + c.workBufferLength ≤ c.workBuffer.length)
    (hpf : c.isProcessingField = true → c.isFieldSingleByte = false) :
    ∀ o c', txStreamParseStep c = .ok (o, c') → o ≠ some .fault →
      ∃ t, t ≤ c.workBufferLength ∧ c'.workBuffer = c.workBuffer ∧
        c'.workPos = c.workPos + t ∧ c'.workBufferLength = c.workBufferLength - t ∧
        c'.hashData = c.hashData ++ ((c.workBuffer.drop c.workPos).take t) ∧
        (c'.isProcessingField = true → c'.isFieldSingleByte = false) := by
  intro o c' h ho
  unfold txStreamParseStep at h
  by_cases hd : c.currentField = TX_RLP_DONE
  · rw [if_pos hd] at h
    simp only [Except.ok.injEq, Prod.mk.injEq] at h
    obtain ⟨-, hc'⟩ := h
    subst hc'
    exact ⟨0, Nat.zero_le _, rfl, rfl, rfl, by simp, hpf⟩
  · rw [if_neg hd] at h
    by_cases hv : c.currentField = TX_RLP_V ∧ c.workBufferLength = 0
    · rw [if_pos hv] at h
      simp only [Except.ok.injEq, Prod.mk.injEq] at h
      obtain ⟨-, hc'⟩ := h
      subst hc'
      exact ⟨0, Nat.zero_le _, rfl, rfl, rfl, by simp, hpf⟩
    · rw [if_neg hv] at h
      by_cases h0 : c.workBufferLength = 0
      · rw [if_pos h0] at h
        simp only [Except.ok.injEq, Prod.mk.injEq] at h
        obtain ⟨-, hc'⟩ := h
        subst hc'
        exact ⟨0, Nat.zero_le _, rfl, rfl, rfl, by simp, hpf⟩
      · rw [if_neg h0] at h
        by_cases hip : c.isProcessingField
        · simp only [hip, Bool.not_true, Bool.false_eq_true, if_false] at h
          rcases hpx : txStreamParseFieldProxy c with c2 | ⟨st, c2⟩
          · rw [hpx] at h
            exact Except.noConfusion h
          · rw [hpx] at h
            dsimp only at h
            obtain ⟨t, ht, hwb2, hwp2, hwl2, hhd2, hsb2⟩ :=
              txStreamParseFieldProxy_inv c hip (hpf hip) st c2 hpx
            by_cases hst : st = .fault
            · rw [if_pos hst] at h
              simp only [Except.ok.injEq, Prod.mk.injEq] at h
              exact absurd h.1.symm ho
            · rw [if_neg hst] at h
              simp only [Except.ok.injEq, Prod.mk.injEq] at h
              obtain ⟨-, hc'⟩ := h
              subst hc'
              exact ⟨t, ht, hwb2, hwp2, hwl2, hhd2, fun _ => hsb2⟩
        · simp only [hip, Bool.not_false, if_true] at h
          have hpf0 : c.isProcessingField = false := by simpa using hip
          rcases hdet : txStreamDetectField c with c1 | ⟨st, cd, c1⟩
          · rw [hdet] at h
            exact Except.noConfusion h
          · rw [hdet] at h
            dsimp only at h
            obtain ⟨k, hk1, hk2, hk3, hk4, hk5⟩ :=
              txStreamDetectFieldGo_cursor c.workBufferLength c hpf0 hwb st cd c1 hdet
            have hper := txStreamDetectFieldGo_persist c.workBufferLength c
            rw [show txStreamDetectFieldGo c c.workBufferLength = txStreamDetectField c
              from rfl, hdet] at hper
            simp only [detCtx, detPersist, Prod.mk.injEq] at hper
            obtain ⟨e1, e2, e3, e4, e5, e6, e7, e8, e9⟩ := hper
            by_cases hst : st = .fault
            · rw [if_pos hst] at h
              simp only [Except.ok.injEq, Prod.mk.injEq] at h
              exact absurd h.1.symm ho
            · rw [if_neg hst] at h
              rcases cd with - | -
              · simp only [Bool.not_false, if_true, Except.ok.injEq, Prod.mk.injEq] at h
                obtain ⟨-, hc'⟩ := h
                subst hc'
                refine ⟨k, hk1, e8, hk3, hk4, hk5, ?_⟩
                intro hx
                rw [e7, hpf0] at hx
                exact Bool.noConfusion hx
              · simp only [Bool.not_true, Bool.false_eq_true, if_false] at h
                have hk2' : 1 ≤ k := hk2 rfl
                rcases hdec : rlpDecodeLength (c1.rlpBuffer.take c1.rlpBufferPos) with
                  - | ⟨n, off, L⟩
                · rw [hdec] at h
                  simp only [Except.ok.injEq, Prod.mk.injEq] at h
                  exact absurd h.1.symm ho
                · rw [hdec] at h
                  dsimp only at h
                  by_cases hoff : off = 0
                  · subst hoff
                    obtain ⟨hn, hL⟩ := rlpDecodeLength_offset0 _ _ _ hdec
                    subst hn
                    subst hL
                    rw [fieldStart_zero c1 1 false] at h
                    by_cases henv : c1.currentField = TX_RLP_ENVELOPE
                    · rw [txStreamParseFieldProxy_envelope_scalar
                        { c1 with currentFieldLength := 1, isCurrentFieldList := false, rlpBufferPos := 0, isFieldSingleByte := true, workPos := c1.workPos - 1, workBufferLength := c1.workBufferLength + 1, currentFieldPos := 0, isProcessingField := true }
                        rfl henv] at h
                      exact Except.noConfusion h
                    · by_cases hrange : TX_RLP_TYPE ≤ c1.currentField ∧
                          c1.currentField ≤ TX_RLP_S
                      · rw [txStreamParseFieldProxy_singleByte
                          { c1 with currentFieldLength := 1, isCurrentFieldList := false, rlpBufferPos := 0, isFieldSingleByte := true, workPos := c1.workPos - 1, workBufferLength := c1.workBufferLength + 1, currentFieldPos := 0, isProcessingField := true }
                          hrange rfl rfl rfl rfl rfl (Nat.succ_ne_zero _)] at h
                        dsimp only at h
                        rw [if_neg (by decide :
                          ¬ (tx_stream_status_e.processing = tx_stream_status_e.fault))] at h
                        simp only [Except.ok.injEq, Prod.mk.injEq] at h
                        obtain ⟨-, hc'⟩ := h
                        subst hc'
                        refine ⟨k, hk1, e8, ?_, ?_, hk5, by simp⟩
                        · show c1.workPos - 1 + 1 = c.workPos + k
                          omega
                        · show c1.workBufferLength + 1 - 1 = c.workBufferLength - k
                          omega
                      · rw [txStreamParseFieldProxy_unknown
                          { c1 with currentFieldLength := 1, isCurrentFieldList := false, rlpBufferPos := 0, isFieldSingleByte := true, workPos := c1.workPos - 1, workBufferLength := c1.workBufferLength + 1, currentFieldPos := 0, isProcessingField := true }
                          (by simp only [TX_RLP_ENVELOPE, TX_RLP_S]
                              simp only [TX_RLP_ENVELOPE] at henv
                              simp only [TX_RLP_TYPE, TX_RLP_S] at hrange
                              omega)] at h
                        dsimp only at h
                        rw [if_pos rfl] at h
                        simp only [Except.ok.injEq, Prod.mk.injEq] at h
                        exact absurd h.1.symm ho
                  · rw [fieldStart_pos c1 n off L hoff] at h
                    rcases hpx : txStreamParseFieldProxy
                        { c1 with currentFieldLength := n, isCurrentFieldList := L, rlpBufferPos := 0, isFieldSingleByte := false, currentFieldPos := 0, isProcessingField := true } with
                      c2 | ⟨st2, c2⟩
                    · rw [hpx] at h
                      exact Except.noConfusion h
                    · rw [hpx] at h
                      dsimp only at h
                      obtain ⟨t, ht, hwb2, hwp2, hwl2, hhd2, hsb2⟩ :=
                        txStreamParseFieldProxy_inv _ rfl rfl st2 c2 hpx
                      by_cases hst2 : st2 = .fault
                      · rw [if_pos hst2] at h
                        simp only [Except.ok.injEq, Prod.mk.injEq] at h
                        exact absurd h.1.symm ho
                      · rw [if_neg hst2] at h
                        simp only [Except.ok.injEq, Prod.mk.injEq] at h
                        obtain ⟨-, hc'⟩ := h
                        subst hc'
                        have ht' : t ≤ c1.workBufferLength := ht
                        have hwb2' : c2.workBuffer = c1.workBuffer := hwb2
                        have hwp2' : c2.workPos = c1.workPos + t := hwp2
                        have hwl2' : c2.workBufferLength = c1.workBufferLength - t := hwl2
                        have hhd2' : c2.hashData =
                            c1.hashData ++ ((c1.workBuffer.drop c1.workPos).take t) := hhd2
                        refine ⟨k + t, by omega, hwb2'.trans e8, by omega, by omega, ?_,
                          fun _ => hsb2⟩
                        rw [hhd2', hk5, e8, hk3, List.append_assoc, take_add_drop]

/-- A non-fault run of the parse loop consumes `t` bytes of the work buffer
and feeds exactly those bytes to the hash, in order. -/
theorem txStreamParseGo_inv (fuel : Nat) (c : tx_stream_context_t)
    (hwb : c.workPos + c.workBufferLength ≤ c.workBuffer.length)
    (hpf : c.isProcessingField = true → c.isFieldSingleByte = false) :
    ∀ s c', txStreamParseGo c fuel = .ok (s, c') → s ≠ .fault →
      ∃ t, t ≤ c.workBufferLength ∧ c'.workBuffer = c.workBuffer ∧
        c'.workPos = c.workPos + t ∧ c'.workBufferLength = c.workBufferLength - t ∧
        c'.hashData = c.hashData ++ ((c.workBuffer.drop c.workPos).take t) ∧
        (c'.isProcessingField = true → c'.isFieldSingleByte = false) := by
  induction fuel generalizing c with
  | zero =>
    intro s c' h hs
    simp only [txStreamParseGo, Except.ok.injEq, Prod.mk.injEq] at h
    obtain ⟨-, hc'⟩ := h
    subst hc'
    exact ⟨0, Nat.zero_le _, rfl, rfl, rfl, by simp, hpf⟩
  | succ n ih =>
    intro s c' h hs
    rw [txStreamParseGo] at h
    rcases hstep : txStreamParseStep c with c1 | ⟨o, c1⟩
    · rw [hstep] at h
      exact Except.noConfusion h
    · rw [hstep] at h
      rcases o with - | s0
      · dsimp only at h
        obtain ⟨t1, ht1, hwb1, hwp1, hwl1, hhd1, hpf1⟩ :=
          txStreamParseStep_inv c hwb hpf none c1 hstep (by simp)
        have hwb' : c1.workPos + c1.workBufferLength ≤ c1.workBuffer.length := by
          rw [hwb1, hwp1, hwl1]; omega
        obtain ⟨t2, ht2, hwb2, hwp2, hwl2, hhd2, hpf2⟩ := ih c1 hwb' hpf1 s c' h hs
        have ht2' : t2 ≤ c.workBufferLength - t1 := by rw [← hwl1]; exact ht2
        refine ⟨t1 + t2, by omega, hwb2.trans hwb1, by omega, by omega, ?_, hpf2⟩
        rw [hhd2, hhd1, hwb1, hwp1, List.append_assoc, take_add_drop]
      · dsimp only at h
        simp only [Except.ok.injEq, Prod.mk.injEq] at h
        obtain ⟨hss, hc'⟩ := h
        subst hc'
        subst hss
        exact txStreamParseStep_inv c hwb hpf (some s0) c1 hstep
          (fun hx => hs (Option.some.inj hx))

/-- Claim C3 (corrected): across every call and every field, each byte the
call consumes from its input buffer is fed to the hash accumulator exactly
once and in consumption order — for every non-fault call the hash stream
grows by exactly the consumed prefix of the call buffer.  The claim's
stated mechanism is inverted in the code, so the exception reads: the
single byte of a field classified as a self-encoded single-byte scalar is
hashed once through the generic byte-level read step at header detection,
and it is the field-accumulation copy path whose hash step is suppressed
for it (`txStreamReadByte` hashes it because `isProcessingField` is still
false when the byte is read; `txStreamCopyData` then skips hashing because
`isProcessingField && isFieldSingleByte` holds) — see the accompanying
counterexample to the stated direction. -/
theorem claim_C3 (ctx : tx_stream_context_t) (buffer : List Nat) (flags : Nat)
    (hpf : ctx.isProcessingField = true → ctx.isFieldSingleByte = false)
    (s : tx_stream_status_e) (c' : tx_stream_context_t)
    (hrun : txStreamProcess ctx buffer flags = (s, c'))
    (hs : s ≠ .fault) :
    c'.workBuffer = buffer ∧ c'.workPos ≤ buffer.length ∧
    c'.hashData = ctx.hashData ++ buffer.take c'.workPos := by
  by_cases hb : ¬ (buffer.length > 0)
  · rw [show txStreamProcess ctx buffer flags = (.fault, ctx) from by
      unfold txStreamProcess; rw [if_pos hb]] at hrun
    simp only [Prod.mk.injEq] at hrun
    exact absurd hrun.1.symm hs
  · by_cases hcf : ¬ (TX_RLP_NONE < ctx.currentField ∧ ctx.currentField < TX_RLP_DONE)
    · rw [show txStreamProcess ctx buffer flags = (.fault, ctx) from by
        unfold txStreamProcess; rw [if_neg hb, if_pos hcf]] at hrun
      simp only [Prod.mk.injEq] at hrun
      exact absurd hrun.1.symm hs
    · have hred : txStreamProcess ctx buffer flags =
          (match txStreamParse { ctx with workBuffer := buffer, workBufferLength := buffer.length, workPos := 0, processingFlags := flags } with
            | .ok r => r
            | .error c => (.fault, c)) := by
        unfold txStreamProcess
        rw [if_neg hb, if_neg hcf]
      rw [hred] at hrun
      rcases hg : txStreamParse { ctx with workBuffer := buffer, workBufferLength := buffer.length, workPos := 0, processingFlags := flags } with c1 | ⟨s1, c1⟩
      · rw [hg] at hrun
        simp only [Prod.mk.injEq] at hrun
        exact absurd hrun.1.symm hs
      · rw [hg] at hrun
        dsimp only at hrun
        simp only [Prod.mk.injEq] at hrun
        obtain ⟨hss, hcc⟩ := hrun
        subst hcc
        subst hss
        obtain ⟨t, ht, hwb', hwp, hwl, hhd, -⟩ :=
          txStreamParseGo_inv (buffer.length + 2)
            { ctx with workBuffer := buffer, workBufferLength := buffer.length, workPos := 0, processingFlags := flags }
            (by show 0 + buffer.length ≤ buffer.length; omega) hpf s1 c1 hg hs
        have ht' : t ≤ buffer.length := ht
        have hwp' : c1.workPos = 0 + t := hwp
        have hhd' : c1.hashData = ctx.hashData ++ ((buffer.drop 0).take t) := hhd
        refine ⟨hwb', by omega, ?_⟩
        rw [hhd', List.drop_zero, hwp', Nat.zero_add]

/-- Witness for claim C3 at a concrete input: the stream `c3 05` (envelope
list of declared length 3, then the self-encoded nonce byte `0x05`) is
consumed whole and the hash stream grows by exactly those two bytes. -/
theorem claim_C3_witness :
    (txStreamProcess (txStreamInit txZero) [0xc3, 5] 0).2.workBuffer = [0xc3, 5] ∧
    (txStreamProcess (txStreamInit txZero) [0xc3, 5] 0).2.workPos ≤ 2 ∧
    (txStreamProcess (txStreamInit txZero) [0xc3, 5] 0).2.hashData =
      (txStreamInit txZero).hashData ++
        [0xc3, 5].take (txStreamProcess (txStreamInit txZero) [0xc3, 5] 0).2.workPos :=
  claim_C3 (txStreamInit txZero) [0xc3, 5] 0 (by decide)
    (txStreamProcess (txStreamInit txZero) [0xc3, 5] 0).1
    (txStreamProcess (txStreamInit txZero) [0xc3, 5] 0).2
    rfl (by decide)

/-- Counterexample to the suppression direction stated by claim C3: on the
stream `c3 05` the self-encoded single byte `0x05` is fed to the hash by
the generic byte-level read step (`readB 5` — not suppressed there), and
no hash feed at all happens through the field-accumulation copy path (no
`copyB` event), contradicting the claim that the byte-level step is
suppressed and the byte is hashed via the copy path. -/
theorem claim_C3_counterexample :
    (txStreamProcess (txStreamInit txZero) [0xc3, 5] 0).2.hashLog =
      [HashEv.readB 0xc3, HashEv.readB 5] ∧
    ∀ bs, HashEv.copyB bs ∉ (txStreamProcess (txStreamInit txZero) [0xc3, 5] 0).2.hashLog := by
  constructor
  · decide
  · intro bs hmem
    rw [show (txStreamProcess (txStreamInit txZero) [0xc3, 5] 0).2.hashLog =
      [HashEv.readB 0xc3, HashEv.readB 5] from by decide] at hmem
    simp at hmem

/-- The unconsumed slice of the call buffer: the bytes the parser may still
read in this call. -/
def restF (c : tx_stream_context_t) : List Nat :=
  (c.workBuffer.drop c.workPos).take c.workBufferLength

/-- The boundary invariant of the parse loop: while a field is being
processed, the self-encoded-single-byte classification is cleared (the
single byte is fully handled inside the iteration that reads it) and the
in-field position is strictly below the declared length (reaching the
length completes the field in the same iteration). -/
def BInv2 (c : tx_stream_context_t) : Prop :=
  c.isProcessingField = true →
    c.isFieldSingleByte = false ∧ c.currentFieldPos < c.currentFieldLength

/-- Installing a fresh call buffer on a preserved context, exactly as
`txStreamProcess` does before parsing (the flags word is installed
separately). -/
def installB (c : tx_stream_context_t) (B : List Nat) : tx_stream_context_t :=
  { c with workBuffer := B, workPos := 0, workBufferLength := B.length }

/-- Overwrite the recorded length of the V destination slot (the one field
the legacy exit of the parse loop writes). -/
def setVlen (c : tx_stream_context_t) (m : Nat) : tx_stream_context_t :=
  { c with tx.v.length := m }

/-- The destination-record-free part of the fragmentation-invariance
simulation relation.  `GT Y cL cR` says the parser state `cR` (a
fragment-side state) agrees with `cL` (the corresponding whole-stream-side
state) on every persistent non-destination field, except that `cL` still
has the surplus bytes `Y` (the not-yet-delivered fragments) after `cR`'s
unconsumed slice; the call-site hash log is unconstrained (a payload span
split across fragments is fed to the hash in several spans with the same
concatenation `hashData`). -/
structure GT (Y : List Nat) (cL cR : tx_stream_context_t) : Prop where
  cf : cL.currentField = cR.currentField
  flg : cL.processingFlags = cR.processingFlags
  dl : cL.dataLength = cR.dataLength
  cfl : cL.currentFieldLength = cR.currentFieldLength
  cfp : cL.currentFieldPos = cR.currentFieldPos
  lst : cL.isCurrentFieldList = cR.isCurrentFieldList
  sb : cL.isFieldSingleByte = cR.isFieldSingleByte
  pf : cL.isProcessingField = cR.isProcessingField
  rlp : cL.rlpBuffer = cR.rlpBuffer
  rlpP : cL.rlpBufferPos = cR.rlpBufferPos
  wbl : cL.workBufferLength = cR.workBufferLength + Y.length
  rst : restF cL = restF cR ++ Y
  hd : cL.hashData = cR.hashData
  ebL : cL.workPos + cL.workBufferLength ≤ cL.workBuffer.length
  ebR : cR.workPos + cR.workBufferLength ≤ cR.workBuffer.length

/-- The full fragmentation-invariance simulation relation: `GT` plus
agreement of the caller's destination record, where the recorded V length
may diverge while the stream sits at the V position (the legacy exit
writes it on the fragment side only; the write is dead there, as it is
overwritten when the V field completes). -/
structure GS (Y : List Nat) (cL cR : tx_stream_context_t) extends GT Y cL cR : Prop where
  gp : cL.tx.gasPrice = cR.tx.gasPrice
  sg : cL.tx.startGas = cR.tx.startGas
  vlu : cL.tx.value = cR.tx.value
  rcp : cL.tx.recipient = cR.tx.recipient
  vv : cL.tx.v.value = cR.tx.v.value
  vlen : cL.tx.v.length = cR.tx.v.length ∨ cL.currentField = TX_RLP_V

/-- The shape relation of the destination-slot arguments fed to the scalar
accumulator: same NULL-ness and same byte array; the recorded length is
unconstrained (it may diverge transiently for the V slot). -/
def slotRel (fL fR : Option tx_int256_t) : Prop :=
  match fL, fR with
  | none, none => True
  | some a, some b => a.value = b.value
  | _, _ => False

/-- Element lookup below the cut commutes with `take`. -/
theorem getD_take (l : List Nat) (n i d : Nat) (h : i < n) :
    (l.take n).getD i d = l.getD i d := by
  simp [List.getD_eq_getElem?_getD, List.getElem?_take, h]

/-- Element lookup commutes with `drop`. -/
theorem getD_drop (l : List Nat) (n i d : Nat) :
    (l.drop n).getD i d = l.getD (n + i) d := by
  simp [List.getD_eq_getElem?_getD, List.getElem?_drop]

/-- Element lookup below the left length commutes with append. -/
theorem getD_append_left (l l' : List Nat) (n d : Nat) (h : n < l.length) :
    (l ++ l').getD n d = l.getD n d := by
  simp [List.getD_eq_getElem?_getD, List.getElem?_append, h]

/-- The unconsumed slice has exactly `workBufferLength` bytes on an
in-bounds cursor. -/
theorem restF_length (c : tx_stream_context_t)
    (h : c.workPos + c.workBufferLength ≤ c.workBuffer.length) :
    (restF c).length = c.workBufferLength := by
  rw [restF, List.length_take_of_le]
  rw [List.length_drop]
  omega

/-- The byte under the cursor heads the unconsumed slice. -/
theorem restF_head (c : tx_stream_context_t) (h : 1 ≤ c.workBufferLength) :
    (restF c).getD 0 0 = c.workBuffer.getD c.workPos 0 := by
  rw [restF, getD_take _ _ _ _ h, getD_drop, Nat.add_zero]

/-- A chunk within the available bytes is a prefix of the unconsumed
slice. -/
theorem restF_chunk (c : tx_stream_context_t) (L : Nat)
    (h : L ≤ c.workBufferLength) :
    (c.workBuffer.drop c.workPos).take L = (restF c).take L := by
  rw [restF, List.take_take, Nat.min_eq_left h]

/-- Advancing the cursor by `t` drops `t` bytes of the unconsumed slice. -/
theorem take_drop_adv (wb : List Nat) (p wbl t : Nat) :
    (wb.drop (p + t)).take (wbl - t) = ((wb.drop p).take wbl).drop t := by
  rw [List.drop_take, List.drop_drop, Nat.add_comm]

/-- Writing a concatenation is writing the parts in sequence. -/
theorem listWriteAt_append (v : List Nat) (p : Nat) (X Y2 : List Nat) :
    listWriteAt v p (X ++ Y2) = listWriteAt (listWriteAt v p X) (p + X.length) Y2 := by
  induction X generalizing v p with
  | nil => simp [listWriteAt]
  | cons b bs ih =>
    simp only [List.cons_append, listWriteAt, List.append_eq]
    rw [ih]
    have hlen : p + 1 + bs.length = p + (b :: bs).length := by
      simp only [List.length_cons]
      omega
    rw [hlen]

/-- `GT` ignores the hash log entirely. -/
theorem GT_log {Y : List Nat} {cL cR : tx_stream_context_t} (h : GT Y cL cR)
    (A B : List HashEv) :
    GT Y { cL with hashLog := A } { cR with hashLog := B } :=
  ⟨h.cf, h.flg, h.dl, h.cfl, h.cfp, h.lst, h.sb, h.pf, h.rlp, h.rlpP, h.wbl, h.rst,
   h.hd, h.ebL, h.ebR⟩

/-- `GT` is preserved by writing the same scratch buffer on both sides. -/
theorem GT_scratch {Y : List Nat} {cL cR : tx_stream_context_t} (h : GT Y cL cR)
    (r : List Nat) (q : Nat) :
    GT Y { cL with rlpBuffer := r, rlpBufferPos := q }
         { cR with rlpBuffer := r, rlpBufferPos := q } :=
  ⟨h.cf, h.flg, h.dl, h.cfl, h.cfp, h.lst, h.sb, h.pf, rfl, rfl, h.wbl, h.rst,
   h.hd, h.ebL, h.ebR⟩

/-- `GT` is preserved by writing the same in-field position on both sides. -/
theorem GT_cfp {Y : List Nat} {cL cR : tx_stream_context_t} (h : GT Y cL cR) (q : Nat) :
    GT Y { cL with currentFieldPos := q } { cR with currentFieldPos := q } :=
  ⟨h.cf, h.flg, h.dl, h.cfl, rfl, h.lst, h.sb, h.pf, h.rlp, h.rlpP, h.wbl, h.rst,
   h.hd, h.ebL, h.ebR⟩

/-- `GT` is preserved by feeding the same bytes to the hash on both sides. -/
theorem GT_hashApp {Y : List Nat} {cL cR : tx_stream_context_t} (h : GT Y cL cR)
    (X : List Nat) :
    GT Y { cL with hashData := cL.hashData ++ X } { cR with hashData := cR.hashData ++ X } :=
  ⟨h.cf, h.flg, h.dl, h.cfl, h.cfp, h.lst, h.sb, h.pf, h.rlp, h.rlpP, h.wbl, h.rst,
   show cL.hashData ++ X = cR.hashData ++ X from by rw [h.hd], h.ebL, h.ebR⟩

/-- `GT` is preserved by consuming `t` available bytes on both sides. -/
theorem GT_adv {Y : List Nat} {cL cR : tx_stream_context_t} (h : GT Y cL cR)
    (t : Nat) (ht : t ≤ cR.workBufferLength) :
    GT Y { cL with workPos := cL.workPos + t, workBufferLength := cL.workBufferLength - t }
         { cR with workPos := cR.workPos + t, workBufferLength := cR.workBufferLength - t } := by
  have hw := h.wbl
  have heL := h.ebL
  have heR := h.ebR
  refine ⟨h.cf, h.flg, h.dl, h.cfl, h.cfp, h.lst, h.sb, h.pf, h.rlp, h.rlpP, ?_, ?_,
    h.hd, ?_, ?_⟩
  · show cL.workBufferLength - t = cR.workBufferLength - t + Y.length
    omega
  · show (cL.workBuffer.drop (cL.workPos + t)).take (cL.workBufferLength - t) =
      (cR.workBuffer.drop (cR.workPos + t)).take (cR.workBufferLength - t) ++ Y
    rw [take_drop_adv, take_drop_adv]
    show (restF cL).drop t = (restF cR).drop t ++ Y
    rw [h.rst, List.drop_append_of_le_length (by rw [restF_length cR heR]; omega)]
  · show cL.workPos + t + (cL.workBufferLength - t) ≤ cL.workBuffer.length
    omega
  · show cR.workPos + t + (cR.workBufferLength - t) ≤ cR.workBuffer.length
    omega

/-- Rebuild `GS` from a transformed `GT` pair whose destination records and
schema positions are carried over unchanged from a `GS` pair. -/
theorem GS_lift {Y : List Nat} {cL cR cL2 cR2 : tx_stream_context_t} (h : GS Y cL cR)
    (hgt : GT Y cL2 cR2) (htxL : cL2.tx = cL.tx) (htxR : cR2.tx = cR.tx)
    (hcf : cL2.currentField = cL.currentField) :
    GS Y cL2 cR2 :=
  ⟨hgt, by rw [htxL, htxR]; exact h.gp, by rw [htxL, htxR]; exact h.sg,
   by rw [htxL, htxR]; exact h.vlu, by rw [htxL, htxR]; exact h.rcp,
   by rw [htxL, htxR]; exact h.vv, by rw [htxL, htxR, hcf]; exact h.vlen⟩

/-- Related states read the same byte. -/
theorem GT_byte {Y : List Nat} {cL cR : tx_stream_context_t} (h : GT Y cL cR)
    (hw : 1 ≤ cR.workBufferLength) :
    cL.workBuffer.getD cL.workPos 0 = cR.workBuffer.getD cR.workPos 0 := by
  rw [← restF_head cL (by have := h.wbl; omega), ← restF_head cR hw, h.rst,
    getD_append_left _ _ _ _ (by rw [restF_length cR h.ebR]; omega)]

/-- Related states copy the same chunk, for any length within the
fragment side's available bytes. -/
theorem GT_chunk {Y : List Nat} {cL cR : tx_stream_context_t} (h : GT Y cL cR)
    (L : Nat) (hL : L ≤ cR.workBufferLength) :
    (cL.workBuffer.drop cL.workPos).take L = (cR.workBuffer.drop cR.workPos).take L := by
  rw [restF_chunk cL L (by have := h.wbl; omega), restF_chunk cR L hL, h.rst,
    List.take_append_eq_append_take, restF_length cR h.ebR,
    show L - cR.workBufferLength = 0 from by omega]
  simp

/-- Unified closed form of `txStreamReadByte` on a non-empty buffer. -/
theorem txStreamReadByte_shape (c : tx_stream_context_t) (h : 1 ≤ c.workBufferLength) :
    txStreamReadByte c = .ok (c.workBuffer.getD c.workPos 0,
      { c with workPos := c.workPos + 1,
               workBufferLength := c.workBufferLength - 1,
               currentFieldPos := if c.isProcessingField then c.currentFieldPos + 1 else c.currentFieldPos,
               hashData := if c.isProcessingField && c.isFieldSingleByte then c.hashData else c.hashData ++ [c.workBuffer.getD c.workPos 0],
               hashLog := if c.isProcessingField && c.isFieldSingleByte then c.hashLog else c.hashLog ++ [HashEv.readB (c.workBuffer.getD c.workPos 0)] }) := by
  unfold txStreamReadByte
  rw [if_neg (by omega)]
  by_cases hp : c.isProcessingField <;> by_cases hs : c.isFieldSingleByte <;>
    simp [hp, hs]

/-- Unified closed form of `txStreamCopyData` within the available bytes. -/
theorem txStreamCopyData_shape (c : tx_stream_context_t) (out : Option (List Nat × Nat))
    (L : Nat) (h : L ≤ c.workBufferLength) :
    txStreamCopyData c out L = .ok
      (out.map (fun p => listWriteAt p.1 p.2 ((c.workBuffer.drop c.workPos).take L)),
       { c with workPos := c.workPos + L,
                workBufferLength := c.workBufferLength - L,
                currentFieldPos := if c.isProcessingField then c.currentFieldPos + L else c.currentFieldPos,
                hashData := if c.isProcessingField && c.isFieldSingleByte then c.hashData else c.hashData ++ (c.workBuffer.drop c.workPos).take L,
                hashLog := if c.isProcessingField && c.isFieldSingleByte then c.hashLog else c.hashLog ++ [HashEv.copyB ((c.workBuffer.drop c.workPos).take L)] }) := by
  unfold txStreamCopyData
  rw [if_neg (by omega)]
  by_cases hp : c.isProcessingField <;> by_cases hs : c.isFieldSingleByte <;>
    simp [hp, hs]

/-- Related states step through `txStreamReadByte` in lockstep: same byte,
related results. -/
theorem txStreamReadByte_GS (Y : List Nat) (cL cR : tx_stream_context_t)
    (h : GS Y cL cR) (hw : 1 ≤ cR.workBufferLength) :
    ∀ b c2R, txStreamReadByte cR = .ok (b, c2R) →
      ∃ c2L, txStreamReadByte cL = .ok (b, c2L) ∧ GS Y c2L c2R := by
  intro b c2R hR
  rw [txStreamReadByte_shape cR hw] at hR
  simp only [Except.ok.injEq, Prod.mk.injEq] at hR
  obtain ⟨hb2, hc2⟩ := hR
  subst hb2
  subst hc2
  have hwL : 1 ≤ cL.workBufferLength := by have := h.toGT.wbl; omega
  have hb : cL.workBuffer.getD cL.workPos 0 = cR.workBuffer.getD cR.workPos 0 :=
    GT_byte h.toGT hw
  refine ⟨_, (txStreamReadByte_shape cL hwL).trans (by rw [hb]), ?_⟩
  refine GS_lift h ?_ rfl rfl rfl
  have hgt := GT_log (GT_hashApp (GT_cfp (GT_adv h.toGT 1 hw)
      (if cR.isProcessingField then cR.currentFieldPos + 1 else cR.currentFieldPos))
      (if cR.isProcessingField && cR.isFieldSingleByte then []
        else [cR.workBuffer.getD cR.workPos 0]))
    (if cR.isProcessingField && cR.isFieldSingleByte then cL.hashLog
      else cL.hashLog ++ [HashEv.readB (cR.workBuffer.getD cR.workPos 0)])
    (if cR.isProcessingField && cR.isFieldSingleByte then cR.hashLog
      else cR.hashLog ++ [HashEv.readB (cR.workBuffer.getD cR.workPos 0)])
  refine ⟨hgt.cf, hgt.flg, hgt.dl, hgt.cfl, ?_, hgt.lst, hgt.sb, hgt.pf, hgt.rlp,
    hgt.rlpP, hgt.wbl, hgt.rst, ?_, hgt.ebL, hgt.ebR⟩
  · show (if cL.isProcessingField then cL.currentFieldPos + 1 else cL.currentFieldPos) =
      (if cR.isProcessingField then cR.currentFieldPos + 1 else cR.currentFieldPos)
    rw [h.toGT.pf, h.toGT.cfp]
  · show (if cL.isProcessingField && cL.isFieldSingleByte then cL.hashData
        else cL.hashData ++ [cR.workBuffer.getD cR.workPos 0]) =
      (if cR.isProcessingField && cR.isFieldSingleByte then cR.hashData
        else cR.hashData ++ [cR.workBuffer.getD cR.workPos 0])
    rw [h.toGT.pf, h.toGT.sb, h.toGT.hd]

/-- Related states step through `txStreamCopyData` in lockstep: same
destination update, related results. -/
theorem txStreamCopyData_GS (Y : List Nat) (cL cR : tx_stream_context_t)
    (h : GS Y cL cR) (out : Option (List Nat × Nat)) (L : Nat)
    (hL : L ≤ cR.workBufferLength) :
    ∀ o c2R, txStreamCopyData cR out L = .ok (o, c2R) →
      ∃ c2L, txStreamCopyData cL out L = .ok (o, c2L) ∧ GS Y c2L c2R := by
  intro o c2R hR
  rw [txStreamCopyData_shape cR out L hL] at hR
  simp only [Except.ok.injEq, Prod.mk.injEq] at hR
  obtain ⟨ho, hc2⟩ := hR
  subst ho
  subst hc2
  have hLL : L ≤ cL.workBufferLength := by have := h.toGT.wbl; omega
  have hch : (cL.workBuffer.drop cL.workPos).take L =
      (cR.workBuffer.drop cR.workPos).take L := GT_chunk h.toGT L hL
  refine ⟨_, (txStreamCopyData_shape cL out L hLL).trans (by rw [hch]), ?_⟩
  refine GS_lift h ?_ rfl rfl rfl
  have hgt := GT_log (GT_hashApp (GT_cfp (GT_adv h.toGT L hL)
      (if cR.isProcessingField then cR.currentFieldPos + L else cR.currentFieldPos))
      (if cR.isProcessingField && cR.isFieldSingleByte then []
        else (cR.workBuffer.drop cR.workPos).take L))
    (if cR.isProcessingField && cR.isFieldSingleByte then cL.hashLog
      else cL.hashLog ++ [HashEv.copyB ((cR.workBuffer.drop cR.workPos).take L)])
    (if cR.isProcessingField && cR.isFieldSingleByte then cR.hashLog
      else cR.hashLog ++ [HashEv.copyB ((cR.workBuffer.drop cR.workPos).take L)])
  refine ⟨hgt.cf, hgt.flg, hgt.dl, hgt.cfl, ?_, hgt.lst, hgt.sb, hgt.pf, hgt.rlp,
    hgt.rlpP, hgt.wbl, hgt.rst, ?_, hgt.ebL, hgt.ebR⟩
  · show (if cL.isProcessingField then cL.currentFieldPos + L else cL.currentFieldPos) =
      (if cR.isProcessingField then cR.currentFieldPos + L else cR.currentFieldPos)
    rw [h.toGT.pf, h.toGT.cfp]
  · show (if cL.isProcessingField && cL.isFieldSingleByte then cL.hashData
        else cL.hashData ++ (cR.workBuffer.drop cR.workPos).take L) =
      (if cR.isProcessingField && cR.isFieldSingleByte then cR.hashData
        else cR.hashData ++ (cR.workBuffer.drop cR.workPos).take L)
    rw [h.toGT.pf, h.toGT.sb, h.toGT.hd]

/-- Related states step through the envelope handler in lockstep. -/
theorem txStreamProcessContent_GS (Y : List Nat) (cL cR : tx_stream_context_t)
    (h : GS Y cL cR) (hvq : cL.tx.v.length = cR.tx.v.length) :
    (∀ cR2, txStreamProcessContent cR = .error cR2 →
      txStreamProcessContent cL = .error cL ∧ cR2 = cR) ∧
    (∀ cR2, txStreamProcessContent cR = .ok cR2 →
      ∃ cL2, txStreamProcessContent cL = .ok cL2 ∧ GS Y cL2 cR2 ∧
        cL2.currentField = cL.currentField + 1 ∧
        cL2.tx.v.length = cR2.tx.v.length) := by
  unfold txStreamProcessContent
  constructor
  · intro cR2 hR
    by_cases hl : cR.isCurrentFieldList
    · rw [if_neg (by rw [hl]; simp)] at hR
      exact Except.noConfusion hR
    · have hl' : cR.isCurrentFieldList = false := by simpa using hl
      rw [if_pos (by rw [hl']; simp)] at hR
      refine ⟨by rw [if_pos (by rw [h.toGT.lst, hl']; simp)], ?_⟩
      injection hR with hR
      exact hR.symm
  · intro cR2 hR
    by_cases hl : cR.isCurrentFieldList
    · rw [if_neg (by rw [hl]; simp)] at hR
      injection hR with hR
      subst hR
      have hok : txStreamProcessContent cL =
          .ok { cL with dataLength := cL.currentFieldLength, currentField := cL.currentField + 1, isProcessingField := false } := by
        unfold txStreamProcessContent
        rw [if_neg (by rw [h.toGT.lst, hl]; simp)]
      refine ⟨_, hok, ?_, rfl, hvq⟩
      refine ⟨⟨?_, h.toGT.flg, ?_, h.toGT.cfl, h.toGT.cfp, h.toGT.lst, h.toGT.sb, rfl,
        h.toGT.rlp, h.toGT.rlpP, h.toGT.wbl, h.toGT.rst, h.toGT.hd, h.toGT.ebL,
        h.toGT.ebR⟩, h.gp, h.sg, h.vlu, h.rcp, h.vv, Or.inl hvq⟩
      · show cL.currentField + 1 = cR.currentField + 1
        rw [h.toGT.cf]
      · show cL.currentFieldLength = cR.currentFieldLength
        exact h.toGT.cfl
    · have hl' : cR.isCurrentFieldList = false := by simpa using hl
      rw [if_pos (by rw [hl']; simp)] at hR
      exact Except.noConfusion hR

/-- Related states enter a decoded field in lockstep; for a self-encoded
single byte both sides rewind onto the byte each just consumed. -/
theorem fieldStart_GS (Y : List Nat) (cL cR : tx_stream_context_t) (h : GS Y cL cR)
    (n off : Nat) (Lf : Bool)
    (hrw : off = 0 → 1 ≤ cL.workPos ∧ 1 ≤ cR.workPos ∧
      cL.workBuffer.getD (cL.workPos - 1) 0 = cR.workBuffer.getD (cR.workPos - 1) 0) :
    GS Y (fieldStart cL n off Lf) (fieldStart cR n off Lf) := by
  by_cases hoff : off = 0
  · subst hoff
    obtain ⟨hpL, hpR, hb⟩ := hrw rfl
    rw [fieldStart_zero, fieldStart_zero]
    have heL := h.toGT.ebL
    have heR := h.toGT.ebR
    have hw := h.toGT.wbl
    refine GS_lift h ⟨h.toGT.cf, h.toGT.flg, h.toGT.dl, rfl, rfl, rfl, rfl, rfl,
      h.toGT.rlp, rfl, ?_, ?_, h.toGT.hd, ?_, ?_⟩ rfl rfl rfl
    · show cL.workBufferLength + 1 = cR.workBufferLength + 1 + Y.length
      omega
    · show (cL.workBuffer.drop (cL.workPos - 1)).take (cL.workBufferLength + 1) =
        (cR.workBuffer.drop (cR.workPos - 1)).take (cR.workBufferLength + 1) ++ Y
      rw [take_succ_drop cL.workBuffer (cL.workPos - 1) cL.workBufferLength (by omega),
        take_succ_drop cR.workBuffer (cR.workPos - 1) cR.workBufferLength (by omega),
        show cL.workPos - 1 + 1 = cL.workPos from by omega,
        show cR.workPos - 1 + 1 = cR.workPos from by omega, hb]
      show cR.workBuffer.getD (cR.workPos - 1) 0 :: restF cL =
        (cR.workBuffer.getD (cR.workPos - 1) 0 :: restF cR) ++ Y
      rw [List.cons_append, h.toGT.rst]
    · show cL.workPos - 1 + (cL.workBufferLength + 1) ≤ cL.workBuffer.length
      omega
    · show cR.workPos - 1 + (cR.workBufferLength + 1) ≤ cR.workBuffer.length
      omega
  · rw [fieldStart_pos cL n off Lf hoff, fieldStart_pos cR n off Lf hoff]
    exact GS_lift h ⟨h.toGT.cf, h.toGT.flg, h.toGT.dl, rfl, rfl, rfl, rfl, rfl,
      h.toGT.rlp, rfl, h.toGT.wbl, h.toGT.rst, h.toGT.hd, h.toGT.ebL, h.toGT.ebR⟩
      rfl rfl rfl

/-- The detector loop never throws: it reads only when bytes remain. -/
theorem txStreamDetectFieldGo_noerror (f : Nat) :
    ∀ c e, txStreamDetectFieldGo c f ≠ .error e := by
  induction f with
  | zero =>
    intro c e h
    simp [txStreamDetectFieldGo] at h
  | succ n ih =>
    intro c e h
    rw [txStreamDetectFieldGo] at h
    by_cases h0 : c.workBufferLength = 0
    · rw [if_pos h0] at h
      exact Except.noConfusion h
    · rw [if_neg h0] at h
      by_cases h1 : c.rlpBufferPos = RLP_LENGTH_BUFFER_SIZE
      · rw [if_pos h1] at h
        exact Except.noConfusion h
      · rw [if_neg h1] at h
        rcases hr : txStreamReadByte c with eb | ⟨b, c0⟩
        · rw [txStreamReadByte_shape c (by omega)] at hr
          exact Except.noConfusion hr
        · rw [hr] at h
          dsimp only at h
          rcases hcd : rlpCanDecode ((c0.rlpBuffer.set c0.rlpBufferPos b).take
              (c0.rlpBufferPos + 1)) with - | v
          · rw [hcd] at h
            exact ih _ e h
          · rcases v with - | - <;>
              · rw [hcd] at h
                exact Except.noConfusion h

/-- Related states with the same available bytes run the detector loop in
lockstep: same status, same decodability, related results. -/
theorem txStreamDetectFieldGo_GS (f : Nat) :
    ∀ cL cR, GS [] cL cR →
      ∀ st cd c2R, txStreamDetectFieldGo cR f = .ok (st, cd, c2R) →
        ∃ c2L, txStreamDetectFieldGo cL f = .ok (st, cd, c2L) ∧ GS [] c2L c2R := by
  induction f with
  | zero =>
    intro cL cR h st cd c2R hR
    simp only [txStreamDetectFieldGo, Except.ok.injEq, Prod.mk.injEq] at hR
    obtain ⟨h1, h2, h3⟩ := hR
    subst h1
    subst h2
    subst h3
    exact ⟨cL, by simp [txStreamDetectFieldGo], h⟩
  | succ n ih =>
    intro cL cR h st cd c2R hR
    have hwbl : cL.workBufferLength = cR.workBufferLength := by
      have := h.toGT.wbl
      simpa using this
    rw [txStreamDetectFieldGo] at hR
    by_cases h0 : cR.workBufferLength = 0
    · rw [if_pos h0] at hR
      simp only [Except.ok.injEq, Prod.mk.injEq] at hR
      obtain ⟨h1, h2, h3⟩ := hR
      subst h1
      subst h2
      subst h3
      exact ⟨cL, by rw [txStreamDetectFieldGo, if_pos (by omega)], h⟩
    · rw [if_neg h0] at hR
      by_cases h1 : cR.rlpBufferPos = RLP_LENGTH_BUFFER_SIZE
      · rw [if_pos h1] at hR
        simp only [Except.ok.injEq, Prod.mk.injEq] at hR
        obtain ⟨e1, e2, e3⟩ := hR
        subst e1
        subst e2
        subst e3
        refine ⟨cL, ?_, h⟩
        rw [txStreamDetectFieldGo, if_neg (by omega),
          if_pos (by rw [h.toGT.rlpP]; exact h1)]
      · rw [if_neg h1] at hR
        rcases hrR : txStreamReadByte cR with e | ⟨b, cR0⟩
        · rw [txStreamReadByte_shape cR (by omega)] at hrR
          exact Except.noConfusion hrR
        · obtain ⟨cL0, hrL, h2'⟩ := txStreamReadByte_GS [] cL cR h (by omega) b cR0 hrR
          rw [hrR] at hR
          dsimp only at hR
          have heq1 : cL0.rlpBuffer.set cL0.rlpBufferPos b =
              cR0.rlpBuffer.set cR0.rlpBufferPos b := by
            rw [h2'.toGT.rlp, h2'.toGT.rlpP]
          have heq2 : cL0.rlpBufferPos + 1 = cR0.rlpBufferPos + 1 := by
            rw [h2'.toGT.rlpP]
          have hsc : GS [] { cL0 with rlpBuffer := cL0.rlpBuffer.set cL0.rlpBufferPos b, rlpBufferPos := cL0.rlpBufferPos + 1 } { cR0 with rlpBuffer := cR0.rlpBuffer.set cR0.rlpBufferPos b, rlpBufferPos := cR0.rlpBufferPos + 1 } := by
            rw [heq1, heq2]
            exact GS_lift h2' (GT_scratch h2'.toGT _ _) rfl rfl rfl
          have hcdeq : (cL0.rlpBuffer.set cL0.rlpBufferPos b).take (cL0.rlpBufferPos + 1) =
              (cR0.rlpBuffer.set cR0.rlpBufferPos b).take (cR0.rlpBufferPos + 1) := by
            rw [h2'.toGT.rlp, h2'.toGT.rlpP]
          rcases hcd : rlpCanDecode ((cR0.rlpBuffer.set cR0.rlpBufferPos b).take
              (cR0.rlpBufferPos + 1)) with - | v
          · rw [hcd] at hR
            obtain ⟨c2L, hgo, hrel⟩ := ih _ _ hsc st cd c2R hR
            refine ⟨c2L, ?_, hrel⟩
            rw [txStreamDetectFieldGo, if_neg (by omega),
              if_neg (by rw [h.toGT.rlpP]; exact h1), hrL]
            dsimp only
            rw [hcdeq, hcd]
            exact hgo
          · rcases v with - | -
            · rw [hcd] at hR
              simp only [Except.ok.injEq, Prod.mk.injEq] at hR
              obtain ⟨e1, e2, e3⟩ := hR
              subst e1
              subst e2
              subst e3
              refine ⟨_, ?_, hsc⟩
              rw [txStreamDetectFieldGo, if_neg (by omega),
                if_neg (by rw [h.toGT.rlpP]; exact h1), hrL]
              dsimp only
              rw [hcdeq, hcd]
            · rw [hcd] at hR
              simp only [Except.ok.injEq, Prod.mk.injEq] at hR
              obtain ⟨e1, e2, e3⟩ := hR
              subst e1
              subst e2
              subst e3
              refine ⟨_, ?_, hsc⟩
              rw [txStreamDetectFieldGo, if_neg (by omega),
                if_neg (by rw [h.toGT.rlpP]; exact h1), hrL]
              dsimp only
              rw [hcdeq, hcd]

/-- `GT` is preserved by completing the current field on both sides. -/
theorem GT_fieldDone {Y : List Nat} {cL cR : tx_stream_context_t} (h : GT Y cL cR) :
    GT Y { cL with currentField := cL.currentField + 1, isProcessingField := false }
         { cR with currentField := cR.currentField + 1, isProcessingField := false } :=
  ⟨show cL.currentField + 1 = cR.currentField + 1 from by rw [h.cf], h.flg, h.dl,
   h.cfl, h.cfp, h.lst, h.sb, rfl, h.rlp, h.rlpP, h.wbl, h.rst, h.hd, h.ebL, h.ebR⟩

/-- `GS` is preserved by consuming `L` bytes, setting the in-field position
and feeding a common span to the hash, with arbitrary hash logs. -/
theorem GS_consume (Y : List Nat) {cL cR : tx_stream_context_t} (h : GS Y cL cR)
    (L : Nat) (hL : L ≤ cR.workBufferLength) (q : Nat) (X : List Nat)
    (LOGL LOGR : List HashEv) :
    GS Y { cL with workPos := cL.workPos + L, workBufferLength := cL.workBufferLength - L,
                   currentFieldPos := q, hashData := cL.hashData ++ X, hashLog := LOGL }
         { cR with workPos := cR.workPos + L, workBufferLength := cR.workBufferLength - L,
                   currentFieldPos := q, hashData := cR.hashData ++ X, hashLog := LOGR } :=
  GS_lift h (GT_log (GT_hashApp (GT_cfp (GT_adv h.toGT L hL) q) X) LOGL LOGR) rfl rfl rfl

/-- `GS` is preserved by consuming `L` bytes and setting the in-field
position with the hash feed suppressed, with arbitrary hash logs. -/
theorem GS_consume0 (Y : List Nat) {cL cR : tx_stream_context_t} (h : GS Y cL cR)
    (L : Nat) (hL : L ≤ cR.workBufferLength) (q : Nat) (LOGL LOGR : List HashEv) :
    GS Y { cL with workPos := cL.workPos + L, workBufferLength := cL.workBufferLength - L,
                   currentFieldPos := q, hashLog := LOGL }
         { cR with workPos := cR.workPos + L, workBufferLength := cR.workBufferLength - L,
                   currentFieldPos := q, hashLog := LOGR } :=
  GS_lift h (GT_log (GT_cfp (GT_adv h.toGT L hL) q) LOGL LOGR) rfl rfl rfl

/-- `GT` transports along equalities of the two contexts. -/
theorem GT_congr {Y : List Nat} {cL cR cL2 cR2 : tx_stream_context_t}
    (h : GT Y cL cR) (h1 : cL = cL2) (h2 : cR = cR2) : GT Y cL2 cR2 :=
  h1 ▸ h2 ▸ h

/-- A branch-reduced Boolean test selects the then-branch. -/
theorem ite_true_eq {α : Sort _} {inst : Decidable (true = true)} (a b : α) :
    @ite _ (true = true) inst a b = a := by
  rcases inst with hin | hin
  · exact absurd rfl hin
  · rfl

/-- A conditional between two successful results is never a throw. -/
theorem ite_ok_ne_error {ε α : Type} (p : Prop) (inst : Decidable p) (x y : α) (e : ε) :
    @ite _ p inst (Except.ok x) (Except.ok y) ≠ Except.error e := by
  split <;> exact fun hh => Except.noConfusion hh

/-- Related states run the scalar accumulator in lockstep whenever the
fragment side is not truncated mid-payload (the whole remaining payload
fits, or there is no surplus): same faults, related results, related slot
outputs, and a definite completion signal. -/
theorem txStreamProcessInt256Field_GS (Y : List Nat) (cL cR : tx_stream_context_t)
    (h : GS Y cL cR) (fL fR : Option tx_int256_t) (fs : Nat)
    (hf : slotRel fL fR) (hpf : cR.isProcessingField = true)
    (hlim : cR.currentFieldLength - cR.currentFieldPos ≤ cR.workBufferLength ∨ Y = []) :
    (∀ cR2, txStreamProcessInt256Field cR fR fs = .error cR2 →
      txStreamProcessInt256Field cL fL fs = .error cL ∧ cR2 = cR) ∧
    (∀ oR c2R, txStreamProcessInt256Field cR fR fs = .ok (oR, c2R) →
      ∃ oL c2L, txStreamProcessInt256Field cL fL fs = .ok (oL, c2L) ∧
        GT Y c2L c2R ∧ c2L.tx = cL.tx ∧ c2R.tx = cR.tx ∧ slotRel oL oR ∧
        (fL = fR → oL = oR) ∧
        (c2L.currentField = cL.currentField ∧ c2L.isProcessingField = true ∨
         c2L.currentField = cL.currentField + 1 ∧ c2L.isProcessingField = false ∧
           oL = oR)) := by
  have hpfL : cL.isProcessingField = true := by rw [h.toGT.pf]; exact hpf
  by_cases hlst : cR.isCurrentFieldList
  · constructor
    · intro cR2 hR
      unfold txStreamProcessInt256Field at hR ⊢
      rw [if_pos hlst] at hR
      injection hR with e
      subst e
      exact ⟨by rw [if_pos (show cL.isCurrentFieldList = true from by
        rw [h.toGT.lst]; exact hlst)], rfl⟩
    · intro oR c2R hR
      unfold txStreamProcessInt256Field at hR
      rw [if_pos hlst] at hR
      exact Except.noConfusion hR
  · have hlstL : ¬ (cL.isCurrentFieldList = true) := by rw [h.toGT.lst]; exact hlst
    by_cases hcap : cR.currentFieldLength ≤ fs
    · have hcapL : cL.currentFieldLength ≤ fs := by rw [h.toGT.cfl]; exact hcap
      constructor
      · intro cR2 hR
        unfold txStreamProcessInt256Field at hR
        rw [if_neg hlst, if_neg (not_not_intro hcap)] at hR
        by_cases hpos : cR.currentFieldPos < cR.currentFieldLength
        · rw [if_pos hpos] at hR
          dsimp only at hR
          have hTle : (if cR.workBufferLength < cR.currentFieldLength - cR.currentFieldPos then cR.workBufferLength else cR.currentFieldLength - cR.currentFieldPos) ≤ cR.workBufferLength := by
            split <;> omega
          rcases fR with - | b
          · dsimp only at hR
            rw [txStreamCopyData_shape cR none _ hTle] at hR
            dsimp only at hR
            exact absurd hR (ite_ok_ne_error _ _ _ _ _)
          · dsimp only at hR
            rw [txStreamCopyData_shape cR (some (b.value, cR.currentFieldPos)) _ hTle] at hR
            dsimp only at hR
            exact absurd hR (ite_ok_ne_error _ _ _ _ _)
        · rw [if_neg hpos] at hR
          dsimp only at hR
          exact absurd hR (ite_ok_ne_error _ _ _ _ _)
      · intro oR c2R hR
        unfold txStreamProcessInt256Field at hR ⊢
        rw [if_neg hlst, if_neg (not_not_intro hcap)] at hR
        rw [if_neg hlstL, if_neg (not_not_intro hcapL)]
        by_cases hpos : cR.currentFieldPos < cR.currentFieldLength
        · have hposL : cL.currentFieldPos < cL.currentFieldLength := by
            rw [h.toGT.cfp, h.toGT.cfl]; exact hpos
          rw [if_pos hpos] at hR
          rw [if_pos hposL]
          dsimp only at hR ⊢
          have hTeq : (if cL.workBufferLength < cL.currentFieldLength - cL.currentFieldPos then cL.workBufferLength else cL.currentFieldLength - cL.currentFieldPos) = (if cR.workBufferLength < cR.currentFieldLength - cR.currentFieldPos then cR.workBufferLength else cR.currentFieldLength - cR.currentFieldPos) := by
            rw [h.toGT.cfl, h.toGT.cfp]
            rcases hlim with hl | hl
            · rw [if_neg (by have := h.toGT.wbl; omega),
                if_neg (by have := h.toGT.wbl; omega)]
            · subst hl
              rw [show cL.workBufferLength = cR.workBufferLength from by
                have := h.toGT.wbl; simpa using this]
          rw [hTeq]
          set T := (if cR.workBufferLength < cR.currentFieldLength - cR.currentFieldPos then cR.workBufferLength else cR.currentFieldLength - cR.currentFieldPos) with hT
          have hTle : T ≤ cR.workBufferLength := by rw [hT]; split <;> omega
          have hTleL : T ≤ cL.workBufferLength := by have := h.toGT.wbl; omega
          have hchunk : (cL.workBuffer.drop cL.workPos).take T =
              (cR.workBuffer.drop cR.workPos).take T := GT_chunk h.toGT T hTle
          rcases fL with - | a <;> rcases fR with - | b
          · dsimp only at hR ⊢
            rw [txStreamCopyData_shape cR none T hTle] at hR
            rw [txStreamCopyData_shape cL none T hTleL]
            dsimp only at hR ⊢
            rw [hpf] at hR
            rw [hpfL]
            simp only [Bool.true_and, ite_true_eq, if_true] at hR ⊢
            rw [h.toGT.cfp, h.toGT.cfl]
            by_cases hdone : cR.currentFieldPos + T = cR.currentFieldLength
            · rw [if_pos hdone] at hR
              rw [if_pos hdone]
              simp only [Except.ok.injEq, Prod.mk.injEq] at hR
              obtain ⟨ho, hc⟩ := hR
              subst ho
              subst hc
              refine ⟨_, _, rfl, ?_, rfl, rfl, trivial, fun _ => rfl,
                Or.inr ⟨rfl, rfl, rfl⟩⟩
              by_cases hsb : cR.isFieldSingleByte
              · have hsbL : cL.isFieldSingleByte = true := by rw [h.toGT.sb]; exact hsb
                simp only [if_pos hsb, if_pos hsbL]
                refine GT_congr (GT_fieldDone (GS_consume0 Y h T hTle
                  (cR.currentFieldPos + T) cL.hashLog cR.hashLog).toGT) ?_ ?_
                · simp only [h.toGT.cfl]
                · rfl
              · have hsbL : ¬ (cL.isFieldSingleByte = true) := by rw [h.toGT.sb]; exact hsb
                simp only [if_neg hsb, if_neg hsbL]
                rw [hchunk]
                refine GT_congr (GT_fieldDone (GS_consume Y h T hTle
                  (cR.currentFieldPos + T) ((cR.workBuffer.drop cR.workPos).take T)
                  (cL.hashLog ++ [HashEv.copyB ((cR.workBuffer.drop cR.workPos).take T)])
                  (cR.hashLog ++ [HashEv.copyB ((cR.workBuffer.drop cR.workPos).take T)])).toGT)
                  ?_ ?_
                · simp only [h.toGT.cfl]
                · rfl
            · rw [if_neg hdone] at hR
              rw [if_neg hdone]
              simp only [Except.ok.injEq, Prod.mk.injEq] at hR
              obtain ⟨ho, hc⟩ := hR
              subst ho
              subst hc
              refine ⟨_, _, rfl, ?_, rfl, rfl, trivial, fun _ => rfl,
                Or.inl ⟨rfl, rfl⟩⟩
              by_cases hsb : cR.isFieldSingleByte
              · have hsbL : cL.isFieldSingleByte = true := by rw [h.toGT.sb]; exact hsb
                simp only [if_pos hsb, if_pos hsbL]
                refine GT_congr (GS_consume0 Y h T hTle
                  (cR.currentFieldPos + T) cL.hashLog cR.hashLog).toGT ?_ ?_
                · simp only [h.toGT.cfl, hpfL]
                · simp only [hpf]
              · have hsbL : ¬ (cL.isFieldSingleByte = true) := by rw [h.toGT.sb]; exact hsb
                simp only [if_neg hsb, if_neg hsbL]
                rw [hchunk]
                refine GT_congr (GS_consume Y h T hTle
                  (cR.currentFieldPos + T) ((cR.workBuffer.drop cR.workPos).take T)
                  (cL.hashLog ++ [HashEv.copyB ((cR.workBuffer.drop cR.workPos).take T)])
                  (cR.hashLog ++ [HashEv.copyB ((cR.workBuffer.drop cR.workPos).take T)])).toGT
                  ?_ ?_
                · simp only [h.toGT.cfl, hpfL]
                · simp only [hpf]
          · simp [slotRel] at hf
          · simp [slotRel] at hf
          · have hv : a.value = b.value := hf
            dsimp only at hR ⊢
            rw [txStreamCopyData_shape cR (some (b.value, cR.currentFieldPos)) T hTle] at hR
            rw [txStreamCopyData_shape cL (some (a.value, cL.currentFieldPos)) T hTleL]
            dsimp only at hR ⊢
            rw [hpf] at hR
            rw [hpfL]
            simp only [Bool.true_and, ite_true_eq, if_true] at hR ⊢
            rw [h.toGT.cfp, h.toGT.cfl]
            simp only [Option.map, Option.getD] at hR ⊢
            have hout : listWriteAt a.value cR.currentFieldPos
                ((cL.workBuffer.drop cL.workPos).take T) =
                listWriteAt b.value cR.currentFieldPos
                ((cR.workBuffer.drop cR.workPos).take T) := by
              rw [hv, hchunk]
            rw [hout]
            by_cases hdone : cR.currentFieldPos + T = cR.currentFieldLength
            · rw [if_pos hdone] at hR
              rw [if_pos hdone]
              simp only [Except.ok.injEq, Prod.mk.injEq] at hR
              obtain ⟨ho, hc⟩ := hR
              subst ho
              subst hc
              refine ⟨_, _, rfl, ?_, rfl, rfl, ?_, ?_, Or.inr ⟨rfl, rfl, ?_⟩⟩
              · by_cases hsb : cR.isFieldSingleByte
                · have hsbL : cL.isFieldSingleByte = true := by rw [h.toGT.sb]; exact hsb
                  simp only [if_pos hsb, if_pos hsbL]
                  refine GT_congr (GT_fieldDone (GS_consume0 Y h T hTle
                    (cR.currentFieldPos + T) cL.hashLog cR.hashLog).toGT) ?_ ?_
                  · simp only [h.toGT.cfl]
                  · rfl
                · have hsbL : ¬ (cL.isFieldSingleByte = true) := by rw [h.toGT.sb]; exact hsb
                  simp only [if_neg hsb, if_neg hsbL]
                  rw [hchunk]
                  refine GT_congr (GT_fieldDone (GS_consume Y h T hTle
                    (cR.currentFieldPos + T) ((cR.workBuffer.drop cR.workPos).take T)
                    (cL.hashLog ++ [HashEv.copyB ((cR.workBuffer.drop cR.workPos).take T)])
                    (cR.hashLog ++ [HashEv.copyB ((cR.workBuffer.drop cR.workPos).take T)])).toGT)
                    ?_ ?_
                  · simp only [h.toGT.cfl]
                  · rfl
              · show slotRel (some _) (some _)
                simp only [slotRel]
              · exact fun _ => rfl
              · rfl
            · rw [if_neg hdone] at hR
              rw [if_neg hdone]
              simp only [Except.ok.injEq, Prod.mk.injEq] at hR
              obtain ⟨ho, hc⟩ := hR
              subst ho
              subst hc
              refine ⟨_, _, rfl, ?_, rfl, rfl, ?_, ?_, Or.inl ⟨rfl, rfl⟩⟩
              · by_cases hsb : cR.isFieldSingleByte
                · have hsbL : cL.isFieldSingleByte = true := by rw [h.toGT.sb]; exact hsb
                  simp only [if_pos hsb, if_pos hsbL]
                  refine GT_congr (GS_consume0 Y h T hTle
                    (cR.currentFieldPos + T) cL.hashLog cR.hashLog).toGT ?_ ?_
                  · simp only [h.toGT.cfl, hpfL]
                  · simp only [hpf]
                · have hsbL : ¬ (cL.isFieldSingleByte = true) := by rw [h.toGT.sb]; exact hsb
                  simp only [if_neg hsb, if_neg hsbL]
                  rw [hchunk]
                  refine GT_congr (GS_consume Y h T hTle
                    (cR.currentFieldPos + T) ((cR.workBuffer.drop cR.workPos).take T)
                    (cL.hashLog ++ [HashEv.copyB ((cR.workBuffer.drop cR.workPos).take T)])
                    (cR.hashLog ++ [HashEv.copyB ((cR.workBuffer.drop cR.workPos).take T)])).toGT
                    ?_ ?_
                  · simp only [h.toGT.cfl, hpfL]
                  · simp only [hpf]
              · show slotRel (some _) (some _)
                simp only [slotRel]
              · intro hab
                injection hab with hab
                subst hab
                rfl
        · have hposL : ¬ (cL.currentFieldPos < cL.currentFieldLength) := by
            rw [h.toGT.cfp, h.toGT.cfl]; exact hpos
          rw [if_neg hpos] at hR
          rw [if_neg hposL]
          dsimp only at hR ⊢
          by_cases hdone : cR.currentFieldPos = cR.currentFieldLength
          · rw [if_pos hdone] at hR
            rw [if_pos (by rw [h.toGT.cfp, h.toGT.cfl]; exact hdone)]
            simp only [Except.ok.injEq, Prod.mk.injEq] at hR
            obtain ⟨ho, hc⟩ := hR
            subst ho
            subst hc
            rcases fL with - | a <;> rcases fR with - | b
            · exact ⟨_, _, rfl, GT_fieldDone h.toGT, rfl, rfl, trivial, fun _ => rfl,
                Or.inr ⟨rfl, rfl, rfl⟩⟩
            · simp [slotRel] at hf
            · simp [slotRel] at hf
            · have hv : a.value = b.value := hf
              refine ⟨_, _, rfl, GT_fieldDone h.toGT, rfl, rfl, ?_, ?_, Or.inr ⟨rfl, rfl, ?_⟩⟩
              · show slotRel (some _) (some _)
                simp only [slotRel]
                exact hv
              · intro hab
                injection hab with hab
                subst hab
                simp only [Option.map]
                rw [show cL.currentFieldLength = cR.currentFieldLength from h.toGT.cfl]
              · simp only [Option.map]
                rw [show cL.currentFieldLength = cR.currentFieldLength from h.toGT.cfl, hv]
          · rw [if_neg hdone] at hR
            rw [if_neg (by rw [h.toGT.cfp, h.toGT.cfl]; exact hdone)]
            simp only [Except.ok.injEq, Prod.mk.injEq] at hR
            obtain ⟨ho, hc⟩ := hR
            subst ho
            subst hc
            exact ⟨_, _, rfl, h.toGT, rfl, rfl, hf, fun he => he, Or.inl ⟨rfl, hpfL⟩⟩
    · have hcapL : ¬ (cL.currentFieldLength ≤ fs) := by rw [h.toGT.cfl]; exact hcap
      constructor
      · intro cR2 hR
        unfold txStreamProcessInt256Field at hR ⊢
        rw [if_neg hlst, if_pos (by simpa using hcap)] at hR
        injection hR with e
        subst e
        exact ⟨by rw [if_neg hlstL, if_pos (by simpa using hcapL)], rfl⟩
      · intro oR c2R hR
        unfold txStreamProcessInt256Field at hR
        rw [if_neg hlst, if_pos (by simpa using hcap)] at hR
        exact Except.noConfusion hR

/-- `GS` with no surplus bytes holds between a state and itself whenever
the cursor is in bounds. -/
theorem GS_id (c : tx_stream_context_t)
    (he : c.workPos + c.workBufferLength ≤ c.workBuffer.length) : GS [] c c :=
  ⟨⟨rfl, rfl, rfl, rfl, rfl, rfl, rfl, rfl, rfl, rfl, by simp,
    (List.append_nil _).symm, rfl, he, he⟩, rfl, rfl, rfl, rfl, rfl, Or.inl rfl⟩

/-- `GS` with no surplus is transitive. -/
theorem GS_trans0 {a b c : tx_stream_context_t} (h1 : GS [] a b) (h2 : GS [] b c) :
    GS [] a c := by
  refine ⟨⟨h1.toGT.cf.trans h2.toGT.cf, h1.toGT.flg.trans h2.toGT.flg,
    h1.toGT.dl.trans h2.toGT.dl, h1.toGT.cfl.trans h2.toGT.cfl,
    h1.toGT.cfp.trans h2.toGT.cfp, h1.toGT.lst.trans h2.toGT.lst,
    h1.toGT.sb.trans h2.toGT.sb, h1.toGT.pf.trans h2.toGT.pf,
    h1.toGT.rlp.trans h2.toGT.rlp, h1.toGT.rlpP.trans h2.toGT.rlpP,
    ?_, ?_, h1.toGT.hd.trans h2.toGT.hd, h1.toGT.ebL, h2.toGT.ebR⟩,
    h1.gp.trans h2.gp, h1.sg.trans h2.sg, h1.vlu.trans h2.vlu,
    h1.rcp.trans h2.rcp, h1.vv.trans h2.vv, ?_⟩
  · have w1 := h1.toGT.wbl
    have w2 := h2.toGT.wbl
    simp only [List.length_nil] at w1 w2 ⊢
    omega
  · have r1 := h1.toGT.rst
    have r2 := h2.toGT.rst
    rw [List.append_nil] at r1 r2
    rw [List.append_nil, r1, r2]
  · rcases h1.vlen with hv1 | hv1
    · rcases h2.vlen with hv2 | hv2
      · exact Or.inl (hv1.trans hv2)
      · exact Or.inr (h1.toGT.cf.trans hv2)
    · exact Or.inr hv1

/-- Rebuild `GS` from a transformed `GT` pair when the destination records
carry over unchanged and the recorded V lengths agree. -/
theorem GS_rebuild {Y : List Nat} {cL cR cL2 cR2 : tx_stream_context_t}
    (h : GS Y cL cR) (hgt : GT Y cL2 cR2)
    (htxL : cL2.tx = cL.tx) (htxR : cR2.tx = cR.tx)
    (hvq : cL.tx.v.length = cR.tx.v.length) : GS Y cL2 cR2 :=
  ⟨hgt, by rw [htxL, htxR]; exact h.gp, by rw [htxL, htxR]; exact h.sg,
   by rw [htxL, htxR]; exact h.vlu, by rw [htxL, htxR]; exact h.rcp,
   by rw [htxL, htxR]; exact h.vv, Or.inl (by rw [htxL, htxR]; exact hvq)⟩

/-- `GT` ignores the destination record. -/
theorem GT_tx {Y : List Nat} {cL cR : tx_stream_context_t} (h : GT Y cL cR)
    (ta tb : transaction_t) :
    GT Y { cL with tx := ta } { cR with tx := tb } :=
  ⟨h.cf, h.flg, h.dl, h.cfl, h.cfp, h.lst, h.sb, h.pf, h.rlp, h.rlpP, h.wbl, h.rst,
   h.hd, h.ebL, h.ebR⟩

/-- The loop invariant threaded along every parse run: the schema cursor
stays within the sentinel range, and a mid-field state carries a cleared
single-byte flag, a strictly incomplete position, and an accumulator
schema position. -/
def BInv3 (c : tx_stream_context_t) : Prop :=
  c.currentField ≤ TX_RLP_DONE ∧
  (c.isProcessingField = true →
    c.isFieldSingleByte = false ∧ c.currentFieldPos < c.currentFieldLength ∧
    TX_RLP_TYPE ≤ c.currentField ∧ c.currentField ≤ TX_RLP_S)

/-- Reinstalling the flags word a later call carries is the identity when
the stored flags already equal it. -/
theorem install_flags_eq (c : tx_stream_context_t) (B : List Nat) (fl : Nat)
    (h : c.processingFlags = fl) :
    { c with workBuffer := B, workBufferLength := B.length, workPos := 0,
             processingFlags := fl } = installB c B := by
  subst h
  rfl

/-- Overwriting the stored V length with itself is the identity. -/
theorem setVlen_self (c : tx_stream_context_t) : setVlen c c.tx.v.length = c := by
  rcases c with ⟨c1, c2, c3, c4, c5, c6, c7, c8, c9, c10, c11, c12, c13,
    ⟨t1, t2, t3, t4, ⟨v1, v2⟩⟩, c15, c16⟩
  rfl

/-- A destination-record equality from slotwise equalities. -/
theorem transaction_ext (a b : transaction_t)
    (h1 : a.gasPrice = b.gasPrice) (h2 : a.startGas = b.startGas)
    (h3 : a.value = b.value) (h4 : a.recipient = b.recipient)
    (h5 : a.v.value = b.v.value) (h6 : a.v.length = b.v.length) : a = b := by
  rcases a with ⟨a1, a2, a3, a4, ⟨a5, a6⟩⟩
  rcases b with ⟨b1, b2, b3, b4, ⟨b5, b6⟩⟩
  dsimp at h1 h2 h3 h4 h5 h6
  subst h1
  subst h2
  subst h3
  subst h4
  subst h5
  subst h6
  rfl

/-- Concatenating a nonempty list of nonempty fragments is nonempty. -/
theorem flatten_ne_nil (frags : List (List Nat)) (h : frags ≠ [])
    (hne : ∀ f ∈ frags, f ≠ []) : frags.flatten ≠ [] := by
  cases frags with
  | nil => exact absurd rfl h
  | cons f rest =>
    have hf : f ≠ [] := hne f (by simp)
    cases f with
    | nil => exact absurd rfl hf
    | cons x xs => simp

/-- The fragment fold ignores every carried status but the last. -/
theorem processFrags_cons (c : tx_stream_context_t) (f g : List Nat)
    (rs : List (List Nat)) (flags : Nat) :
    txStreamProcessFrags c (f :: g :: rs) flags =
      txStreamProcessFrags (txStreamProcess c f flags).2 (g :: rs) flags := by
  unfold txStreamProcessFrags
  simp only [List.foldl_cons]

/-- One looping iteration peels off one unit of fuel. -/
theorem txStreamParseGo_peel (c c1 : tx_stream_context_t)
    (hstep : txStreamParseStep c = .ok (none, c1)) (f : Nat) :
    txStreamParseGo c (f + 1) = txStreamParseGo c1 f := by
  rw [txStreamParseGo, hstep]

/-- An exiting iteration determines the run result at any positive fuel. -/
theorem txStreamParseGo_exit (c c1 : tx_stream_context_t) (s : tx_stream_status_e)
    (hstep : txStreamParseStep c = .ok (some s, c1)) (f : Nat) :
    txStreamParseGo c (f + 1) = .ok (s, c1) := by
  rw [txStreamParseGo, hstep]

/-- A throwing iteration determines the run result at any positive fuel. -/
theorem txStreamParseGo_err (c c1 : tx_stream_context_t)
    (hstep : txStreamParseStep c = .error c1) (f : Nat) :
    txStreamParseGo c (f + 1) = .error c1 := by
  rw [txStreamParseGo, hstep]

/-- Pending surplus bytes become the freshly installed buffer of the next
call: the whole-stream side relates with no surplus to the fragment side
after reinstalling, with an arbitrary V length when the stream sits at V. -/
theorem GS_install_v {Y : List Nat} {cL cR : tx_stream_context_t} (h : GS Y cL cR)
    (h0 : cR.workBufferLength = 0) (m : Nat)
    (hm : m = cR.tx.v.length ∨ cL.currentField = TX_RLP_V) :
    GS [] cL (installB (setVlen cR m) Y) := by
  refine ⟨⟨h.toGT.cf, h.toGT.flg, h.toGT.dl, h.toGT.cfl, h.toGT.cfp, h.toGT.lst,
    h.toGT.sb, h.toGT.pf, h.toGT.rlp, h.toGT.rlpP, ?_, ?_, h.toGT.hd, h.toGT.ebL, ?_⟩,
    h.gp, h.sg, h.vlu, h.rcp, h.vv, ?_⟩
  · show cL.workBufferLength = Y.length + List.length []
    have := h.toGT.wbl
    simp only [List.length_nil]
    omega
  · show restF cL = restF (installB (setVlen cR m) Y) ++ []
    rw [List.append_nil,
      show restF (installB (setVlen cR m) Y) = Y from by
        simp [restF, installB, setVlen],
      h.toGT.rst, show restF cR = [] from by simp [restF, h0], List.nil_append]
  · show 0 + Y.length ≤ Y.length
    omega
  · rcases hm with hm | hm
    · subst hm
      rcases h.vlen with hv | hv
      · exact Or.inl hv
      · exact Or.inr hv
    · exact Or.inr hm

/-- The plain form of `GS_install_v`, when no V length was written. -/
theorem GS_install {Y : List Nat} {cL cR : tx_stream_context_t} (h : GS Y cL cR)
    (h0 : cR.workBufferLength = 0) : GS [] cL (installB cR Y) := by
  have hv := GS_install_v h h0 cR.tx.v.length (Or.inl rfl)
  rwa [setVlen_self] at hv

/-- Single-sided bookkeeping of the scalar accumulator: a throw keeps the
context unchanged; a success keeps the flags word, the single-byte flag
and the declared length, consumes exactly the bounded copy amount, and
either stays strictly inside a truncated field or completes it and
advances the schema position. -/
theorem txStreamProcessInt256Field_facts (ctx : tx_stream_context_t)
    (f : Option tx_int256_t) (fs : Nat) (hpf : ctx.isProcessingField = true)
    (hple : ctx.currentFieldPos ≤ ctx.currentFieldLength) :
    (∀ c', txStreamProcessInt256Field ctx f fs = .error c' → c' = ctx) ∧
    (∀ o c', txStreamProcessInt256Field ctx f fs = .ok (o, c') →
      c'.processingFlags = ctx.processingFlags ∧
      c'.isFieldSingleByte = ctx.isFieldSingleByte ∧
      c'.currentFieldLength = ctx.currentFieldLength ∧
      c'.workBufferLength = ctx.workBufferLength -
        (if ctx.currentFieldPos < ctx.currentFieldLength
         then (if ctx.workBufferLength < ctx.currentFieldLength - ctx.currentFieldPos
               then ctx.workBufferLength
               else ctx.currentFieldLength - ctx.currentFieldPos)
         else 0) ∧
      ((c'.isProcessingField = true ∧ c'.currentField = ctx.currentField ∧
          c'.currentFieldPos < c'.currentFieldLength ∧
          ctx.workBufferLength < ctx.currentFieldLength - ctx.currentFieldPos) ∨
       (c'.isProcessingField = false ∧ c'.currentField = ctx.currentField + 1))) := by
  unfold txStreamProcessInt256Field
  by_cases h1 : ctx.isCurrentFieldList
  · rw [if_pos h1]
    exact ⟨fun c' h => by injection h with h; exact h.symm,
           fun o c' h => Except.noConfusion h⟩
  · rw [if_neg h1]
    by_cases h2 : ctx.currentFieldLength ≤ fs
    · rw [if_neg (not_not_intro h2)]
      by_cases hpos : ctx.currentFieldPos < ctx.currentFieldLength
      · rw [if_pos hpos]
        dsimp only
        set T := (if ctx.workBufferLength < ctx.currentFieldLength - ctx.currentFieldPos then ctx.workBufferLength else ctx.currentFieldLength - ctx.currentFieldPos) with hT
        have hTle : T ≤ ctx.workBufferLength := by rw [hT]; split <;> omega
        have hTlen : T ≤ ctx.currentFieldLength - ctx.currentFieldPos := by
          rw [hT]; split <;> omega
        have hTdi : T = ctx.workBufferLength ∨
            T = ctx.currentFieldLength - ctx.currentFieldPos := by
          rw [hT]; split
          · exact Or.inl rfl
          · exact Or.inr rfl
        rcases f with - | a
        · dsimp only
          rw [txStreamCopyData_shape ctx none T hTle]
          dsimp only
          rw [if_pos hpf]
          constructor
          · intro c' h
            exact absurd h (ite_ok_ne_error _ _ _ _ _)
          · intro o c' h
            by_cases hdone : ctx.currentFieldPos + T = ctx.currentFieldLength
            · rw [if_pos hdone] at h
              simp only [Except.ok.injEq, Prod.mk.injEq] at h
              obtain ⟨-, hc⟩ := h
              subst hc
              exact ⟨rfl, rfl, rfl, by rw [if_pos hpos], Or.inr ⟨rfl, rfl⟩⟩
            · rw [if_neg hdone] at h
              simp only [Except.ok.injEq, Prod.mk.injEq] at h
              obtain ⟨-, hc⟩ := h
              subst hc
              refine ⟨rfl, rfl, rfl, by rw [if_pos hpos], Or.inl ⟨hpf, rfl, ?_, ?_⟩⟩
              · show ctx.currentFieldPos + T < ctx.currentFieldLength
                omega
              · rcases hTdi with hTd | hTd <;> omega
        · dsimp only
          rw [txStreamCopyData_shape ctx (some (a.value, ctx.currentFieldPos)) T hTle]
          dsimp only
          rw [if_pos hpf]
          constructor
          · intro c' h
            exact absurd h (ite_ok_ne_error _ _ _ _ _)
          · intro o c' h
            by_cases hdone : ctx.currentFieldPos + T = ctx.currentFieldLength
            · rw [if_pos hdone] at h
              simp only [Except.ok.injEq, Prod.mk.injEq] at h
              obtain ⟨-, hc⟩ := h
              subst hc
              exact ⟨rfl, rfl, rfl, by rw [if_pos hpos], Or.inr ⟨rfl, rfl⟩⟩
            · rw [if_neg hdone] at h
              simp only [Except.ok.injEq, Prod.mk.injEq] at h
              obtain ⟨-, hc⟩ := h
              subst hc
              refine ⟨rfl, rfl, rfl, by rw [if_pos hpos], Or.inl ⟨hpf, rfl, ?_, ?_⟩⟩
              · show ctx.currentFieldPos + T < ctx.currentFieldLength
                omega
              · rcases hTdi with hTd | hTd <;> omega
      · rw [if_neg hpos]
        dsimp only
        have hdone : ctx.currentFieldPos = ctx.currentFieldLength := by omega
        rw [if_pos hdone]
        constructor
        · intro c' h
          exact Except.noConfusion h
        · intro o c' h
          simp only [Except.ok.injEq, Prod.mk.injEq] at h
          obtain ⟨-, hc⟩ := h
          subst hc
          exact ⟨rfl, rfl, rfl, by rw [if_neg hpos]; rfl, Or.inr ⟨rfl, rfl⟩⟩
    · rw [if_pos (show ¬ ctx.currentFieldLength ≤ fs from h2)]
      exact ⟨fun c' h => by injection h with h; exact h.symm,
             fun o c' h => Except.noConfusion h⟩

/-- A present destination slot always yields a present output slot. -/
theorem txStreamProcessInt256Field_some (ctx : tx_stream_context_t)
    (a : tx_int256_t) (fs : Nat) :
    ∀ o c', txStreamProcessInt256Field ctx (some a) fs = .ok (o, c') →
      ∃ b, o = some b := by
  intro o c' h
  unfold txStreamProcessInt256Field at h
  by_cases h1 : ctx.isCurrentFieldList
  · rw [if_pos h1] at h
    exact Except.noConfusion h
  · rw [if_neg h1] at h
    by_cases h2 : ctx.currentFieldLength ≤ fs
    · rw [if_neg (not_not_intro h2)] at h
      by_cases hpos : ctx.currentFieldPos < ctx.currentFieldLength
      · rw [if_pos hpos] at h
        dsimp only at h
        set T := (if ctx.workBufferLength < ctx.currentFieldLength - ctx.currentFieldPos then ctx.workBufferLength else ctx.currentFieldLength - ctx.currentFieldPos) with hT
        have hTle : T ≤ ctx.workBufferLength := by rw [hT]; split <;> omega
        rw [txStreamCopyData_shape ctx (some (a.value, ctx.currentFieldPos)) T hTle] at h
        dsimp only at h
        by_cases hpf : ctx.isProcessingField = true
        case neg =>
          rw [if_neg hpf] at h
          by_cases hdone : ctx.currentFieldPos = ctx.currentFieldLength
          · rw [if_pos hdone] at h
            simp only [Except.ok.injEq, Prod.mk.injEq] at h
            obtain ⟨ho, -⟩ := h
            exact ⟨_, ho.symm⟩
          · rw [if_neg hdone] at h
            simp only [Except.ok.injEq, Prod.mk.injEq] at h
            obtain ⟨ho, -⟩ := h
            exact ⟨_, ho.symm⟩
        rw [if_pos hpf] at h
        by_cases hdone : ctx.currentFieldPos + T = ctx.currentFieldLength
        · rw [if_pos hdone] at h
          simp only [Except.ok.injEq, Prod.mk.injEq] at h
          obtain ⟨ho, -⟩ := h
          exact ⟨_, ho.symm⟩
        · rw [if_neg hdone] at h
          simp only [Except.ok.injEq, Prod.mk.injEq] at h
          obtain ⟨ho, -⟩ := h
          exact ⟨_, ho.symm⟩
      · rw [if_neg hpos] at h
        dsimp only at h
        by_cases hdone : ctx.currentFieldPos = ctx.currentFieldLength
        · rw [if_pos hdone] at h
          simp only [Except.ok.injEq, Prod.mk.injEq] at h
          obtain ⟨ho, -⟩ := h
          exact ⟨_, ho.symm⟩
        · rw [if_neg hdone] at h
          simp only [Except.ok.injEq, Prod.mk.injEq] at h
          obtain ⟨ho, -⟩ := h
          exact ⟨_, ho.symm⟩
    · rw [if_pos h2] at h
      exact Except.noConfusion h

/-- Single-sided bookkeeping of the field dispatcher: throws return the
input context; successes keep the flags word and the single-byte flag,
move the schema position by at most the envelope skip, never grow the
remaining buffer, and a still-open field means a truncated accumulator
at an accumulator position. -/
theorem txStreamParseFieldProxy_facts (c : tx_stream_context_t)
    (hpf : c.isProcessingField = true)
    (hple : c.currentFieldPos ≤ c.currentFieldLength) :
    (∀ e, txStreamParseFieldProxy c = .error e → e = c) ∧
    (∀ st c', txStreamParseFieldProxy c = .ok (st, c') →
      c'.processingFlags = c.processingFlags ∧
      c'.isFieldSingleByte = c.isFieldSingleByte ∧
      (c.currentField = TX_RLP_ENVELOPE → c'.currentField ≤ TX_RLP_NONCE) ∧
      (c.currentField ≠ TX_RLP_ENVELOPE → c'.currentField ≤ c.currentField + 1) ∧
      (st = .fault → c' = c) ∧
      (st ≠ .fault → TX_RLP_TYPE ≤ c.currentField → c.currentField ≤ TX_RLP_S →
        c.currentFieldPos < c.currentFieldLength → 1 ≤ c.workBufferLength →
        c'.workBufferLength < c.workBufferLength) ∧
      (st ≠ .fault → c'.isProcessingField = true →
        c'.currentField = c.currentField ∧
        c'.currentFieldPos < c'.currentFieldLength ∧
        TX_RLP_TYPE ≤ c'.currentField ∧ c'.currentField ≤ TX_RLP_S ∧
        c.workBufferLength < c.currentFieldLength - c.currentFieldPos) ∧
      c'.workBufferLength ≤ c.workBufferLength ∧
      (st ≠ .fault → c.currentField = TX_RLP_ENVELOPE ∨
        (TX_RLP_TYPE ≤ c.currentField ∧ c.currentField ≤ TX_RLP_S)) ∧
      (st ≠ .fault → c.isCurrentFieldList = false →
        c.currentField ≠ TX_RLP_ENVELOPE)) := by
  unfold txStreamParseFieldProxy
  by_cases h1 : c.currentField = TX_RLP_ENVELOPE
  · rw [if_pos h1]
    by_cases hl : c.isCurrentFieldList
    · have hcon : txStreamProcessContent c = .ok { c with
          dataLength := c.currentFieldLength,
          currentField := c.currentField + 1,
          isProcessingField := false } := by
        unfold txStreamProcessContent
        rw [if_neg (by rw [hl]; decide)]
      rw [hcon]
      dsimp only
      by_cases hfl : c.processingFlags &&& TX_FLAG_TYPE = 0
      · rw [if_pos hfl]
        constructor
        · intro e0 h
          exact Except.noConfusion h
        · intro st c' h
          simp only [Except.ok.injEq, Prod.mk.injEq] at h
          obtain ⟨hst, hc'⟩ := h
          subst hc'
          subst hst
          refine ⟨rfl, rfl, ?_, ?_, ?_, ?_, ?_, ?_, ?_, ?_⟩
          · intro _
            show c.currentField + 1 + 1 ≤ TX_RLP_NONCE
            rw [h1] <;> decide
          · intro h'
            exact absurd h1 h'
          · intro h'
            exact absurd h' (by decide)
          · intro _ h'
            rw [h1] at h'
            exact absurd h' (by decide)
          · intro _ hpf'
            exact Bool.noConfusion hpf'
          · exact Nat.le_refl _
          · intro _
            exact Or.inl h1
          · intro _ hlst
            rw [hl] at hlst
            exact Bool.noConfusion hlst
      · rw [if_neg hfl]
        constructor
        · intro e0 h
          exact Except.noConfusion h
        · intro st c' h
          simp only [Except.ok.injEq, Prod.mk.injEq] at h
          obtain ⟨hst, hc'⟩ := h
          subst hc'
          subst hst
          refine ⟨rfl, rfl, ?_, ?_, ?_, ?_, ?_, ?_, ?_, ?_⟩
          · intro _
            show c.currentField + 1 ≤ TX_RLP_NONCE
            rw [h1] <;> decide
          · intro h'
            exact absurd h1 h'
          · intro h'
            exact absurd h' (by decide)
          · intro _ h'
            rw [h1] at h'
            exact absurd h' (by decide)
          · intro _ hpf'
            exact Bool.noConfusion hpf'
          · exact Nat.le_refl _
          · intro _
            exact Or.inl h1
          · intro _ hlst
            rw [hl] at hlst
            exact Bool.noConfusion hlst
    · have hcon : txStreamProcessContent c = .error c := by
        unfold txStreamProcessContent
        rw [if_pos (by rw [show c.isCurrentFieldList = false from by simpa using hl]; decide)]
      rw [hcon]
      dsimp only
      constructor
      · intro e0 h
        injection h with h
        exact h.symm
      · intro st c' h
        exact Except.noConfusion h
  · rw [if_neg h1]
    by_cases h2 : c.currentField = TX_RLP_TYPE
    · rw [if_pos h2]
      rcases hacc : txStreamProcessInt256Field c none TX_MAX_INT256_LENGTH with e | ⟨o2, c2⟩
      · constructor
        · intro e0 h
          dsimp only at h
          injection h with h
          exact h ▸ ((txStreamProcessInt256Field_facts c none TX_MAX_INT256_LENGTH hpf hple).1 e hacc)
        · intro st c' h
          dsimp only at h
          exact Except.noConfusion h
      · have hfacts := (txStreamProcessInt256Field_facts c none TX_MAX_INT256_LENGTH hpf hple).2 o2 c2 hacc
        obtain ⟨hf1, hf2, hf3, hf4, hf5⟩ := hfacts
        constructor
        · intro e0 h
          dsimp only at h
          exact Except.noConfusion h
        · intro st c' h
          dsimp only at h
          simp only [Except.ok.injEq, Prod.mk.injEq] at h
          obtain ⟨hst, hc'⟩ := h
          subst hc'
          subst hst
          refine ⟨hf1, hf2, ?_, ?_, ?_, ?_, ?_, ?_, ?_, ?_⟩
          · intro h'
            rw [h2] at h'
            exact absurd h' (by decide)
          · intro _
            show c2.currentField ≤ c.currentField + 1
            rcases hf5 with ⟨-, hcf, -, -⟩ | ⟨-, hcf⟩ <;> omega
          · intro h'
            exact absurd h' (by decide)
          · intro _ _ _ hpos2 hw1
            show c2.workBufferLength < c.workBufferLength
            rw [hf4, if_pos hpos2]
            split <;> omega
          · intro _ hpf'
            rcases hf5 with ⟨hpf2, hcf, hlt, htr⟩ | ⟨hpf2, -⟩
            · refine ⟨hcf, hlt, ?_, ?_, htr⟩
              · show TX_RLP_TYPE ≤ c2.currentField
                rw [hcf, h2] <;> decide
              · show c2.currentField ≤ TX_RLP_S
                rw [hcf, h2] <;> decide
            · have hpf2' : c2.isProcessingField = true := hpf'
              rw [hpf2] at hpf2'
              exact Bool.noConfusion hpf2'
          · show c2.workBufferLength ≤ c.workBufferLength
            rw [hf4]
            split
            · split <;> omega
            · omega
          · intro _
            exact Or.inr ⟨by rw [h2] <;> decide, by rw [h2] <;> decide⟩
          · intro _ _
            exact h1
    · rw [if_neg h2]
      by_cases h3 : c.currentField = TX_RLP_NONCE
      · rw [if_pos h3]
        rcases hacc : txStreamProcessInt256Field c none TX_MAX_INT256_LENGTH with e | ⟨o2, c2⟩
        · constructor
          · intro e0 h
            dsimp only at h
            injection h with h
            exact h ▸ ((txStreamProcessInt256Field_facts c none TX_MAX_INT256_LENGTH hpf hple).1 e hacc)
          · intro st c' h
            dsimp only at h
            exact Except.noConfusion h
        · have hfacts := (txStreamProcessInt256Field_facts c none TX_MAX_INT256_LENGTH hpf hple).2 o2 c2 hacc
          obtain ⟨hf1, hf2, hf3, hf4, hf5⟩ := hfacts
          constructor
          · intro e0 h
            dsimp only at h
            exact Except.noConfusion h
          · intro st c' h
            dsimp only at h
            simp only [Except.ok.injEq, Prod.mk.injEq] at h
            obtain ⟨hst, hc'⟩ := h
            subst hc'
            subst hst
            refine ⟨hf1, hf2, ?_, ?_, ?_, ?_, ?_, ?_, ?_, ?_⟩
            · intro h'
              rw [h3] at h'
              exact absurd h' (by decide)
            · intro _
              show c2.currentField ≤ c.currentField + 1
              rcases hf5 with ⟨-, hcf, -, -⟩ | ⟨-, hcf⟩ <;> omega
            · intro h'
              exact absurd h' (by decide)
            · intro _ _ _ hpos2 hw1
              show c2.workBufferLength < c.workBufferLength
              rw [hf4, if_pos hpos2]
              split <;> omega
            · intro _ hpf'
              rcases hf5 with ⟨hpf2, hcf, hlt, htr⟩ | ⟨hpf2, -⟩
              · refine ⟨hcf, hlt, ?_, ?_, htr⟩
                · show TX_RLP_TYPE ≤ c2.currentField
                  rw [hcf, h3] <;> decide
                · show c2.currentField ≤ TX_RLP_S
                  rw [hcf, h3] <;> decide
              · have hpf2' : c2.isProcessingField = true := hpf'
                rw [hpf2] at hpf2'
                exact Bool.noConfusion hpf2'
            · show c2.workBufferLength ≤ c.workBufferLength
              rw [hf4]
              split
              · split <;> omega
              · omega
            · intro _
              exact Or.inr ⟨by rw [h3] <;> decide, by rw [h3] <;> decide⟩
            · intro _ _
              exact h1
      · rw [if_neg h3]
        by_cases h4 : c.currentField = TX_RLP_GAS_PRICE
        · rw [if_pos h4]
          rcases hacc : txStreamProcessInt256Field c (some c.tx.gasPrice) TX_MAX_INT256_LENGTH with e | ⟨o2, c2⟩
          · constructor
            · intro e0 h
              dsimp only at h
              injection h with h
              exact h ▸ ((txStreamProcessInt256Field_facts c (some c.tx.gasPrice) TX_MAX_INT256_LENGTH hpf hple).1 e hacc)
            · intro st c' h
              dsimp only at h
              exact Except.noConfusion h
          · have hfacts := (txStreamProcessInt256Field_facts c (some c.tx.gasPrice) TX_MAX_INT256_LENGTH hpf hple).2 o2 c2 hacc
            obtain ⟨hf1, hf2, hf3, hf4, hf5⟩ := hfacts
            constructor
            · intro e0 h
              dsimp only at h
              exact Except.noConfusion h
            · intro st c' h
              dsimp only at h
              simp only [Except.ok.injEq, Prod.mk.injEq] at h
              obtain ⟨hst, hc'⟩ := h
              subst hc'
              subst hst
              refine ⟨hf1, hf2, ?_, ?_, ?_, ?_, ?_, ?_, ?_, ?_⟩
              · intro h'
                rw [h4] at h'
                exact absurd h' (by decide)
              · intro _
                show c2.currentField ≤ c.currentField + 1
                rcases hf5 with ⟨-, hcf, -, -⟩ | ⟨-, hcf⟩ <;> omega
              · intro h'
                exact absurd h' (by decide)
              · intro _ _ _ hpos2 hw1
                show c2.workBufferLength < c.workBufferLength
                rw [hf4, if_pos hpos2]
                split <;> omega
              · intro _ hpf'
                rcases hf5 with ⟨hpf2, hcf, hlt, htr⟩ | ⟨hpf2, -⟩
                · refine ⟨hcf, hlt, ?_, ?_, htr⟩
                  · show TX_RLP_TYPE ≤ c2.currentField
                    rw [hcf, h4] <;> decide
                  · show c2.currentField ≤ TX_RLP_S
                    rw [hcf, h4] <;> decide
                · have hpf2' : c2.isProcessingField = true := hpf'
                  rw [hpf2] at hpf2'
                  exact Bool.noConfusion hpf2'
              · show c2.workBufferLength ≤ c.workBufferLength
                rw [hf4]
                split
                · split <;> omega
                · omega
              · intro _
                exact Or.inr ⟨by rw [h4] <;> decide, by rw [h4] <;> decide⟩
              · intro _ _
                exact h1
        · rw [if_neg h4]
          by_cases h5 : c.currentField = TX_RLP_START_GAS
          · rw [if_pos h5]
            rcases hacc : txStreamProcessInt256Field c (some c.tx.startGas) TX_MAX_INT256_LENGTH with e | ⟨o2, c2⟩
            · constructor
              · intro e0 h
                dsimp only at h
                injection h with h
                exact h ▸ ((txStreamProcessInt256Field_facts c (some c.tx.startGas) TX_MAX_INT256_LENGTH hpf hple).1 e hacc)
              · intro st c' h
                dsimp only at h
                exact Except.noConfusion h
            · have hfacts := (txStreamProcessInt256Field_facts c (some c.tx.startGas) TX_MAX_INT256_LENGTH hpf hple).2 o2 c2 hacc
              obtain ⟨hf1, hf2, hf3, hf4, hf5⟩ := hfacts
              constructor
              · intro e0 h
                dsimp only at h
                exact Except.noConfusion h
              · intro st c' h
                dsimp only at h
                simp only [Except.ok.injEq, Prod.mk.injEq] at h
                obtain ⟨hst, hc'⟩ := h
                subst hc'
                subst hst
                refine ⟨hf1, hf2, ?_, ?_, ?_, ?_, ?_, ?_, ?_, ?_⟩
                · intro h'
                  rw [h5] at h'
                  exact absurd h' (by decide)
                · intro _
                  show c2.currentField ≤ c.currentField + 1
                  rcases hf5 with ⟨-, hcf, -, -⟩ | ⟨-, hcf⟩ <;> omega
                · intro h'
                  exact absurd h' (by decide)
                · intro _ _ _ hpos2 hw1
                  show c2.workBufferLength < c.workBufferLength
                  rw [hf4, if_pos hpos2]
                  split <;> omega
                · intro _ hpf'
                  rcases hf5 with ⟨hpf2, hcf, hlt, htr⟩ | ⟨hpf2, -⟩
                  · refine ⟨hcf, hlt, ?_, ?_, htr⟩
                    · show TX_RLP_TYPE ≤ c2.currentField
                      rw [hcf, h5] <;> decide
                    · show c2.currentField ≤ TX_RLP_S
                      rw [hcf, h5] <;> decide
                  · have hpf2' : c2.isProcessingField = true := hpf'
                    rw [hpf2] at hpf2'
                    exact Bool.noConfusion hpf2'
                · show c2.workBufferLength ≤ c.workBufferLength
                  rw [hf4]
                  split
                  · split <;> omega
                  · omega
                · intro _
                  exact Or.inr ⟨by rw [h5] <;> decide, by rw [h5] <;> decide⟩
                · intro _ _
                  exact h1
          · rw [if_neg h5]
            by_cases h6 : c.currentField = TX_RLP_VALUE
            · rw [if_pos h6]
              rcases hacc : txStreamProcessInt256Field c (some c.tx.value) TX_MAX_INT256_LENGTH with e | ⟨o2, c2⟩
              · constructor
                · intro e0 h
                  dsimp only at h
                  injection h with h
                  exact h ▸ ((txStreamProcessInt256Field_facts c (some c.tx.value) TX_MAX_INT256_LENGTH hpf hple).1 e hacc)
                · intro st c' h
                  dsimp only at h
                  exact Except.noConfusion h
              · have hfacts := (txStreamProcessInt256Field_facts c (some c.tx.value) TX_MAX_INT256_LENGTH hpf hple).2 o2 c2 hacc
                obtain ⟨hf1, hf2, hf3, hf4, hf5⟩ := hfacts
                constructor
                · intro e0 h
                  dsimp only at h
                  exact Except.noConfusion h
                · intro st c' h
                  dsimp only at h
                  simp only [Except.ok.injEq, Prod.mk.injEq] at h
                  obtain ⟨hst, hc'⟩ := h
                  subst hc'
                  subst hst
                  refine ⟨hf1, hf2, ?_, ?_, ?_, ?_, ?_, ?_, ?_, ?_⟩
                  · intro h'
                    rw [h6] at h'
                    exact absurd h' (by decide)
                  · intro _
                    show c2.currentField ≤ c.currentField + 1
                    rcases hf5 with ⟨-, hcf, -, -⟩ | ⟨-, hcf⟩ <;> omega
                  · intro h'
                    exact absurd h' (by decide)
                  · intro _ _ _ hpos2 hw1
                    show c2.workBufferLength < c.workBufferLength
                    rw [hf4, if_pos hpos2]
                    split <;> omega
                  · intro _ hpf'
                    rcases hf5 with ⟨hpf2, hcf, hlt, htr⟩ | ⟨hpf2, -⟩
                    · refine ⟨hcf, hlt, ?_, ?_, htr⟩
                      · show TX_RLP_TYPE ≤ c2.currentField
                        rw [hcf, h6] <;> decide
                      · show c2.currentField ≤ TX_RLP_S
                        rw [hcf, h6] <;> decide
                    · have hpf2' : c2.isProcessingField = true := hpf'
                      rw [hpf2] at hpf2'
                      exact Bool.noConfusion hpf2'
                  · show c2.workBufferLength ≤ c.workBufferLength
                    rw [hf4]
                    split
                    · split <;> omega
                    · omega
                  · intro _
                    exact Or.inr ⟨by rw [h6] <;> decide, by rw [h6] <;> decide⟩
                  · intro _ _
                    exact h1
            · rw [if_neg h6]
              by_cases h7 : c.currentField = TX_RLP_RECIPIENT
              · rw [if_pos h7]
                rw [txStreamProcessAddressField_eq]
                rcases hacc : txStreamProcessInt256Field c (some c.tx.recipient) TX_MAX_ADDRESS_LENGTH with e | ⟨o2, c2⟩
                · constructor
                  · intro e0 h
                    dsimp only at h
                    injection h with h
                    exact h ▸ ((txStreamProcessInt256Field_facts c (some c.tx.recipient) TX_MAX_ADDRESS_LENGTH hpf hple).1 e hacc)
                  · intro st c' h
                    dsimp only at h
                    exact Except.noConfusion h
                · have hfacts := (txStreamProcessInt256Field_facts c (some c.tx.recipient) TX_MAX_ADDRESS_LENGTH hpf hple).2 o2 c2 hacc
                  obtain ⟨hf1, hf2, hf3, hf4, hf5⟩ := hfacts
                  constructor
                  · intro e0 h
                    dsimp only at h
                    exact Except.noConfusion h
                  · intro st c' h
                    dsimp only at h
                    simp only [Except.ok.injEq, Prod.mk.injEq] at h
                    obtain ⟨hst, hc'⟩ := h
                    subst hc'
                    subst hst
                    refine ⟨hf1, hf2, ?_, ?_, ?_, ?_, ?_, ?_, ?_, ?_⟩
                    · intro h'
                      rw [h7] at h'
                      exact absurd h' (by decide)
                    · intro _
                      show c2.currentField ≤ c.currentField + 1
                      rcases hf5 with ⟨-, hcf, -, -⟩ | ⟨-, hcf⟩ <;> omega
                    · intro h'
                      exact absurd h' (by decide)
                    · intro _ _ _ hpos2 hw1
                      show c2.workBufferLength < c.workBufferLength
                      rw [hf4, if_pos hpos2]
                      split <;> omega
                    · intro _ hpf'
                      rcases hf5 with ⟨hpf2, hcf, hlt, htr⟩ | ⟨hpf2, -⟩
                      · refine ⟨hcf, hlt, ?_, ?_, htr⟩
                        · show TX_RLP_TYPE ≤ c2.currentField
                          rw [hcf, h7] <;> decide
                        · show c2.currentField ≤ TX_RLP_S
                          rw [hcf, h7] <;> decide
                      · have hpf2' : c2.isProcessingField = true := hpf'
                        rw [hpf2] at hpf2'
                        exact Bool.noConfusion hpf2'
                    · show c2.workBufferLength ≤ c.workBufferLength
                      rw [hf4]
                      split
                      · split <;> omega
                      · omega
                    · intro _
                      exact Or.inr ⟨by rw [h7] <;> decide, by rw [h7] <;> decide⟩
                    · intro _ _
                      exact h1
              · rw [if_neg h7]
                by_cases h8 : c.currentField = TX_RLP_DATA ∨ c.currentField = TX_RLP_R ∨ c.currentField = TX_RLP_S
                · rw [if_pos h8]
                  rcases hacc : txStreamProcessInt256Field c none MAX_BUFFER_SIZE with e | ⟨o2, c2⟩
                  · constructor
                    · intro e0 h
                      dsimp only at h
                      injection h with h
                      exact h ▸ ((txStreamProcessInt256Field_facts c none MAX_BUFFER_SIZE hpf hple).1 e hacc)
                    · intro st c' h
                      dsimp only at h
                      exact Except.noConfusion h
                  · have hfacts := (txStreamProcessInt256Field_facts c none MAX_BUFFER_SIZE hpf hple).2 o2 c2 hacc
                    obtain ⟨hf1, hf2, hf3, hf4, hf5⟩ := hfacts
                    constructor
                    · intro e0 h
                      dsimp only at h
                      exact Except.noConfusion h
                    · intro st c' h
                      dsimp only at h
                      simp only [Except.ok.injEq, Prod.mk.injEq] at h
                      obtain ⟨hst, hc'⟩ := h
                      subst hc'
                      subst hst
                      refine ⟨hf1, hf2, ?_, ?_, ?_, ?_, ?_, ?_, ?_, ?_⟩
                      · intro h'
                        rcases h8 with hbr | hbr | hbr <;>
                          · rw [hbr] at h'
                            exact absurd h' (by decide)
                      · intro _
                        show c2.currentField ≤ c.currentField + 1
                        rcases hf5 with ⟨-, hcf, -, -⟩ | ⟨-, hcf⟩ <;> omega
                      · intro h'
                        exact absurd h' (by decide)
                      · intro _ _ _ hpos2 hw1
                        show c2.workBufferLength < c.workBufferLength
                        rw [hf4, if_pos hpos2]
                        split <;> omega
                      · intro _ hpf'
                        rcases hf5 with ⟨hpf2, hcf, hlt, htr⟩ | ⟨hpf2, -⟩
                        · refine ⟨hcf, hlt, ?_, ?_, htr⟩
                          · show TX_RLP_TYPE ≤ c2.currentField
                            rcases h8 with hbr | hbr | hbr <;>
                              · rw [hcf, hbr] <;> decide
                          · show c2.currentField ≤ TX_RLP_S
                            rcases h8 with hbr | hbr | hbr <;>
                              · rw [hcf, hbr] <;> decide
                        · have hpf2' : c2.isProcessingField = true := hpf'
                          rw [hpf2] at hpf2'
                          exact Bool.noConfusion hpf2'
                      · show c2.workBufferLength ≤ c.workBufferLength
                        rw [hf4]
                        split
                        · split <;> omega
                        · omega
                      · intro _
                        rcases h8 with hbr | hbr | hbr <;>
                          · exact Or.inr ⟨by rw [hbr] <;> decide, by rw [hbr] <;> decide⟩
                      · intro _ _
                        exact h1
                · rw [if_neg h8]
                  by_cases h9 : c.currentField = TX_RLP_V
                  · rw [if_pos h9]
                    rw [txStreamProcessVField_eq]
                    rcases hacc : txStreamProcessInt256Field c (some c.tx.v) TX_MAX_INT256_LENGTH with e | ⟨o2, c2⟩
                    · constructor
                      · intro e0 h
                        dsimp only at h
                        injection h with h
                        exact h ▸ ((txStreamProcessInt256Field_facts c (some c.tx.v) TX_MAX_INT256_LENGTH hpf hple).1 e hacc)
                      · intro st c' h
                        dsimp only at h
                        exact Except.noConfusion h
                    · have hfacts := (txStreamProcessInt256Field_facts c (some c.tx.v) TX_MAX_INT256_LENGTH hpf hple).2 o2 c2 hacc
                      obtain ⟨hf1, hf2, hf3, hf4, hf5⟩ := hfacts
                      constructor
                      · intro e0 h
                        dsimp only at h
                        exact Except.noConfusion h
                      · intro st c' h
                        dsimp only at h
                        simp only [Except.ok.injEq, Prod.mk.injEq] at h
                        obtain ⟨hst, hc'⟩ := h
                        subst hc'
                        subst hst
                        refine ⟨hf1, hf2, ?_, ?_, ?_, ?_, ?_, ?_, ?_, ?_⟩
                        · intro h'
                          rw [h9] at h'
                          exact absurd h' (by decide)
                        · intro _
                          show c2.currentField ≤ c.currentField + 1
                          rcases hf5 with ⟨-, hcf, -, -⟩ | ⟨-, hcf⟩ <;> omega
                        · intro h'
                          exact absurd h' (by decide)
                        · intro _ _ _ hpos2 hw1
                          show c2.workBufferLength < c.workBufferLength
                          rw [hf4, if_pos hpos2]
                          split <;> omega
                        · intro _ hpf'
                          rcases hf5 with ⟨hpf2, hcf, hlt, htr⟩ | ⟨hpf2, -⟩
                          · refine ⟨hcf, hlt, ?_, ?_, htr⟩
                            · show TX_RLP_TYPE ≤ c2.currentField
                              rw [hcf, h9] <;> decide
                            · show c2.currentField ≤ TX_RLP_S
                              rw [hcf, h9] <;> decide
                          · have hpf2' : c2.isProcessingField = true := hpf'
                            rw [hpf2] at hpf2'
                            exact Bool.noConfusion hpf2'
                        · show c2.workBufferLength ≤ c.workBufferLength
                          rw [hf4]
                          split
                          · split <;> omega
                          · omega
                        · intro _
                          exact Or.inr ⟨by rw [h9] <;> decide, by rw [h9] <;> decide⟩
                        · intro _ _
                          exact h1
                  · rw [if_neg h9]
                    constructor
                    · intro e0 h
                      exact Except.noConfusion h
                    · intro st c' h
                      simp only [Except.ok.injEq, Prod.mk.injEq] at h
                      obtain ⟨hst, hc'⟩ := h
                      subst hc'
                      subst hst
                      refine ⟨rfl, rfl, ?_, ?_, ?_, ?_, ?_, ?_, ?_, ?_⟩
                      · intro h'
                        exact absurd h' h1
                      · intro _
                        exact Nat.le_succ _
                      · intro _
                        rfl
                      · intro h'
                        exact absurd rfl h'
                      · intro h'
                        exact absurd rfl h'
                      · exact Nat.le_refl _
                      · intro h'
                        exact absurd rfl h'
                      · intro h'
                        exact absurd rfl h'

/-- The detector loop only reports `processing` or `fault`. -/
theorem txStreamDetectFieldGo_status (f : Nat) :
    ∀ c st cd c2, txStreamDetectFieldGo c f = .ok (st, cd, c2) → st ≠ .finished := by
  induction f with
  | zero =>
    intro c st cd c2 h
    simp only [txStreamDetectFieldGo, Except.ok.injEq, Prod.mk.injEq] at h
    obtain ⟨h1, -, -⟩ := h
    subst h1
    decide
  | succ n ih =>
    intro c st cd c2 h
    rw [txStreamDetectFieldGo] at h
    by_cases h0 : c.workBufferLength = 0
    · rw [if_pos h0] at h
      simp only [Except.ok.injEq, Prod.mk.injEq] at h
      obtain ⟨h1, -, -⟩ := h
      subst h1
      decide
    · rw [if_neg h0] at h
      by_cases h1 : c.rlpBufferPos = RLP_LENGTH_BUFFER_SIZE
      · rw [if_pos h1] at h
        simp only [Except.ok.injEq, Prod.mk.injEq] at h
        obtain ⟨h1, -, -⟩ := h
        subst h1
        decide
      · rw [if_neg h1] at h
        rcases hr : txStreamReadByte c with eb | ⟨b, c0⟩
        · rw [hr] at h
          exact Except.noConfusion h
        · rw [hr] at h
          dsimp only at h
          rcases hcd : rlpCanDecode ((c0.rlpBuffer.set c0.rlpBufferPos b).take
              (c0.rlpBufferPos + 1)) with - | v
          · rw [hcd] at h
            exact ih _ _ _ _ h
          · rcases v with - | - <;>
              · rw [hcd] at h
                simp only [Except.ok.injEq, Prod.mk.injEq] at h
                obtain ⟨h1, -, -⟩ := h
                subst h1
                decide

/-- The persistent fields the field detector keeps, in projection form. -/
theorem txStreamDetectField_keep (ctx c : tx_stream_context_t)
    (st : tx_stream_status_e) (cd : Bool)
    (h : txStreamDetectField ctx = .ok (st, cd, c)) :
    c.currentField = ctx.currentField ∧ c.processingFlags = ctx.processingFlags ∧
    c.currentFieldLength = ctx.currentFieldLength ∧
    c.isCurrentFieldList = ctx.isCurrentFieldList ∧
    c.isFieldSingleByte = ctx.isFieldSingleByte ∧
    c.isProcessingField = ctx.isProcessingField ∧ c.workBuffer = ctx.workBuffer ∧
    c.tx = ctx.tx := by
  have hper := txStreamDetectFieldGo_persist ctx.workBufferLength ctx
  rw [txStreamDetectField] at h
  rw [h] at hper
  simp only [detCtx, detPersist, Prod.mk.injEq] at hper
  exact ⟨hper.1, hper.2.1, hper.2.2.2.1, hper.2.2.2.2.1, hper.2.2.2.2.2.1,
    hper.2.2.2.2.2.2.1, hper.2.2.2.2.2.2.2.1, hper.2.2.2.2.2.2.2.2⟩

/-- Parse-loop iteration whose decoded header is rejected by the length
primitive: the step exits `fault`. -/
theorem txStreamParseStep_decodeNone (c c1 : tx_stream_context_t)
    (h1 : c.currentField ≠ TX_RLP_DONE)
    (h2 : ¬ (c.currentField = TX_RLP_V ∧ c.workBufferLength = 0))
    (h3 : c.workBufferLength ≠ 0)
    (h4 : c.isProcessingField = false)
    (hdet : txStreamDetectField c = .ok (.processing, true, c1))
    (hdec : rlpDecodeLength (c1.rlpBuffer.take c1.rlpBufferPos) = none) :
    txStreamParseStep c = .ok (some .fault, c1) := by
  unfold txStreamParseStep
  rw [if_neg h1, if_neg h2, if_neg h3, h4]
  simp only [Bool.not_false, if_true, hdet, hdec]
  rfl

/-- Single-sided bookkeeping of one parse-loop iteration: a non-fault
result keeps the flags word and the loop invariant, and a looping
iteration strictly consumes input. -/
theorem txStreamParseStep_facts (c : tx_stream_context_t) (hB : BInv3 c)
    (hwb : c.workPos + c.workBufferLength ≤ c.workBuffer.length) :
    ∀ o c', txStreamParseStep c = .ok (o, c') → o ≠ some .fault →
      c'.processingFlags = c.processingFlags ∧ BInv3 c' ∧
      (o = none → c'.workBufferLength < c.workBufferLength) := by
  intro o c' h ho
  by_cases hd : c.currentField = TX_RLP_DONE
  · rw [txStreamParseStep_done c hd] at h
    simp only [Except.ok.injEq, Prod.mk.injEq] at h
    obtain ⟨ho1, hc⟩ := h
    subst hc
    subst ho1
    exact ⟨rfl, hB, fun hn => Option.noConfusion hn⟩
  · by_cases hv : c.currentField = TX_RLP_V ∧ c.workBufferLength = 0
    · rw [txStreamParseStep_legacy c hv.1 hv.2] at h
      simp only [Except.ok.injEq, Prod.mk.injEq] at h
      obtain ⟨ho1, hc⟩ := h
      subst hc
      subst ho1
      exact ⟨rfl, ⟨hB.1, fun hpf' => hB.2 hpf'⟩, fun hn => Option.noConfusion hn⟩
    · by_cases h0 : c.workBufferLength = 0
      · rw [txStreamParseStep_empty c hd (fun hveq => hv ⟨hveq, h0⟩) h0] at h
        simp only [Except.ok.injEq, Prod.mk.injEq] at h
        obtain ⟨ho1, hc⟩ := h
        subst hc
        subst ho1
        exact ⟨rfl, hB, fun hn => Option.noConfusion hn⟩
      · by_cases hpf : c.isProcessingField = true
        · rw [txStreamParseStep_resume c hd hv h0 hpf] at h
          obtain ⟨hsb0, hlt0, hty0, hs0⟩ := hB.2 hpf
          have hple : c.currentFieldPos ≤ c.currentFieldLength := Nat.le_of_lt hlt0
          rcases hpx : txStreamParseFieldProxy c with e | ⟨st, c2⟩
          · rw [hpx] at h
            exact Except.noConfusion h
          · rw [hpx] at h
            dsimp only at h
            obtain ⟨hp1, hp2, hp3, hp4, hp5, hp6, hp7, hp8, hp9, hp10⟩ :=
              (txStreamParseFieldProxy_facts c hpf hple).2 st c2 hpx
            by_cases hst : st = .fault
            · rw [if_pos hst] at h
              simp only [Except.ok.injEq, Prod.mk.injEq] at h
              obtain ⟨ho1, hc⟩ := h
              subst hc
              exact absurd ho1.symm ho
            · rw [if_neg hst] at h
              simp only [Except.ok.injEq, Prod.mk.injEq] at h
              obtain ⟨ho1, hc⟩ := h
              subst hc
              subst ho1
              refine ⟨hp1, ⟨?_, ?_⟩, fun _ => hp6 hst hty0 hs0 hlt0 (by omega)⟩
              · have h4' := hp4 (by
                  intro hE
                  rw [hE] at hty0
                  exact absurd hty0 (by decide))
                have hS' : c.currentField ≤ 11 := by simpa [TX_RLP_S] using hs0
                show c2.currentField ≤ TX_RLP_DONE
                simp only [TX_RLP_DONE]
                omega
              · intro hpf2
                obtain ⟨hcf2, hlt2, hty2, hsl2, -⟩ := hp7 hst hpf2
                exact ⟨hp2.trans hsb0, hlt2, hty2, hsl2⟩
        · have hpf4 : c.isProcessingField = false := by simpa using hpf
          rcases hdet : txStreamDetectField c with e | ⟨st, cd, c1⟩
          · rw [txStreamDetectField] at hdet
            exact absurd hdet (txStreamDetectFieldGo_noerror _ _ _)
          · obtain ⟨hk1, hk2, hk3, hk4, hk5, hk6, hk7, hk8⟩ :=
              txStreamDetectField_keep c c1 st cd hdet
            obtain ⟨k, hkle, hk1b, hwp1, hwl1, hhd1⟩ :=
              txStreamDetectFieldGo_cursor c.workBufferLength c hpf4 hwb st cd c1
                (by rw [txStreamDetectField] at hdet; exact hdet)
            have hstnf : st ≠ .finished :=
              txStreamDetectFieldGo_status c.workBufferLength c st cd c1
                (by rw [txStreamDetectField] at hdet; exact hdet)
            cases st with
            | finished => exact absurd rfl hstnf
            | fault =>
              rw [txStreamParseStep_detectFault c c1 cd hd hv h0 hpf4 hdet] at h
              simp only [Except.ok.injEq, Prod.mk.injEq] at h
              obtain ⟨ho1, hc⟩ := h
              subst hc
              exact absurd ho1.symm ho
            | processing =>
              cases cd with
              | false =>
                rw [txStreamParseStep_pending c c1 hd hv h0 hpf4 hdet] at h
                simp only [Except.ok.injEq, Prod.mk.injEq] at h
                obtain ⟨ho1, hc⟩ := h
                subst hc
                subst ho1
                refine ⟨hk2, ⟨?_, ?_⟩, fun hn => Option.noConfusion hn⟩
                · rw [hk1]
                  exact hB.1
                · intro hpf1
                  rw [hk6, hpf4] at hpf1
                  exact Bool.noConfusion hpf1
              | true =>
                rcases hdec : rlpDecodeLength (c1.rlpBuffer.take c1.rlpBufferPos)
                    with - | ⟨n, off, Lf⟩
                · rw [txStreamParseStep_decodeNone c c1 hd hv h0 hpf4 hdet hdec] at h
                  simp only [Except.ok.injEq, Prod.mk.injEq] at h
                  obtain ⟨ho1, hc⟩ := h
                  subst hc
                  exact absurd ho1.symm ho
                · rw [txStreamParseStep_detect c c1 n off Lf hd hv h0 hpf4 hdet hdec] at h
                  obtain ⟨hcF1, hcF2, hcF3, hcF4, hcF5, hcF6, hcF7, hcF8, hcF9,
                    hcF10, hcF11, hcF12, hcF13, hcF14, hcF15⟩ :=
                    fieldStart_proj c1 n off Lf
                  have hpleF : (fieldStart c1 n off Lf).currentFieldPos ≤
                      (fieldStart c1 n off Lf).currentFieldLength := by
                    rw [hcF4]
                    exact Nat.zero_le _
                  rcases hpx : txStreamParseFieldProxy (fieldStart c1 n off Lf)
                      with e | ⟨st2, c2⟩
                  · rw [hpx] at h
                    exact Except.noConfusion h
                  · rw [hpx] at h
                    dsimp only at h
                    obtain ⟨hp1, hp2, hp3, hp4, hp5, hp6, hp7, hp8, hp9, hp10⟩ :=
                      (txStreamParseFieldProxy_facts (fieldStart c1 n off Lf)
                        hcF7 hpleF).2 st2 c2 hpx
                    by_cases hst2 : st2 = .fault
                    · rw [if_pos hst2] at h
                      simp only [Except.ok.injEq, Prod.mk.injEq] at h
                      obtain ⟨ho1, hc⟩ := h
                      subst hc
                      exact absurd ho1.symm ho
                    · rw [if_neg hst2] at h
                      simp only [Except.ok.injEq, Prod.mk.injEq] at h
                      obtain ⟨ho1, hc⟩ := h
                      subst hc
                      subst ho1
                      have hk1' : 1 ≤ k := hk1b rfl
                      refine ⟨hp1.trans (hcF2.trans hk2), ⟨?_, ?_⟩, fun _ => ?_⟩
                      · rcases hp9 hst2 with hE | ⟨hty, hsle⟩
                        · have := hp3 hE
                          show c2.currentField ≤ TX_RLP_DONE
                          simp only [TX_RLP_NONCE] at this
                          simp only [TX_RLP_DONE]
                          omega
                        · have h4' := hp4 (by
                            intro hE
                            rw [hE] at hty
                            exact absurd hty (by decide))
                          have hS' : (fieldStart c1 n off Lf).currentField ≤ 11 := by
                            simpa [TX_RLP_S] using hsle
                          show c2.currentField ≤ TX_RLP_DONE
                          simp only [TX_RLP_DONE]
                          omega
                      · intro hpf2
                        obtain ⟨hcf2, hlt2, hty2, hsl2, htr2⟩ := hp7 hst2 hpf2
                        refine ⟨?_, hlt2, hty2, hsl2⟩
                        by_cases hoff : off = 0
                        · exfalso
                          subst hoff
                          obtain ⟨hn1, -⟩ := rlpDecodeLength_offset0 _ n Lf hdec
                          have e1 : (fieldStart c1 n 0 Lf).currentFieldLength = 1 := by
                            rw [hcF3, hn1]
                          have e3 : (fieldStart c1 n 0 Lf).workBufferLength =
                              c1.workBufferLength + 1 := by
                            rw [hcF12]
                            rfl
                          omega
                        · rw [hp2, hcF6]
                          simp [hoff]
                      · by_cases hoff : off = 0
                        · subst hoff
                          obtain ⟨hn1, hLf⟩ := rlpDecodeLength_offset0 _ n Lf hdec
                          have e3 : (fieldStart c1 n 0 Lf).workBufferLength =
                              c1.workBufferLength + 1 := by
                            rw [hcF12]
                            rfl
                          have hacc : TX_RLP_TYPE ≤ (fieldStart c1 n 0 Lf).currentField ∧
                              (fieldStart c1 n 0 Lf).currentField ≤ TX_RLP_S := by
                            rcases hp9 hst2 with hE | hA
                            · exfalso
                              exact hp10 hst2 (by rw [hcF5, hLf]) hE
                            · exact hA
                          have hcons := hp6 hst2 hacc.1 hacc.2
                            (by rw [hcF4, hcF3, hn1]; exact Nat.zero_lt_one)
                            (by rw [e3]; omega)
                          omega
                        · rw [if_neg hoff] at hcF12
                          have := hp8
                          rw [hcF12] at this
                          omega

/-- Single-sided bookkeeping of a whole parse run: a non-fault result
keeps the flags word, the loop invariant, and the cursor bound. -/
theorem txStreamParseGo_facts (fuel : Nat) :
    ∀ c, BInv3 c → c.workPos + c.workBufferLength ≤ c.workBuffer.length →
      ∀ s c', txStreamParseGo c fuel = .ok (s, c') → s ≠ .fault →
        c'.processingFlags = c.processingFlags ∧ BInv3 c' ∧
        c'.workPos + c'.workBufferLength ≤ c'.workBuffer.length := by
  induction fuel with
  | zero =>
    intro c hB hwb s c' h hs
    simp only [txStreamParseGo, Except.ok.injEq, Prod.mk.injEq] at h
    obtain ⟨-, hc⟩ := h
    subst hc
    exact ⟨rfl, hB, hwb⟩
  | succ n ih =>
    intro c hB hwb s c' h hs
    rw [txStreamParseGo] at h
    rcases hstep : txStreamParseStep c with e | ⟨o, c1⟩
    · rw [hstep] at h
      exact Except.noConfusion h
    · rw [hstep] at h
      rcases o with - | s0
      · dsimp only at h
        have hnf : (none : Option tx_stream_status_e) ≠ some .fault := by
          intro hh
          exact Option.noConfusion hh
        obtain ⟨hf1, hf2, -⟩ := txStreamParseStep_facts c hB hwb none c1 hstep hnf
        obtain ⟨t, htle, hwb', hwp', hwl', -, -⟩ :=
          txStreamParseStep_inv c hwb (fun hp => (hB.2 hp).1) none c1 hstep hnf
        have hwb1 : c1.workPos + c1.workBufferLength ≤ c1.workBuffer.length := by
          rw [hwb', hwp', hwl']
          omega
        obtain ⟨hg1, hg2, hg3⟩ := ih c1 hf2 hwb1 s c' h hs
        exact ⟨hg1.trans hf1, hg2, hg3⟩
      · dsimp only at h
        simp only [Except.ok.injEq, Prod.mk.injEq] at h
        obtain ⟨hs0, hc⟩ := h
        subst hc
        subst hs0
        have hnf : some s0 ≠ some tx_stream_status_e.fault := by
          intro hh
          injection hh with hh
          exact hs hh
        obtain ⟨hf1, hf2, -⟩ := txStreamParseStep_facts c hB hwb (some s0) c1 hstep hnf
        obtain ⟨t, htle, hwb', hwp', hwl', -, -⟩ :=
          txStreamParseStep_inv c hwb (fun hp => (hB.2 hp).1) (some s0) c1 hstep hnf
        refine ⟨hf1, hf2, ?_⟩
        rw [hwb', hwp', hwl']
        omega

/-- Closed form of the scalar accumulator on an open, in-bounds scalar
field: copy the bounded amount and either complete the field or stay
inside it. -/
theorem txStreamProcessInt256Field_shape (c : tx_stream_context_t)
    (f : Option tx_int256_t) (fs : Nat)
    (hlst : ¬ c.isCurrentFieldList = true) (hcap : c.currentFieldLength ≤ fs)
    (hpos : c.currentFieldPos < c.currentFieldLength)
    (hpf : c.isProcessingField = true) (hsb : c.isFieldSingleByte = false)
    (T : Nat)
    (hTmin : T = if c.workBufferLength < c.currentFieldLength - c.currentFieldPos
      then c.workBufferLength else c.currentFieldLength - c.currentFieldPos) :
    txStreamProcessInt256Field c f fs =
      if c.currentFieldPos + T = c.currentFieldLength then
        .ok (f.map (fun a =>
            { value := listWriteAt a.value c.currentFieldPos ((c.workBuffer.drop c.workPos).take T),
              length := c.currentFieldLength }),
          { c with workPos := c.workPos + T,
                   workBufferLength := c.workBufferLength - T,
                   currentFieldPos := c.currentFieldPos + T,
                   hashData := c.hashData ++ (c.workBuffer.drop c.workPos).take T,
                   hashLog := c.hashLog ++
                     [HashEv.copyB ((c.workBuffer.drop c.workPos).take T)],
                   currentField := c.currentField + 1,
                   isProcessingField := false })
      else
        .ok (f.map (fun a =>
            { a with value := listWriteAt a.value c.currentFieldPos ((c.workBuffer.drop c.workPos).take T) }),
          { c with workPos := c.workPos + T,
                   workBufferLength := c.workBufferLength - T,
                   currentFieldPos := c.currentFieldPos + T,
                   hashData := c.hashData ++ (c.workBuffer.drop c.workPos).take T,
                   hashLog := c.hashLog ++
                     [HashEv.copyB ((c.workBuffer.drop c.workPos).take T)] }) := by
  have hTle : T ≤ c.workBufferLength := by rw [hTmin]; split <;> omega
  unfold txStreamProcessInt256Field
  rw [if_neg hlst, if_neg (not_not_intro hcap), if_pos hpos]
  dsimp only
  rw [← hTmin]
  rcases f with - | a
  · dsimp only
    rw [txStreamCopyData_shape c none T hTle]
    dsimp only
    rw [if_pos hpf]
    simp only [if_neg (show ¬ ((c.isProcessingField && c.isFieldSingleByte) = true)
      from by rw [hpf, hsb]; decide)]
    by_cases hdone : c.currentFieldPos + T = c.currentFieldLength
    · rw [if_pos hdone, if_pos hdone]
      rfl
    · rw [if_neg hdone, if_neg hdone]
      rfl
  · dsimp only
    rw [txStreamCopyData_shape c (some (a.value, c.currentFieldPos)) T hTle]
    dsimp only
    rw [if_pos hpf]
    simp only [if_neg (show ¬ ((c.isProcessingField && c.isFieldSingleByte) = true)
      from by rw [hpf, hsb]; decide)]
    simp only [Option.map, Option.getD]

end TxStream
